import Mathlib

/-!
# Verification of the marko 4.18.39 browser runtime bundle

This development gives a shallow embedding, in Lean 4, of the core of the
virtual-DOM runtime bundled in this repository (the `marko$4.18.39` modules of
the bundle file): the virtual-node model (`VNode`, `VElement`), the key
collision sequence (`KeySequence`), the linked-list traversal getters
(`___firstChild` / `___nextSibling`), the async builder (`AsyncVDOMBuilder`)
and its event emitter, the component update shortcut (`processUpdateHandlers` /
`Component.prototype.update`), and the reconciler (`morphdom` / `morphChildren`
/ `morphEl` / `VElement.___morphAttrs` / `specialElHandlers`).

Conventions used throughout:
* JavaScript dictionaries are embedded as association lists.
* Machine-level JS values that matter to the embedded code paths (strings,
  booleans, `null`/`undefined`, numbers) are embedded as the inductive
  `AttrVal`; JS truthiness tests are made explicit where the source relies on
  them.
* Thrown exceptions are embedded with `Except`.
* Mutable heap state (the real DOM, the `WeakMap` side tables keyed by DOM
  node, the per-component keyed-element tables) is embedded as an explicit
  state record threaded through the functions.
-/

set_option maxHeartbeats 1000000

namespace Marko

/-- String constants of the source, named so that literals appear once. -/
def strTextarea : String := "textarea"

def strXlinkHref : String := "xlink:href"

def nsXlink : String := "http://www.w3.org/1999/xlink"

def strHref : String := "href"

def strClass : String := "class"

def strIdAttr : String := "id"

def strStyle : String := "style"

def strCheckbox : String := "checkbox"

def strRadio : String := "radio"

def strOn : String := "on"

def strValue : String := "value"

def strChecked : String := "checked"

def strSelected : String := "selected"

def strDisabled : String := "disabled"

def strMultiple : String := "multiple"

def strOption : String := "option"

def strInput : String := "input"

def strSelect : String := "select"

def strButton : String := "button"

def atSign : String := "@"

def underscore : String := "_"

def colon : String := ":"

/-- Errors thrown by the embedded code (`throw TypeError()`, `throw Error(msg)`). -/
inductive JsError where
  | typeError : JsError
  | error : String → JsError
  deriving DecidableEq, Repr

/-- Association-list lookup with `String` keys (embeds JS object property read;
`none` plays the role of `undefined`). -/
def alookup {α : Type} (m : List (String × α)) (k : String) : Option α :=
  match m with
  | [] => none
  | (k2, v) :: rest => if k2 = k then some v else alookup rest k

/-- Association-list store (embeds JS object property write): replaces in
place, or appends a new entry at the end, matching JS property-insertion
order. -/
def astore {α : Type} (m : List (String × α)) (k : String) (v : α) :
    List (String × α) :=
  match m with
  | [] => [(k, v)]
  | (k2, v2) :: rest =>
    if k2 = k then (k2, v) :: rest else (k2, v2) :: astore rest k v

/-- Association-list delete (embeds the JS `delete` operator). -/
def adelete {α : Type} (m : List (String × α)) (k : String) :
    List (String × α) :=
  match m with
  | [] => []
  | (k2, v2) :: rest => if k2 = k then rest else (k2, v2) :: adelete rest k

/-- Lookup in a `Nat`-keyed association list (embeds reads of the `WeakMap`
side tables keyed by real DOM nodes, with nodes named by allocation number). -/
def nlookup {α : Type} (m : List (Nat × α)) (k : Nat) : Option α :=
  match m with
  | [] => none
  | (k2, v) :: rest => if k2 = k then some v else nlookup rest k

/-- Store in a `Nat`-keyed association list (embeds `WeakMap.prototype.set`). -/
def nstore {α : Type} (m : List (Nat × α)) (k : Nat) (v : α) :
    List (Nat × α) :=
  match m with
  | [] => [(k, v)]
  | (k2, v2) :: rest =>
    if k2 = k then (k2, v) :: rest else (k2, v2) :: nstore rest k v

/-- Delete from a `Nat`-keyed association list (embeds
`WeakMap.prototype.set(node, undefined)` / `delete`). -/
def ndelete {α : Type} (m : List (Nat × α)) (k : Nat) : List (Nat × α) :=
  match m with
  | [] => []
  | (k2, v2) :: rest => if k2 = k then rest else (k2, v2) :: ndelete rest k

/-!
## `VNode.prototype.___appendChild`

Embedded from `src/runtime/vdom/VNode` (bundle lines 853–881).  The child is
described by the fields the method inspects: the `___Text` marker, the
`___preserve` flag, and `___nodeValue`.  The parent is described by
`___nodeName` (only element nodes have one — `Option String`), the live child
counter, the linked child list (embedded as a `List`, appended at the tail
exactly as the `___lastChild` pointer update does), the accumulated
`___valueInternal` of a textarea, and the `___preserveTextAreaValue` flag.
-/

/-- The fields of an appended child virtual node that
`VNode.prototype.___appendChild` inspects. -/
structure VChildNode where
  isText : Bool
  preserve : Bool
  nodeValue : String
  deriving DecidableEq, Repr

/-- The fields of the parent virtual node that `___appendChild` reads and
writes. -/
structure VParentNode where
  nodeName : Option String
  childCount : Nat
  children : List VChildNode
  valueInternal : Option String
  preserveTextAreaValue : Bool
  deriving DecidableEq, Repr

/-- JS `this.___valueInternal || ""` (both `null` and the empty string are
falsy, and both produce `""` here, so `Option.getD` is an exact embedding). -/
def jsStrOr (v : Option String) : String := v.getD ""

/-- `VNode.prototype.___appendChild` (bundle lines 853–881).  The child
counter is incremented before the textarea dispatch, exactly as in the
source; a textarea parent concatenates text children onto `___valueInternal`
(without linking them), records `___preserve` children in
`___preserveTextAreaValue`, and throws `TypeError` otherwise; any other
parent links the child as the new last child. -/
def VParentNode.appendChild (p : VParentNode) (child : VChildNode) :
    Except JsError VParentNode :=
  let p2 : VParentNode := { p with childCount := p.childCount + 1 }
  if p2.nodeName = some strTextarea then
    if child.isText then
      Except.ok { p2 with
        valueInternal := some (jsStrOr p2.valueInternal ++ child.nodeValue) }
    else if child.preserve then
      Except.ok { p2 with preserveTextAreaValue := true }
    else
      Except.error JsError.typeError
  else
    Except.ok { p2 with children := p2.children ++ [child] }

/-!
## `KeySequence`

Embedded from `src/runtime/components/KeySequence` (bundle lines 4819–4844).
The JS source reads `lookup[key]++`: on a missing property this evaluates to
`NaN` (falsy), the counter is then set to `1` and the key returned verbatim;
on a stored counter `n ≥ 1` it returns `key + "_" + n` and stores `n + 1`.
A stored `0` is falsy and is treated like a missing property, which the
embedding mirrors (no reachable state stores `0`).
-/

/-- The `___lookup` table of a `KeySequence`. -/
def KeySequence := List (String × Nat)

instance : DecidableEq KeySequence := by
  unfold KeySequence
  infer_instance

/-- A freshly constructed `KeySequence` (empty `___lookup`). -/
def KeySequence.fresh : KeySequence := []

/-- `KeySequence.prototype.___nextKey` (bundle lines 4824–4840). -/
def KeySequence.nextKey (s : KeySequence) (key : String) :
    String × KeySequence :=
  match alookup s key with
  | none => (key, astore s key 1)
  | some n =>
    if n = 0 then (key, astore s key 1)
    else (key ++ underscore ++ toString n, astore s key (n + 1))

/-- Run a list of `___nextKey` calls, keeping only the evolving lookup
state. -/
def KeySequence.applyAll (s : KeySequence) : List String → KeySequence
  | [] => s
  | k :: ks => KeySequence.applyAll (s.nextKey k).2 ks

/-- The counter stored for a key (`0` embeds a missing property, which the
source treats identically to a falsy stored value). -/
def KeySequence.stored (s : KeySequence) (k : String) : Nat :=
  match alookup s k with
  | none => 0
  | some n => n


/-!
## The `___firstChild` / `___nextSibling` getters of `VNode`

Embedded from `src/runtime/vdom/VNode` (bundle lines 820–851).  The virtual
nodes of the builder form a mutable linked structure
(`___firstChildInternal`, `___nextSiblingInternal`, `___parentNode`), which
the embedding represents as a store of records addressed by allocation
number.  The getters recurse through `VDocumentFragment` nodes (the nodes
carrying the `___DocumentFragment` marker, bundle lines 988–1021); the
recursion is bounded here by an explicit fuel (`none` = fuel exhausted; any
fuel larger than the store suffices on an acyclic store).
-/

/-- One virtual node of the linked builder structure: the three link fields
plus the `___DocumentFragment` marker the getters test. -/
structure LNode where
  firstChildInternal : Option Nat
  nextSiblingInternal : Option Nat
  parentNode : Option Nat
  isDocFragment : Bool
  deriving DecidableEq, Repr

/-- The linked store of virtual nodes, addressed by allocation number. -/
def LStore := List (Nat × LNode)

instance : DecidableEq LStore := by
  unfold LStore
  infer_instance

mutual

/-- The `___firstChild` getter (bundle lines 820–833): if the first child is
a `___DocumentFragment`, delegate to that fragment's own `___firstChild` and
fall back to the fragment's `___nextSibling` when the fragment is empty. -/
def lFirstChild (s : LStore) : Nat → Nat → Option (Option Nat)
  | 0, _ => none
  | fuel + 1, i =>
    match nlookup s i with
    | none => some none
    | some nd =>
      match nd.firstChildInternal with
      | none => some none
      | some c =>
        match nlookup s c with
        | none => some (some c)
        | some cd =>
          if cd.isDocFragment then
            match lFirstChild s fuel c with
            | none => none
            | some (some x) => some (some x)
            | some none => lNextSibling s fuel c
          else some (some c)

/-- The `___nextSibling` getter (bundle lines 835–851): an internal next
sibling that is a `___DocumentFragment` is entered (its first child, else its
next sibling); with no internal next sibling, the last child of a
`___DocumentFragment` parent falls through to the parent's `___nextSibling`. -/
def lNextSibling (s : LStore) : Nat → Nat → Option (Option Nat)
  | 0, _ => none
  | fuel + 1, i =>
    match nlookup s i with
    | none => some none
    | some nd =>
      match nd.nextSiblingInternal with
      | some nxt =>
        match nlookup s nxt with
        | none => some (some nxt)
        | some nx =>
          if nx.isDocFragment then
            match lFirstChild s fuel nxt with
            | none => none
            | some (some x) => some (some x)
            | some none => lNextSibling s fuel nxt
          else some (some nxt)
      | none =>
        match nd.parentNode with
        | some p =>
          match nlookup s p with
          | none => some none
          | some pd =>
            if pd.isDocFragment then lNextSibling s fuel p else some none
        | none => some none

end

/-!
## `processUpdateHandlers` and `Component.prototype.update`

Embedded from `src/runtime/components/Component` (bundle lines 5430–5471 and
5807–5859).  State values are embedded as `Option SVal` inside the change
set (`state.___set` stores `undefined` in `___changes` for a deleted
property) and as `SVal` in the raw old-state snapshot.  Handler invocation,
the `update` lifecycle event, and re-render scheduling are recorded as
effects; the handler bodies themselves are external user code.
-/

/-- The type of component state values in the embedding. -/
def SVal := String

instance : DecidableEq SVal := by
  unfold SVal
  infer_instance

/-- The dirty-tracking part of a component `State` (bundle lines 4728–4738):
the `___dirty` flag, the `___changes` map, and the `___old` raw snapshot. -/
structure ComponentState where
  dirty : Bool
  changes : List (String × Option SVal)
  old : List (String × SVal)
  deriving DecidableEq

/-- The fields of a `Component` instance that `update` reads and writes.
`handlers` is the set of state keys `k` for which `component["update_" + k]`
is a truthy user-supplied method; `shouldUpdateResult` is the value returned
by the (user-overridable) `shouldUpdate`; `hasRenderer` is the truthiness of
`___renderer` checked by `___scheduleRerender`. -/
structure Component9 where
  destroyed : Bool
  dirty : Bool
  updateQueued : Bool
  state : Option ComponentState
  handlers : List String
  shouldUpdateResult : Bool
  hasRenderer : Bool
  deriving DecidableEq

/-- The observable effects of one `update()` call. -/
structure UpdateEffects where
  handlerCalls : List (String × Option SVal × Option SVal)
  emittedUpdate : Bool
  rerenderScheduled : Bool
  deriving DecidableEq

/-- No effects. -/
def UpdateEffects.none : UpdateEffects :=
  { handlerCalls := [], emittedUpdate := false, rerenderScheduled := false }

/-- The getter `Component.prototype.___isDirty` (bundle lines 5844–5849). -/
def Component9.isDirty (c : Component9) : Bool :=
  c.dirty || (match c.state with
    | some s => s.dirty
    | none => false)

/-- `Component.prototype.___reset` (bundle lines 5851–5859), including
`State.prototype.___reset` on the attached state. -/
def Component9.reset (c : Component9) : Component9 :=
  { c with
    dirty := false
    updateQueued := false
    state := c.state.map (fun _ => { dirty := false, changes := [], old := [] }) }

/-- The collection loop of `processUpdateHandlers` (bundle lines 5434–5447):
walk the changed properties in insertion order; collect those with a truthy
`update_<prop>` method; return `none` (the JS early `return` of `undefined`)
as soon as one changed property has no handler. -/
def collectHandlers (handlers : List String) :
    List (String × Option SVal) → Option (List String)
  | [] => some []
  | (p, _) :: rest =>
    if p ∈ handlers then (collectHandlers handlers rest).map (fun l => p :: l)
    else none

/-- `processUpdateHandlers` (bundle lines 5430–5471).  Returns the JS result
coerced to `Bool` (`false` embeds the falsy `undefined` early return), the
updated component (the handler branch ends in `component.___reset()`), and
the effects: one handler call per changed property, with
`(stateChanges[prop], oldState[prop])`, then the `update` lifecycle event. -/
def processUpdateHandlers (c : Component9) (stateChanges : List (String × Option SVal))
    (oldState : List (String × SVal)) : Bool × Component9 × UpdateEffects :=
  match collectHandlers c.handlers stateChanges with
  | none => (false, c, UpdateEffects.none)
  | some props =>
    match props with
    | [] => (true, c, UpdateEffects.none)
    | _ :: _ =>
      (true, c.reset,
        { handlerCalls :=
            props.map (fun p => (p, (alookup stateChanges p).getD none, alookup oldState p))
          emittedUpdate := true
          rerenderScheduled := false })

/-- `Component.prototype.___scheduleRerender` (bundle lines 5869–5884):
throws `TypeError` without a renderer; otherwise queues the re-render via
`updateManager.___batchUpdate` (recorded as an effect) and resets the
component. -/
def Component9.scheduleRerender (c : Component9) :
    Except JsError (Component9 × Bool) :=
  if c.hasRenderer then Except.ok (c.reset, true)
  else Except.error JsError.typeError

/-- `Component.prototype.update` (bundle lines 5807–5842): return early when
destroyed or not dirty; when only the state is dirty, try the update-handler
shortcut and clear the state dirty flag on success; if still dirty, schedule
a re-render subject to `shouldUpdate`; finally reset the dirty tracking. -/
def Component9.update (c : Component9) :
    Except JsError (Component9 × UpdateEffects) :=
  if c.destroyed = true ∨ c.isDirty = false then
    Except.ok (c, UpdateEffects.none)
  else
    let step1 : Component9 × UpdateEffects :=
      match c.state with
      | some s =>
        if c.dirty = false ∧ s.dirty = true then
          let r := processUpdateHandlers c s.changes s.old
          if r.1 then
            ({ r.2.1 with
                state := r.2.1.state.map (fun s2 => { s2 with dirty := false }) },
              r.2.2)
          else (r.2.1, r.2.2)
        else (c, UpdateEffects.none)
      | none => (c, UpdateEffects.none)
    let c2 := step1.1
    let eff := step1.2
    if c2.isDirty = true then
      if c2.shouldUpdateResult ≠ false then
        match c2.scheduleRerender with
        | Except.error e => Except.error e
        | Except.ok (c3, _) =>
          Except.ok (c3.reset, { eff with rerenderScheduled := true })
      else Except.ok (c2.reset, eff)
    else Except.ok (c2.reset, eff)

/-!
## `AsyncVDOMBuilder` and its event emitter

Embedded from `src/runtime/vdom/AsyncVDOMBuilder` (bundle lines 4065–4095,
4266–4370, 4442–4448) and `events-light` (bundle lines 638–804).  Builders
are addressed by creation order in a list, so a child created by
`beginAsync` always has a larger index than its parent (`___parentOut`),
which grounds the recursion of `___handleChildDone` up the parent chain.
All builders of one render share one `State`, so the `finish` event, the
`___finished` flag and the emitter are system-wide.  The `last` option of
`beginAsync` is not modeled (`___lastCount` stays `0`; the `___emitLast`
branch can then never fire and is a no-op here as in the source).
-/

/-- The per-builder fields of `AsyncVDOMBuilder` used by the reference
counting: `___remaining`, `___lastCount`, `___parentOut`, `___sync`, and
whether `end()` has run on this builder (the source marks this by setting
`___parent = undefined`). -/
structure Builder where
  remaining : Int
  lastCount : Int
  parentOut : Option Nat
  sync : Bool
  ended : Bool
  deriving DecidableEq, Repr

/-- The `AsyncVDOMBuilder` constructor (bundle lines 4065–4095) as far as
the reference counting is concerned: `___remaining = 1`, `___lastCount = 0`,
`___sync = false`. -/
def Builder.new (parentOut : Option Nat) : Builder :=
  { remaining := 1, lastCount := 0, parentOut := parentOut, sync := false,
    ended := false }

/-- `AsyncVDOMBuilder.prototype.sync` (bundle lines 4442–4444). -/
def Builder.setSync (b : Builder) : Builder := { b with sync := true }

/-- The builder slice of `Component.prototype.___rerender` (bundle lines
5886–5893): `createOut` constructs a fresh `AsyncVDOMBuilder` and
`out.sync()` is called on it before the renderer runs. -/
def rerenderOut : Builder := (Builder.new none).setSync

/-- The `events-light` emitter state this development needs: whether `$e` is
set (the constructor sets it to `{}`, so `true` for every constructed
emitter) and the number of listeners registered for the `error` type. -/
structure Emitter where
  hasEvents : Bool
  errorListeners : Nat
  deriving DecidableEq, Repr

/-- `new EventEmitter()` (bundle lines 692–694): `$e` becomes `{}`. -/
def Emitter.new : Emitter := { hasEvents := true, errorListeners := 0 }

/-- `EventEmitter.prototype.emit` called with the `error` type (bundle lines
701–738): with `$e` unset the call returns without effect; with zero `error`
listeners the argument is thrown; otherwise every listener is invoked and
the result is the number of deliveries. -/
def Emitter.emitError (em : Emitter) (e : JsError) : Except JsError Nat :=
  if em.hasEvents = false then Except.ok 0
  else if em.errorListeners = 0 then Except.error e
  else Except.ok em.errorListeners

/-- Positional list lookup (builders are addressed by creation index). -/
def lget? {α : Type} : List α → Nat → Option α
  | [], _ => none
  | x :: _, 0 => some x
  | _ :: xs, i + 1 => lget? xs i

/-- Positional list update. -/
def lset {α : Type} : List α → Nat → (α → α) → List α
  | [], _, _ => []
  | x :: xs, 0, f => f x :: xs
  | x :: xs, i + 1, f => x :: lset xs i f

/-- The error message thrown by `beginAsync` in sync mode (bundle lines
4342–4344). -/
def syncModeErrorMsg : String :=
  "Tried to render async while in sync mode. Note: Client side await is not currently supported in re-renders (Issue: #942)."

/-- The whole-render builder system: the builder list (addressed by creation
index, root at `0`), the shared `State.___finished` flag, the log of
`___doFinish` emissions (builder index), and the shared emitter. -/
structure BSys where
  builders : List Builder
  finished : Bool
  finishLog : List Nat
  events : Emitter
  deriving DecidableEq, Repr

/-- The initial system: one root builder, unfinished state, constructed
emitter. -/
def BSys.init : BSys :=
  { builders := [Builder.new none], finished := false, finishLog := [],
    events := Emitter.new }

/-- Builder lookup by index. -/
def BSys.getB (sys : BSys) (b : Nat) : Option Builder := lget? sys.builders b

/-- Replace the builder at an index. -/
def BSys.setB (sys : BSys) (b : Nat) (f : Builder → Builder) : BSys :=
  { sys with builders := lset sys.builders b f }

/-- `AsyncVDOMBuilder.prototype.___doFinish` (bundle lines 4300–4304):
set `state.___finished` and emit the `finish` event. -/
def BSys.doFinish (sys : BSys) (b : Nat) : BSys :=
  { sys with finished := true, finishLog := sys.finishLog ++ [b] }

/-- The common body of `end` and `___handleChildDone` (bundle lines
4266–4298): decrement `___remaining`; at zero, propagate one decrement to
`___parentOut` or, on the root, run `___doFinish`.  (The `___emitLast`
branch requires `remaining = ___lastCount ≠ 0` and is finish-irrelevant; it
is a no-op here because `___lastCount` is always `0` in this model.)
The chain walks strictly decreasing builder indices in every system built by
`beginAsync` (a parent is created before its children), so fuel equal to the
starting index bounds the walk and is never exhausted. -/
def BSys.hcdAux : Nat → BSys → Nat → BSys
  | fuel, sys, b =>
    match sys.getB b with
    | none => sys
    | some bd =>
      let rem : Int := bd.remaining - 1
      let sys2 := sys.setB b (fun x => { x with remaining := rem })
      if rem = 0 then
        match bd.parentOut with
        | some p =>
          match fuel with
          | 0 => sys2
          | fuel2 + 1 => BSys.hcdAux fuel2 sys2 p
        | none => sys2.doFinish b
      else sys2

/-- `___handleChildDone` entered at builder `b`. -/
def BSys.handleChildDone (sys : BSys) (b : Nat) : BSys :=
  BSys.hcdAux b sys b

/-- `AsyncVDOMBuilder.prototype.end` (bundle lines 4266–4283): clear
`___parent` (recorded as `ended := true`) and run the shared decrement
body. -/
def BSys.endB (sys : BSys) (b : Nat) : BSys :=
  (sys.setB b (fun x => { x with ended := true })).handleChildDone b

/-- `AsyncVDOMBuilder.prototype.error` (bundle lines 4326–4338): emit the
`error` event; whether or not the emitter throws (no `error` listener), the
`finally` block runs `end()` exactly once.  The result carries the system
after `end()`, the exception that escapes (if any), and the number of
listener deliveries. -/
def BSys.errorB (sys : BSys) (b : Nat) (e : JsError) :
    BSys × Option JsError × Nat :=
  match sys.events.emitError e with
  | Except.ok n => (sys.endB b, none, n)
  | Except.error ex => (sys.endB b, some ex, 0)

/-- `AsyncVDOMBuilder.prototype.beginAsync` (bundle lines 4340–4370): throw
in sync mode; otherwise increment the parent's `___remaining` and append a
child builder bound to the parent (the new builder's index is returned). -/
def BSys.beginAsync (sys : BSys) (b : Nat) : Except JsError (BSys × Nat) :=
  match sys.getB b with
  | none => Except.error JsError.typeError
  | some bd =>
    if bd.sync then
      Except.error (JsError.error syncModeErrorMsg)
    else
      let sys2 := sys.setB b (fun x => { x with remaining := x.remaining + 1 })
      Except.ok
        ({ sys2 with builders := sys2.builders ++ [Builder.new (some b)] },
          sys.builders.length)

/-- One trace operation on the builder system. -/
inductive BOp where
  | begin : Nat → BOp
  | done : Nat → BOp
  deriving DecidableEq, Repr

/-- Execute one operation (an invalid `beginAsync` leaves the system
unchanged; traces quantified over below are valid, so this case carries no
weight). -/
def BSys.stepOp (sys : BSys) (op : BOp) : BSys :=
  match op with
  | BOp.begin p =>
    match sys.beginAsync p with
    | Except.ok r => r.1
    | Except.error _ => sys
  | BOp.done b => sys.endB b

/-- Execute a trace left to right. -/
def BSys.runOps (sys : BSys) : List BOp → BSys
  | [] => sys
  | op :: ops => (sys.stepOp op).runOps ops

/-- Trace validity: `beginAsync` is only called on an existing, not yet
ended, non-sync builder (the source calls it on `this` while the builder is
still open); `end` is called exactly once per builder (checked here as: on
an existing builder not yet ended). -/
def BSys.validOps (sys : BSys) : List BOp → Bool
  | [] => true
  | BOp.begin p :: ops =>
    (match sys.getB p with
     | some bd => !bd.ended && !bd.sync
     | none => false)
    && (sys.stepOp (BOp.begin p)).validOps ops
  | BOp.done b :: ops =>
    (match sys.getB b with
     | some bd => !bd.ended
     | none => false)
    && (sys.stepOp (BOp.done b)).validOps ops

/-- A concrete linked store used to witness the traversal claims: node 1 has
an empty fragment 2 as first child (with real sibling 3) and an empty
fragment 4 as next sibling; node 5 has fragment 6 as first child whose first
real child is node 7. -/
def witnessStore : LStore :=
  [(1, ⟨some 2, some 4, none, false⟩),
   (2, ⟨none, some 3, some 1, true⟩),
   (3, ⟨none, none, some 1, false⟩),
   (4, ⟨none, none, none, true⟩),
   (5, ⟨some 6, none, none, false⟩),
   (6, ⟨some 7, none, some 5, true⟩),
   (7, ⟨none, none, some 6, false⟩)]

/-!
## C7 proof layer: the reference-counting invariant of the builder system
-/

/-- The remaining count of builder `c` (`0` for an absent index). -/
def remOf (sys : BSys) (c : Nat) : Int :=
  ((sys.getB c).map Builder.remaining).getD 0

/-- Whether builder `c` has been ended (`true` for an absent index). -/
def endedOf (sys : BSys) (c : Nat) : Bool :=
  ((sys.getB c).map Builder.ended).getD true

/-- The parent index of builder `c`. -/
def parOf (sys : BSys) (c : Nat) : Option Nat :=
  (sys.getB c).bind Builder.parentOut

/-- The children of builder `b` (builders whose `___parentOut` is `b`). -/
def kidsOf (sys : BSys) (b : Nat) : Finset Nat :=
  (Finset.range sys.builders.length).filter (fun c => parOf sys c = some b)

/-- The children of `b` whose own reference count has reached zero (and have
therefore propagated their decrement to `b`). -/
def doneKidsOf (sys : BSys) (b : Nat) : Finset Nat :=
  (Finset.range sys.builders.length).filter
    (fun c => parOf sys c = some b ∧ remOf sys c = 0)

/-- The reference-counting invariant of the builder system: parents precede
their children; only the root has no parent; each builder's `___remaining`
accounts for its own pending `end()` plus one unit per child that has not
yet completed; and the `finish` log holds exactly one entry — the root —
exactly when the root's count has reached zero. -/
structure BInv (sys : BSys) : Prop where
  posLen : 0 < sys.builders.length
  parNone : ∀ c, parOf sys c = none → c < sys.builders.length → c = 0
  parLt : ∀ c p, parOf sys c = some p → p < c
  count : ∀ b, b < sys.builders.length →
    remOf sys b + (if endedOf sys b = true then 1 else 0)
      + ((doneKidsOf sys b).card : Int) = 1 + ((kidsOf sys b).card : Int)
  logSpec : sys.finishLog = if remOf sys 0 = 0 then [0] else []

/-- The invariant during a `___handleChildDone` cascade: builder `b` owes
one decrement (its count carries a surplus unit), every other builder's
count is balanced, no `finish` has fired, and the root is still open. -/
structure BInvPend (sys : BSys) (b : Nat) : Prop where
  posLen : 0 < sys.builders.length
  blt : b < sys.builders.length
  parNone : ∀ c, parOf sys c = none → c < sys.builders.length → c = 0
  parLt : ∀ c p, parOf sys c = some p → p < c
  countB : remOf sys b + (if endedOf sys b = true then 1 else 0)
      + ((doneKidsOf sys b).card : Int) = 2 + ((kidsOf sys b).card : Int)
  countOther : ∀ q, q < sys.builders.length → q ≠ b →
    remOf sys q + (if endedOf sys q = true then 1 else 0)
      + ((doneKidsOf sys q).card : Int) = 1 + ((kidsOf sys q).card : Int)
  log : sys.finishLog = []
  rootRem : b ≠ 0 → remOf sys 0 ≠ 0

/-!
## The reconciler: `morphdom`

Embedded from `src/runtime/vdom/morphdom/index` (bundle lines 3104–3899),
`VElement.___morphAttrs` (bundle lines 1332–1440), `VElement.___actualize`
(bundle lines 1197–1236), `specialElHandlers` (bundle lines 2856–2960) and
the DOM helpers (bundle lines 1492–1533).

Scope of the embedding: the element / text / comment fragment of the
reconciler, on the non-hydrate path (`isHydrate === false`, the re-render
path through `Component.prototype.___rerender`).  `VComponent` nodes, real
fragment nodes and the hydrate-only virtualization branches are outside this
model: the corresponding guards of the source
(`curToNodeType === COMPONENT_NODE`, `componentByDOMNode.get(...)`,
`isHydrate === true`, `node.fragment`, `___finishFragment`) can never fire
on the states this model builds, and are omitted.  Virtual trees built by a
synchronous render contain no `VDocumentFragment` children either, so the
`___firstChild` / `___nextSibling` traversal of the virtual side is the
plain child list here (the getters themselves are verified separately on the
linked store above).

The real DOM is a store of records addressed by allocation number; every
observable DOM mutation — the mutations a `MutationObserver` on the
container would record — is written to a log: `insertBefore` (both
insertions of fresh nodes and moves), `removeChild`, `setAttribute` (which
records even when the value is unchanged), `removeAttribute` (which records
only when the attribute is present), and `nodeValue` assignment.  Writes to
live DOM properties (`checked`, `selected`, `disabled`, `value`,
`selectedIndex`, which `specialElHandlers` reconciles) mutate the node
record but are not observable attribute mutations and are not logged;
`className` / `id` / `style.cssText` writes of the simple-attrs fast path do
reflect into attributes and are logged as attribute sets.

Object identity of attribute maps (the `oldAttrs === attrs` constant-map
fast path) is embedded by a `ref` tag on `AttrMap`, with the convention that
distinct JS objects carry distinct tags.
-/

/-- A JS attribute value: string, boolean, `null`/`undefined`, or number
(integers suffice for the embedded code paths). -/
inductive AttrVal where
  | str : String → AttrVal
  | boolV : Bool → AttrVal
  | nullV : AttrVal
  | intV : Int → AttrVal
  deriving DecidableEq, Repr

/-- An attributes object: `ref` embeds JS object identity (`===`), `entries`
the properties in insertion order. -/
structure AttrMap where
  ref : Nat
  entries : List (String × AttrVal)
  deriving DecidableEq, Repr

/-- The shared frozen `EMPTY_OBJECT` used for absent attribute maps. -/
def emptyAttrMap : AttrMap := { ref := 0, entries := [] }

/-- `FLAG_SIMPLE_ATTRS` (bundle line 1067). -/
def FLAG_SIMPLE_ATTRS : Nat := 1

/-- `FLAG_CUSTOM_ELEMENT` (bundle line 1068). -/
def FLAG_CUSTOM_ELEMENT : Nat := 2

/-- Bit test on the `___flags` bitset. -/
def hasFlag (flags flag : Nat) : Bool := flags.land flag != 0

/-- The per-node fields of a `VElement` (bundle lines 1123–1148). -/
structure VElemData where
  tag : String
  key : Option String
  attrs : AttrMap
  flags : Nat
  constId : Option Nat
  owner : Option String
  preserve : Bool
  valueInternal : Option String
  preserveTextAreaValue : Bool
  deriving DecidableEq, Repr

/-- A virtual tree: element, text or comment nodes (see the scope note
above). -/
inductive VTree where
  | elem : VElemData → List VTree → VTree
  | text : String → VTree
  | comment : String → VTree
  deriving Repr

/-- Element data of a virtual node (junk off elements; used only where the
source has already checked the node is an element). -/
def velData : VTree → VElemData
  | VTree.elem d _ => d
  | _ =>
    { tag := "", key := none, attrs := emptyAttrMap, flags := 0,
      constId := none, owner := none, preserve := false,
      valueInternal := none, preserveTextAreaValue := false }

/-- The virtual child list (`___firstChild` / `___nextSibling` chain; plain
list here, see the scope note). -/
def vchildren : VTree → List VTree
  | VTree.elem _ cs => cs
  | _ => []

/-- `___nodeType` (1 / 3 / 8). -/
def vNodeType : VTree → Nat
  | VTree.elem _ _ => 1
  | VTree.text _ => 3
  | VTree.comment _ => 8

/-- `___nodeName` (elements only; `none` embeds `undefined`). -/
def vNodeName : VTree → Option String
  | VTree.elem d _ => some d.tag
  | _ => none

/-- `___nodeValue` of a text or comment virtual node. -/
def vNodeValue : VTree → String
  | VTree.text s => s
  | VTree.comment s => s
  | VTree.elem _ _ => ""

/-- `___key` read as a JS value: `some (some k)` a string, `some none` the
explicit `null` of unkeyed elements, `none` the `undefined` of text and
comment nodes (which have no `___key` field). -/
def vKeyJs : VTree → Option (Option String)
  | VTree.elem d _ => some d.key
  | _ => none

/-- The key of a virtual node, `none` when absent or `null`. -/
def vKeyOf (v : VTree) : Option String := (vKeyJs v).getD none

/-- `___ownerComponent` of a virtual node. -/
def vOwnerOf : VTree → Option String
  | VTree.elem d _ => d.owner
  | _ => none

/-- `___preserve` of a virtual node. -/
def vPreserveOf : VTree → Bool
  | VTree.elem d _ => d.preserve
  | _ => false

/-- JS truthiness of a key value (`""` is falsy). -/
def keyTruthy : Option String → Bool
  | some k => !(k == "")
  | none => false

/-- `compareNodeNames` (bundle lines 3146–3148): strict equality of the two
`___nodeName` fields (`undefined === undefined` holds for two text or
comment nodes). -/
def compareNodeNames (a b : VTree) : Bool := vNodeName a == vNodeName b

/-- `isAutoKey` (bundle lines 3142–3144): the key does not start with `@`.
(When called on the `undefined` of a missing key table entry the source's
regex test coerces to the string `"undefined"`, which has no `@` either;
callers below encode that case explicitly.) -/
def isAutoKey (k : String) : Bool := !(k.data.head? == some '@')

/-- Strict JS equality between `toNextSibling.___key` (string, `null`, or
`undefined`) and the cursor's resolved key from `keysByDOMNode` (string or
`undefined`), used by the swap test (bundle lines 3564–3567). -/
def keyStrictEq (lhs : Option (Option String)) (rhs : Option String) : Bool :=
  match lhs, rhs with
  | some (some k), some k2 => k == k2
  | none, none => true
  | _, _ => false

mutual

/-- The size of a virtual tree (termination measure). -/
def vsize : VTree → Nat
  | VTree.elem _ cs => 1 + vsizeList cs
  | VTree.text _ => 1
  | VTree.comment _ => 1

/-- The size of a virtual child list (each entry weighted one extra so that
list-suffix recursion decreases without a positivity side condition). -/
def vsizeList : List VTree → Nat
  | [] => 0
  | t :: rest => 1 + vsize t + vsizeList rest

end

/-- `String(value)` (JS `toString`), used by the `___value` getter and the
simple-attrs fast path (note: distinct from `convertAttrValue`, which maps
`true` to `""`). -/
def jsToString : AttrVal → String
  | AttrVal.str s => s
  | AttrVal.boolV true => "true"
  | AttrVal.boolV false => "false"
  | AttrVal.nullV => "null"
  | AttrVal.intV n => toString n

/-- `String(value)` on a possibly-`undefined` read. -/
def jsToStringU : Option AttrVal → String
  | some v => jsToString v
  | none => "undefined"

/-- `convertAttrValue` (bundle lines 1075–1083): `true` becomes `""`,
non-strings are stringified (strings pass through unconverted in the
callers, which matches the `str` case). -/
def convertAttrValue : AttrVal → String
  | AttrVal.str s => s
  | AttrVal.boolV true => ""
  | AttrVal.boolV false => ""
  | AttrVal.nullV => ""
  | AttrVal.intV n => toString n

/-- `attrValue !== false && attrValue != null` (the guard used by
`___actualize`, `___hasAttribute` and the boolean property getters). -/
def attrTruthyish : AttrVal → Bool
  | AttrVal.boolV false => false
  | AttrVal.nullV => false
  | _ => true

/-- `VElement.prototype.___hasAttribute` (bundle lines 1238–1244) and the
`checked` / `selected` / `disabled` getters (bundle lines 1251–1258). -/
def velHasAttribute (d : VElemData) (name : String) : Bool :=
  match alookup d.attrs.entries name with
  | some v => attrTruthyish v
  | none => false

/-- The `"on"` / `""` fallback of the `___value` getter. -/
def velValueFallback (d : VElemData) : String :=
  if alookup d.attrs.entries "type" == some (AttrVal.str strCheckbox)
      || alookup d.attrs.entries "type" == some (AttrVal.str strRadio) then
    strOn
  else ""

/-- The `___value` getter (bundle lines 1260–1273): `___valueInternal`,
falling back to the `value` attribute; a non-null non-false value is
stringified, otherwise checkbox/radio inputs yield `"on"` and everything
else `""`. -/
def velValue (d : VElemData) : String :=
  let v : Option AttrVal :=
    match d.valueInternal with
    | some s => some (AttrVal.str s)
    | none => alookup d.attrs.entries strValue
  match v with
  | some v2 =>
    if attrTruthyish v2 then jsToString v2
    else velValueFallback d
  | none => velValueFallback d

/-- Real DOM node kinds in scope. -/
inductive RKind where
  | elem : RKind
  | textNode : RKind
  | commentNode : RKind
  deriving DecidableEq, Repr

/-- `nodeType` of a real node kind. -/
def rKindType : RKind → Nat
  | RKind.elem => 1
  | RKind.textNode => 3
  | RKind.commentNode => 8

/-- A real attribute key: optional namespace URI plus local name. -/
structure RAttrKey where
  ns : Option String
  name : String
  deriving DecidableEq, Repr

/-- A real DOM node: attributes (as written by `setAttribute` /
`setAttributeNS`), `nodeValue` for text/comment nodes, the live form-control
properties, and the child list. -/
structure RNode where
  kind : RKind
  tag : String
  attrs : List (RAttrKey × String)
  nodeValue : String
  valueProp : String
  checkedProp : Bool
  selectedProp : Bool
  disabledProp : Bool
  selectedIndexProp : Int
  placeholderProp : String
  children : List Nat
  deriving DecidableEq, Repr

/-- Attribute lookup on a real node. -/
def rlookup (m : List (RAttrKey × String)) (k : RAttrKey) : Option String :=
  match m with
  | [] => none
  | (k2, v) :: rest => if k2 = k then some v else rlookup rest k

/-- `setAttribute` on the stored map. -/
def rstore (m : List (RAttrKey × String)) (k : RAttrKey) (v : String) :
    List (RAttrKey × String) :=
  match m with
  | [] => [(k, v)]
  | (k2, v2) :: rest =>
    if k2 = k then (k2, v) :: rest else (k2, v2) :: rstore rest k v

/-- `removeAttribute` on the stored map. -/
def rdelete (m : List (RAttrKey × String)) (k : RAttrKey) :
    List (RAttrKey × String) :=
  match m with
  | [] => []
  | (k2, v2) :: rest => if k2 = k then rest else (k2, v2) :: rdelete rest k

/-- One observable DOM mutation (what a `MutationObserver` on the container
would record). -/
inductive Mut where
  | insertBefore : Nat → Option Nat → Nat → Mut
  | removeNode : Nat → Mut
  | setAttr : Nat → RAttrKey → String → Mut
  | removeAttr : Nat → RAttrKey → Mut
  | setNodeValue : Nat → String → Mut
  deriving DecidableEq, Repr

/-- The mutable state threaded through the reconciler: the real DOM store,
the `WeakMap` side tables (`vElementByDOMNode`, `keysByDOMNode`,
`detachedByDOMNode` — whose value is the owner component id, `none` for the
bare `true` marker), the per-component `___keyedElements` tables, the
per-pass `keySequences`, the deferred `detachedNodes` list, the mutation
log, and the allocation counter. -/
structure MState where
  dom : List (Nat × RNode)
  vByDom : List (Nat × VTree)
  keyByDom : List (Nat × String)
  detachedByDom : List (Nat × Option String)
  comps : List (String × List (String × Nat))
  keySeqs : List (String × KeySequence)
  detachedNodes : List Nat
  log : List Mut
  nextId : Nat

/-- Node lookup in the DOM store. -/
def MState.getNode (st : MState) (i : Nat) : Option RNode := nlookup st.dom i

/-- Update a node record in place. -/
def MState.setNode (st : MState) (i : Nat) (f : RNode → RNode) : MState :=
  { st with
    dom := st.dom.map (fun e => if e.1 = i then (e.1, f e.2) else e) }

/-- The parent of a real node: the store entry whose child list contains
it. -/
def domParent (dom : List (Nat × RNode)) (n : Nat) : Option Nat :=
  match dom with
  | [] => none
  | (i, nd) :: rest => if n ∈ nd.children then some i else domParent rest n

/-- The entry after `n` in a child list. -/
def nextAfter : List Nat → Nat → Option Nat
  | [], _ => none
  | [_], _ => none
  | x :: y :: rest, n => if x = n then some y else nextAfter (y :: rest) n

/-- `helpers.___firstChild` (bundle lines 1519–1522; the fragment branch is
out of scope). -/
def firstChildR (st : MState) (p : Nat) : Option Nat :=
  (st.getNode p).bind (fun nd => nd.children.head?)

/-- `helpers.___nextSibling` (bundle lines 1510–1517; the fragment branch is
out of scope). -/
def nextSiblingR (st : MState) (n : Nat) : Option Nat :=
  match domParent st.dom n with
  | none => none
  | some p =>
    match st.getNode p with
    | none => none
    | some pd => nextAfter pd.children n

/-- Remove a node id from every child list (a DOM node has one parent; a
re-insertion detaches it from wherever it is). -/
def removeEverywhere (dom : List (Nat × RNode)) (n : Nat) :
    List (Nat × RNode) :=
  dom.map (fun e => (e.1, { e.2 with children := e.2.children.erase n }))

/-- Insertion before the first occurrence of `r`. -/
def insertAtAux (l : List Nat) (r n : Nat) : List Nat :=
  match l with
  | [] => [n]
  | x :: xs => if x = r then n :: x :: xs else x :: insertAtAux xs r n

/-- Insert `n` before the reference (at the end when the reference is
`null`). -/
def insertAt (l : List Nat) (ref : Option Nat) (n : Nat) : List Nat :=
  match ref with
  | none => l ++ [n]
  | some r => insertAtAux l r n

/-- `helpers.___insertBefore` (bundle lines 1492–1500): detach the node from
its current position and splice it in before the reference; one observable
insertion. -/
def insertBeforeOp (st : MState) (n : Nat) (ref : Option Nat) (p : Nat) :
    MState :=
  let dom2 := removeEverywhere st.dom n
  let dom3 :=
    dom2.map (fun e =>
      if e.1 = p then (e.1, { e.2 with children := insertAt e.2.children ref n })
      else e)
  { st with dom := dom3, log := st.log ++ [Mut.insertBefore n ref p] }

/-- `helpers.___insertAfter` (bundle lines 1502–1508):
`insertBefore(node, referenceNode && referenceNode.nextSibling, parent)`. -/
def insertAfterOp (st : MState) (n : Nat) (ref : Option Nat) (p : Nat) :
    MState :=
  match ref with
  | none => insertBeforeOp st n none p
  | some r => insertBeforeOp st n (nextSiblingR st r) p

/-- `helpers.___removeChild` (bundle lines 1524–1527): one observable
removal. -/
def removeChildOp (st : MState) (n : Nat) : MState :=
  { st with
    dom := removeEverywhere st.dom n
    log := st.log ++ [Mut.removeNode n] }

/-- `setAttribute` / `setAttributeNS`: always an observable record, even
when the value is unchanged. -/
def setAttrOp (st : MState) (n : Nat) (k : RAttrKey) (v : String) : MState :=
  let st2 := st.setNode n (fun nd => { nd with attrs := rstore nd.attrs k v })
  { st2 with log := st2.log ++ [Mut.setAttr n k v] }

/-- `removeAttribute` / `removeAttributeNS`: an observable record only when
the attribute is actually present. -/
def removeAttrOp (st : MState) (n : Nat) (k : RAttrKey) : MState :=
  match st.getNode n with
  | none => st
  | some nd =>
    if (rlookup nd.attrs k).isSome then
      let st2 := st.setNode n (fun nd2 => { nd2 with attrs := rdelete nd2.attrs k })
      { st2 with log := st2.log ++ [Mut.removeAttr n k] }
    else st

/-- `nodeValue` assignment: an observable record (assignments in the source
are guarded by inequality at each call site). -/
def setNodeValueOp (st : MState) (n : Nat) (v : String) : MState :=
  let st2 := st.setNode n (fun nd => { nd with nodeValue := v })
  { st2 with log := st2.log ++ [Mut.setNodeValue n v] }

/-- Allocate a new node record. -/
def createNode (st : MState) (nd : RNode) : MState × Nat :=
  ({ st with dom := st.dom ++ [(st.nextId, nd)], nextId := st.nextId + 1 },
    st.nextId)

/-- Read a component's `___keyedElements` table (a missing component id
yields the empty table). -/
def keyedGet (st : MState) (cid k : String) : Option Nat :=
  alookup ((alookup st.comps cid).getD []) k

/-- Write into a component's `___keyedElements` table. -/
def keyedSetSt (st : MState) (cid k : String) (n : Nat) : MState :=
  { st with
    comps := astore st.comps cid
      (astore ((alookup st.comps cid).getD []) k n) }

/-- `delete component.___keyedElements[key]`. -/
def keyedDelSt (st : MState) (cid k : String) : MState :=
  { st with
    comps := astore st.comps cid
      (adelete ((alookup st.comps cid).getD []) k) }

/-- `keySequences[referenceComponent.id] || (keySequences[...] =
globalComponentsContext.___createKeySequence())` (bundle lines
3379–3383). -/
def getKeySeq (m : List (String × KeySequence)) (cid : String) : KeySequence :=
  (alookup m cid).getD KeySequence.fresh

mutual

/-- `destroyNodeRecursive` (bundle lines 1836–1859) on the component-free
states of this model: clean the owning component's keyed-element entry for
the node if it points at it, and recurse over the children.  Fuel bounds the
real-subtree recursion; callers pass one more than the store size, which an
acyclic store never exhausts. -/
def destroyNodeRecursiveOp : Nat → MState → Nat → Option String → MState
  | 0, st, _, _ => st
  | fuel + 1, st, node, comp =>
    match st.getNode node with
    | none => st
    | some nd =>
      if nd.kind = RKind.elem then
        let st1 :=
          match comp with
          | some cid =>
            match nlookup st.keyByDom node with
            | some k =>
              if keyedGet st cid k == some node then keyedDelSt st cid k
              else st
            | none => st
          | none => st
        destroyListOp fuel st1 nd.children comp
      else st
  termination_by fuel _ _ _ => (fuel, 0)

/-- The child recursion of `destroyNodeRecursive`. -/
def destroyListOp : Nat → MState → List Nat → Option String → MState
  | _, st, [], _ => st
  | fuel, st, c :: rest, comp =>
    destroyListOp fuel (destroyNodeRecursiveOp fuel st c comp) rest comp
  termination_by fuel _ l _ => (fuel, l.length + 1)

end

/-- `detachNode` (bundle lines 3235–3243): elements are deferred onto
`detachedNodes` and marked in `detachedByDOMNode` (`none` embeds the bare
`true` marker); other nodes are destroyed and removed at once. -/
def detachNodeOp (st : MState) (node : Nat) (owner : Option String) : MState :=
  match st.getNode node with
  | none => st
  | some nd =>
    if nd.kind = RKind.elem then
      { st with
        detachedNodes := st.detachedNodes ++ [node]
        detachedByDom := nstore st.detachedByDom node owner }
    else
      let st1 := destroyNodeRecursiveOp (st.dom.length + 1) st node none
      removeChildOp st1 node

/-- The attribute loop of `___actualize` (bundle lines 1208–1226): skip
`false`/`null` values, convert non-strings, route `xlink:href` through the
xlink namespace. -/
def actualizeAttrs (entries : List (String × AttrVal)) :
    List (RAttrKey × String) :=
  entries.foldl
    (fun acc e =>
      if attrTruthyish e.2 then
        rstore acc
          (if e.1 == strXlinkHref then { ns := some nsXlink, name := strHref }
           else { ns := none, name := e.1 })
          (convertAttrValue e.2)
      else acc)
    []

/-- A real node with default property state. -/
def newRNode (kind : RKind) (tag : String) (attrs : List (RAttrKey × String))
    (nodeValue valueProp : String) (checked selected disabled : Bool) : RNode :=
  { kind := kind, tag := tag, attrs := attrs, nodeValue := nodeValue,
    valueProp := valueProp, checkedProp := checked, selectedProp := selected,
    disabledProp := disabled, selectedIndexProp := -1, placeholderProp := "",
    children := [] }

/-- `___actualize` of `VText` / `VComment` / `VElement` (bundle lines
1197–1236, 1458–1460, 1478–1480) composed with the browser's
defaulted-property rules: a freshly created element's `checked` / `selected`
/ `disabled` properties reflect attribute presence, its `value` property is
the `value` attribute's string (`"on"` for checkbox/radio without one, `""`
otherwise) — which coincides with the `___value` getter — and a textarea's
`value` is set explicitly by `___actualize`.  `selectedIndex` starts at `-1`
(children are attached afterwards; the browser's dynamic default selection
is not modeled — `selectedIndex` writes are property-only and unlogged).
Custom elements receive property assignments instead of attributes.
Elements are recorded in `vElementByDOMNode`. -/
def actualizeNode (st : MState) (v : VTree) : MState × Nat :=
  match v with
  | VTree.text s =>
    createNode st (newRNode RKind.textNode "" [] s "" false false false)
  | VTree.comment s =>
    createNode st (newRNode RKind.commentNode "" [] s "" false false false)
  | VTree.elem d _ =>
    let rattrs :=
      if hasFlag d.flags FLAG_CUSTOM_ELEMENT then []
      else actualizeAttrs d.attrs.entries
    let r := createNode st
      (newRNode RKind.elem d.tag rattrs "" (velValue d)
        (velHasAttribute d strChecked) (velHasAttribute d strSelected)
        (velHasAttribute d strDisabled))
    ({ r.1 with vByDom := nstore r.1.vByDom r.2 v }, r.2)

/-- The `for (attrName in attrs)` loop of `___morphAttrs` (bundle lines
1397–1417).  `xlink:href` remaps the attribute name to `href` before both
the comparison and the write, so the old value is read under `href` — the
quirk that re-sets an `xlink:href` attribute on every pass. -/
def morphAttrsLoop (st : MState) (fromEl : Nat)
    (oldEntries : List (String × AttrVal)) :
    List (String × AttrVal) → MState
  | [] => st
  | (attrName, attrValue) :: rest =>
    let nsU : Option String :=
      if attrName == strXlinkHref then some nsXlink else none
    let name := if attrName == strXlinkHref then strHref else attrName
    let st2 :=
      if !attrTruthyish attrValue then
        removeAttrOp st fromEl { ns := nsU, name := name }
      else if alookup oldEntries name != some attrValue then
        setAttrOp st fromEl { ns := nsU, name := name }
          (convertAttrValue attrValue)
      else st
    morphAttrsLoop st2 fromEl oldEntries rest

/-- The removal scan of `___morphAttrs` (bundle lines 1429–1439), run only
for unkeyed target elements: old attributes absent from the new map are
removed (the `xlink:href` case passes the literal string `"xlink:href"` as
the namespace argument of `removeAttributeNS`, which matches no stored
attribute — embedded verbatim). -/
def morphAttrsRemovalScan (st : MState) (fromEl : Nat)
    (toEntries : List (String × AttrVal)) :
    List (String × AttrVal) → MState
  | [] => st
  | (attrName, _) :: rest =>
    let st2 :=
      if (alookup toEntries attrName).isNone then
        if attrName == strXlinkHref then
          removeAttrOp st fromEl { ns := some strXlinkHref, name := strHref }
        else removeAttrOp st fromEl { ns := none, name := attrName }
      else st
    morphAttrsRemovalScan st2 fromEl toEntries rest

/-- `VElement.___morphAttrs` (bundle lines 1332–1440): record the new
virtual element in `vElementByDOMNode`; custom elements take the property
`assign` path; an identical (`===`) attribute map short-circuits; two
simple-attrs elements compare only `class` / `id` / `style` (property
writes that reflect into the attributes); otherwise the general loop plus —
only for unkeyed targets — the removal scan.
(`removePreservedAttributes` is the identity in this bundle.) -/
def morphAttrs (st : MState) (fromEl : Nat) (vFromT toT : VTree) : MState :=
  let vFrom := velData vFromT
  let toD := velData toT
  let st1 := { st with vByDom := nstore st.vByDom fromEl toT }
  let attrs := toD.attrs
  if hasFlag toD.flags FLAG_CUSTOM_ELEMENT then st1
  else
    let oldAttrs := vFrom.attrs
    if oldAttrs.ref == attrs.ref then st1
    else
      if hasFlag toD.flags FLAG_SIMPLE_ATTRS
          && hasFlag vFrom.flags FLAG_SIMPLE_ATTRS then
        let st2 :=
          if alookup oldAttrs.entries strClass != alookup attrs.entries strClass
          then
            setAttrOp st1 fromEl { ns := none, name := strClass }
              (jsToStringU (alookup attrs.entries strClass))
          else st1
        let st3 :=
          if alookup oldAttrs.entries strIdAttr != alookup attrs.entries strIdAttr
          then
            setAttrOp st2 fromEl { ns := none, name := strIdAttr }
              (jsToStringU (alookup attrs.entries strIdAttr))
          else st2
        let st4 :=
          if alookup oldAttrs.entries strStyle != alookup attrs.entries strStyle
          then
            setAttrOp st3 fromEl { ns := none, name := strStyle }
              (jsToStringU (alookup attrs.entries strStyle))
          else st3
        st4
      else
        let st2 := morphAttrsLoop st1 fromEl oldAttrs.entries attrs.entries
        if toD.key = none then
          morphAttrsRemovalScan st2 fromEl attrs.entries oldAttrs.entries
        else st2

/-- `syncBooleanAttrProp` (bundle lines 2856–2865): reconcile a boolean DOM
property against the virtual getter; the property write is unlogged, the
accompanying `setAttribute` / `removeAttribute` is observable. -/
def syncBooleanAttrProp (st : MState) (fromEl : Nat) (toD : VElemData)
    (name : String) (getP : RNode → Bool) (setP : RNode → Bool → RNode) :
    MState :=
  match st.getNode fromEl with
  | none => st
  | some nd =>
    let toVal := velHasAttribute toD name
    if getP nd != toVal then
      let st2 := st.setNode fromEl (fun n2 => setP n2 toVal)
      if toVal then setAttrOp st2 fromEl { ns := none, name := name } ""
      else removeAttrOp st2 fromEl { ns := none, name := name }
    else st

/-- The `input` handler of `specialElHandlers` (bundle lines 2902–2913). -/
def inputHandler (st : MState) (fromEl : Nat) (toD : VElemData) : MState :=
  let st1 := syncBooleanAttrProp st fromEl toD strChecked
    (fun nd => nd.checkedProp) (fun nd b => { nd with checkedProp := b })
  let st2 := syncBooleanAttrProp st1 fromEl toD strDisabled
    (fun nd => nd.disabledProp) (fun nd b => { nd with disabledProp := b })
  match st2.getNode fromEl with
  | none => st2
  | some nd =>
    let st3 :=
      if nd.valueProp != velValue toD then
        st2.setNode fromEl (fun n2 => { n2 with valueProp := velValue toD })
      else st2
    match st3.getNode fromEl with
    | none => st3
    | some nd2 =>
      if (rlookup nd2.attrs { ns := none, name := strValue }).isSome
          && !velHasAttribute toD strValue then
        removeAttrOp st3 fromEl { ns := none, name := strValue }
      else st3

/-- The `textarea` handler of `specialElHandlers` (bundle lines
2915–2940). -/
def textareaHandler (st : MState) (fromEl : Nat) (toD : VElemData) : MState :=
  if toD.preserveTextAreaValue then st
  else
    let newValue := velValue toD
    match st.getNode fromEl with
    | none => st
    | some nd =>
      let st2 :=
        if nd.valueProp != newValue then
          st.setNode fromEl (fun n2 => { n2 with valueProp := newValue })
        else st
      match nd.children.head? with
      | none => st2
      | some fc =>
        match st2.getNode fc with
        | none => st2
        | some fcd =>
          let oldValue := fcd.nodeValue
          if oldValue == newValue
              || (newValue == "" && oldValue == nd.placeholderProp) then st2
          else setNodeValueOp st2 fc newValue

/-- `forEachOption` (bundle lines 2867–2881) fused with the selected-index
accumulation of the `select` handler: walk the virtual subtree, count
`option` elements, remember the index of the last one with a truthy
`selected` attribute. -/
def selScan : List VTree → Int → Int → Int × Int
  | [], i, sel => (i, sel)
  | t :: rest, i, sel =>
    match t with
    | VTree.elem d cs =>
      if d.tag == strOption then
        let i2 := i + 1
        selScan rest i2 (if velHasAttribute d strSelected then i2 else sel)
      else
        let r := selScan cs i sel
        selScan rest r.1 r.2
    | _ => selScan rest i sel

/-- The `select` handler of `specialElHandlers` (bundle lines 2941–2958):
for non-multiple selects, recompute the selected index over the virtual
options (`-1` start, `0` default) and write the `selectedIndex` property
(unlogged) when it differs. -/
def selectHandler (st : MState) (fromEl : Nat) (toT : VTree) : MState :=
  let toD := velData toT
  if !velHasAttribute toD strMultiple then
    let r := selScan (vchildren toT) (-1) 0
    match st.getNode fromEl with
    | none => st
    | some nd =>
      if nd.selectedIndexProp != r.2 then
        st.setNode fromEl (fun n2 => { n2 with selectedIndexProp := r.2 })
      else st
  else st

/-- The `specialElHandlers` dispatch (`specialElHandlers[nodeName]`,
bundle lines 2884–2958 and 3868–3871). -/
def specialElHandler (st : MState) (fromEl : Nat) (toT : VTree) : MState :=
  let toD := velData toT
  if toD.tag == strOption then
    syncBooleanAttrProp st fromEl toD strSelected
      (fun nd => nd.selectedProp) (fun nd b => { nd with selectedProp := b })
  else if toD.tag == strButton then
    syncBooleanAttrProp st fromEl toD strDisabled
      (fun nd => nd.disabledProp) (fun nd b => { nd with disabledProp := b })
  else if toD.tag == strInput then inputHandler st fromEl toD
  else if toD.tag == strTextarea then textareaHandler st fromEl toD
  else if toD.tag == strSelect then selectHandler st fromEl toT
  else st

/-- The trailing removal loop of `morphChildren` (bundle lines 3798–3837):
detach every remaining real child; the reference component for keyed-table
cleanup is the parent component when the container's stored key is absent or
auto (a missing `keysByDOMNode` entry coerces to `"undefined"` under the
source's regex, which has no `@`), else the leftover's owner component. -/
def leftoverLoop : Nat → MState → Nat → String → Option Nat → MState
  | 0, st, _, _, _ => st
  | fuel + 1, st, fromNode, parentComp, curFrom =>
    match curFrom with
    | none => st
    | some cf =>
      let fromNext := nextSiblingR st cf
      let curVFrom := nlookup st.vByDom cf
      let refComp : Option String :=
        if (match nlookup st.keyByDom fromNode with
            | some k => isAutoKey k
            | none => true) then some parentComp
        else curVFrom.bind vOwnerOf
      leftoverLoop fuel (detachNodeOp st cf refComp) fromNode parentComp
        fromNext

/-- The deferred `detachedNodes` pass at the end of `morphdom` (bundle lines
3876–3896): nodes still marked detached are recursively destroyed (cleaning
their owner's keyed-element entries) and removed; re-claimed nodes (whose
mark was cleared) are skipped. -/
def processDetachedList (st : MState) : List Nat → MState
  | [] => st
  | node :: rest =>
    let st2 :=
      match nlookup st.detachedByDom node with
      | none => st
      | some ownerOpt =>
        let st1 := { st with detachedByDom := ndelete st.detachedByDom node }
        if (domParent st1.dom node).isSome then
          let stD := destroyNodeRecursiveOp (st1.dom.length + 1) st1 node
            ownerOpt
          removeChildOp stD node
        else st1
    processDetachedList st2 rest

theorem vsize_pos (t : VTree) : 0 < vsize t := by
  cases t <;> simp [vsize]

theorem vchildren_me (t : VTree) :
    4 * vsizeList (vchildren t) + 3 < 4 * vsize t := by
  cases t <;> simp [vsize, vsizeList, vchildren] <;> omega

mutual

/-- `morphChildren` (bundle lines 3249–3838) on the modeled fragment: run
the lockstep loop over the virtual children, then the trailing removal
loop. -/
def morphChildrenM (st : MState) (fromNode : Nat) (toT : VTree)
    (parentComp : String) : MState :=
  let r := outerLoop st fromNode parentComp (firstChildR st fromNode) none
    (vchildren toT)
  leftoverLoop (r.1.dom.length + 1) r.1 fromNode parentComp r.2
  termination_by (vsize toT * 4, 0)
  decreasing_by
    simp_wf
    first
      | (apply Prod.Lex.left; have h1 := vchildren_me toT; omega)
      | (have h1 := vchildren_me toT; omega)

/-- The `outer: while (curToNodeChild)` loop of `morphChildren`:
`curFrom` is `curFromNodeChild`, `fromNext` the retained `fromNextSibling`
(equal to `curFrom` at every iteration boundary, threaded faithfully). -/
def outerLoop (st : MState) (fromNode : Nat) (parentComp : String)
    (curFrom fromNext : Option Nat) :
    List VTree → MState × Option Nat
  | [] => (st, curFrom)
  | curTo :: toRest =>
    let ownerComponent := (vOwnerOf curTo).getD parentComp
    if keyTruthy (vKeyOf curTo) then
      let r := keyedStep st fromNode parentComp ownerComponent curFrom
        fromNext curTo toRest.head?
      outerLoop r.1 fromNode parentComp r.2 r.2 toRest
    else
      let r := scanLoop st fromNode parentComp ownerComponent curTo curFrom
        (st.dom.length + 1)
      if r.2.2 then
        outerLoop r.1 fromNode parentComp r.2.1 r.2.1 toRest
      else
        let st2 := insertVirtualNodeBefore r.1 curTo (vKeyOf curTo) none
          fromNode ownerComponent parentComp
        outerLoop st2 fromNode parentComp r.2.1 r.2.1 toRest
  termination_by toChildren => (vsizeList toChildren * 4 + 3, 0)
  decreasing_by
    all_goals simp_wf
    all_goals simp only [vsizeList]
    all_goals
      first
        | (apply Prod.Lex.left; omega)
        | (apply Prod.Lex.right; omega)
        | omega

/-- The keyed branch of the `morphChildren` loop (bundle lines 3365–3658),
entry: resolve the key through the per-scope `KeySequence` (auto keys of
foreign owners are suffixed with `":" + ownerComponent.id`), record the
consumed sequence, read the cursor's stored key and virtual element and the
next real sibling, then dispatch on whether the cursor already carries the
resolved key. -/
def keyedStep (st : MState) (fromNode : Nat) (parentComp ownerComponent : String)
    (curFrom fromNext : Option Nat) (curTo : VTree) (toNext : Option VTree) :
    MState × Option Nat :=
  let keyRaw := (vKeyOf curTo).getD ""
  let scopedK :=
    if isAutoKey keyRaw then
      if ownerComponent != parentComp then keyRaw ++ colon ++ ownerComponent
      else keyRaw
    else keyRaw
  let refComp := if isAutoKey keyRaw then parentComp else ownerComponent
  let seqPair := (getKeySeq st.keySeqs refComp).nextKey scopedK
  let resolvedKey := seqPair.1
  let st := { st with keySeqs := astore st.keySeqs refComp seqPair.2 }
  let curFromKey := curFrom.bind (fun cf => nlookup st.keyByDom cf)
  let curVFrom := curFrom.bind (fun cf => nlookup st.vByDom cf)
  let fromNext2 :=
    match curFrom with
    | some cf => nextSiblingR st cf
    | none => fromNext
  if curFromKey == some resolvedKey then
    keyedSameStep st fromNode parentComp ownerComponent curFrom curVFrom
      resolvedKey fromNext2 curTo
  else
    keyedMatchStep st fromNode parentComp ownerComponent curFrom curFromKey
      refComp resolvedKey fromNext2 curTo toNext
  termination_by (vsize curTo * 4 + 2, 3)
  decreasing_by
    all_goals simp_wf
    all_goals
      first
        | (apply Prod.Lex.right; omega)
        | omega

/-- The in-place arm of the keyed branch (the cursor's stored key equals the
resolved key, bundle lines 3391–3405): morph in place on a node-name match,
else detach the cursor and insert fresh; `___preserve` targets are left
untouched. -/
def keyedSameStep (st : MState) (fromNode : Nat)
    (parentComp ownerComponent : String) (curFrom : Option Nat)
    (curVFrom : Option VTree) (resolvedKey : String) (fromNext2 : Option Nat)
    (curTo : VTree) : MState × Option Nat :=
  if !(vPreserveOf curTo) then
    match curFrom, curVFrom with
    | some cf, some vf =>
      if compareNodeNames curTo vf then
        (morphElM st cf vf curTo (some resolvedKey) ownerComponent
          parentComp, fromNext2)
      else
        let st1 := detachNodeOp st cf (some ownerComponent)
        (insertVirtualNodeBefore st1 curTo (some resolvedKey) curFrom
          fromNode ownerComponent parentComp, fromNext2)
    | some cf, none =>
      -- a stored key without a stored virtual element cannot arise in
      -- states built by this model (the source would fail on the name
      -- read); treated as a node-name mismatch
      let st1 := detachNodeOp st cf (some ownerComponent)
      (insertVirtualNodeBefore st1 curTo (some resolvedKey) curFrom
        fromNode ownerComponent parentComp, fromNext2)
    | none, _ => (st, fromNext2)
  else (st, fromNext2)
  termination_by (vsize curTo * 4 + 2, 2)
  decreasing_by
    all_goals simp_wf
    all_goals
      first
        | (apply Prod.Lex.left; omega)
        | omega

/-- The relocation arm of the keyed branch (bundle lines 3407–3658): look
the resolved key up in the owner's `___keyedElements`; a miss inserts fresh,
a hit clears a pending detach mark and reconciles against the matched
element (or just moves it for `___preserve` targets). -/
def keyedMatchStep (st : MState) (fromNode : Nat)
    (parentComp ownerComponent : String) (curFrom : Option Nat)
    (curFromKey : Option String) (refComp resolvedKey : String)
    (fromNext2 : Option Nat) (curTo : VTree) (toNext : Option VTree) :
    MState × Option Nat :=
  match keyedGet st refComp resolvedKey with
  | none =>
    (insertVirtualNodeBefore st curTo (some resolvedKey) curFrom fromNode
      ownerComponent parentComp, curFrom)
  | some matching =>
    let st :=
      if (nlookup st.detachedByDom matching).isSome then
        { st with detachedByDom := ndelete st.detachedByDom matching }
      else st
    if !(vPreserveOf curTo) then
      match nlookup st.vByDom matching with
      | some vf2 =>
        keyedFoundStep st fromNode parentComp ownerComponent curFrom
          curFromKey resolvedKey fromNext2 curTo toNext matching vf2
      | none =>
        -- a keyed match without a stored virtual element: unreachable in
        -- built states (the source would fail); treated as a name mismatch
        let st1 := insertVirtualNodeBefore st curTo (some resolvedKey)
          curFrom fromNode ownerComponent parentComp
        (detachNodeOp st1 matching (some ownerComponent), fromNext2)
    else
      (insertBeforeOp st matching curFrom fromNode, curFrom)
  termination_by (vsize curTo * 4 + 2, 2)
  decreasing_by
    all_goals simp_wf
    all_goals
      first
        | (apply Prod.Lex.left; omega)
        | (apply Prod.Lex.right; omega)
        | omega

/-- The matched-element reconciliation of the keyed branch (bundle lines
3536–3652): on a node-name match, either the single-swap move (the match is
the immediate next real sibling and the next virtual key strictly equals the
cursor's key), the detach-cursor-and-morph case, or the move-and-detach
case; a node-name mismatch inserts fresh and detaches the match. -/
def keyedFoundStep (st : MState) (fromNode : Nat)
    (parentComp ownerComponent : String) (curFrom : Option Nat)
    (curFromKey : Option String) (resolvedKey : String)
    (fromNext2 : Option Nat) (curTo : VTree) (toNext : Option VTree)
    (matching : Nat) (vf2 : VTree) : MState × Option Nat :=
  if compareNodeNames vf2 curTo then
    if fromNext2 == some matching then
      if (match toNext with
          | some tn => keyStrictEq (vKeyJs tn) curFromKey
          | none => false) then
        let st1 := insertBeforeOp st matching curFrom fromNode
        (morphElM st1 matching vf2 curTo (some resolvedKey)
          ownerComponent parentComp, curFrom)
      else
        let fromNext3 :=
          match fromNext2 with
          | some fn => nextSiblingR st fn
          | none => none
        let st1 :=
          match curFrom with
          | some cf => detachNodeOp st cf (some ownerComponent)
          | none => st
        (morphElM st1 matching vf2 curTo (some resolvedKey)
          ownerComponent parentComp, fromNext3)
    else
      let st1 := insertAfterOp st matching curFrom fromNode
      let st2 :=
        match curFrom with
        | some cf => detachNodeOp st1 cf (some ownerComponent)
        | none => st1
      (morphElM st2 matching vf2 curTo (some resolvedKey)
        ownerComponent parentComp, fromNext2)
  else
    let st1 := insertVirtualNodeBefore st curTo (some resolvedKey)
      curFrom fromNode ownerComponent parentComp
    (detachNodeOp st1 matching (some ownerComponent), fromNext2)
  termination_by (vsize curTo * 4 + 2, 1)
  decreasing_by
    all_goals simp_wf
    all_goals
      first
        | (apply Prod.Lex.left; omega)
        | omega

/-- The unkeyed inner scan of `morphChildren` (bundle lines 3664–3774):
advance over real siblings, skipping nodes without a virtual record,
detaching incompatible ones, morphing the first compatible element or
updating the first same-type text/comment.  The result flag tells whether a
compatible node was found; fuel (one more than the store size) bounds the
walk, which an acyclic store never exhausts. -/
def scanLoop (st : MState) (fromNode : Nat) (parentComp ownerComponent : String)
    (curTo : VTree) (curFrom : Option Nat) :
    Nat → MState × Option Nat × Bool
  | 0 => (st, none, false)
  | fuel + 1 =>
    match curFrom with
    | none => (st, none, false)
    | some cf =>
      let fromNext := nextSiblingR st cf
      match st.getNode cf with
      | none => (st, none, false)
      | some nd =>
        if rKindType nd.kind == vNodeType curTo then
          match nd.kind with
          | RKind.elem =>
            match nlookup st.vByDom cf with
            | none =>
              scanLoop st fromNode parentComp ownerComponent curTo fromNext
                fuel
            | some vf =>
              if !keyTruthy (vKeyOf vf) && compareNodeNames vf curTo then
                (morphElM st cf vf curTo (vKeyOf curTo) ownerComponent
                  parentComp, fromNext, true)
              else
                let st1 := detachNodeOp st cf (some ownerComponent)
                scanLoop st1 fromNode parentComp ownerComponent curTo
                  fromNext fuel
          | _ =>
            let st1 :=
              if nd.nodeValue != vNodeValue curTo then
                setNodeValueOp st cf (vNodeValue curTo)
              else st
            (st1, fromNext, true)
        else
          let st1 := detachNodeOp st cf (some ownerComponent)
          scanLoop st1 fromNode parentComp ownerComponent curTo fromNext fuel
  termination_by fuel => (vsize curTo * 4 + 2, fuel)
  decreasing_by
    all_goals simp_wf
    all_goals
      first
        | (apply Prod.Lex.left; omega)
        | (apply Prod.Lex.right; omega)
        | omega

/-- `insertVirtualNodeBefore` (bundle lines 3170–3197): actualize, insert
before the reference, record the (truthy) key in `keysByDOMNode` and the
owning component's `___keyedElements` (the parent component for auto keys),
and recursively morph the children into the fresh element.
(`onNodeAdded` delegates to `___handleNodeAttach`, a no-op in this
bundle.) -/
def insertVirtualNodeBefore (st : MState) (vNode : VTree) (key : Option String)
    (referenceEl : Option Nat) (parentEl : Nat) (owner parentComp : String) :
    MState :=
  let r := actualizeNode st vNode
  let st1 := insertBeforeOp r.1 r.2 referenceEl parentEl
  if vNodeType vNode == 1 then
    let st2 :=
      if keyTruthy key then
        let k := key.getD ""
        keyedSetSt { st1 with keyByDom := nstore st1.keyByDom r.2 k }
          (if isAutoKey k then parentComp else owner) k r.2
      else st1
    morphChildrenM st2 r.2 vNode parentComp
  else st1
  termination_by (vsize vNode * 4 + 1, 0)
  decreasing_by
    all_goals simp_wf
    all_goals
      first
        | (apply Prod.Lex.left; omega)
        | omega

/-- `morphEl` (bundle lines 3840–3872) on the non-hydrate path: the
constant-id short circuit, then attribute diffing, child reconciliation
(skipped for textareas), and the form-control special handler. -/
def morphElM (st : MState) (fromEl : Nat) (vFromT toT : VTree)
    (toKey : Option String) (owner parentComp : String) : MState :=
  let toD := velData toT
  if toD.constId.isSome && (velData vFromT).constId == toD.constId then st
  else
    let st1 := morphAttrs st fromEl vFromT toT
    let st2 :=
      if toD.tag != strTextarea then morphChildrenM st1 fromEl toT parentComp
      else st1
    specialElHandler st2 fromEl toT
  termination_by (vsize toT * 4 + 1, 0)
  decreasing_by
    all_goals simp_wf
    all_goals
      first
        | (apply Prod.Lex.left; omega)
        | omega

end

/-- `morphdom` (bundle lines 3160–3897) on the modeled fragment: fresh
`keySequences` and `detachedNodes` per pass, the child morph, then the
deferred detached-nodes pass.  `parentComp` embeds `toNode.___component`,
the component whose subtree is being re-rendered. -/
def morphdomM (st : MState) (fromNode : Nat) (toT : VTree)
    (parentComp : String) : MState :=
  let st0 := { st with keySeqs := [], detachedNodes := [] }
  let st1 := morphChildrenM st0 fromNode toT parentComp
  processDetachedList st1 st1.detachedNodes

/-!
## Value-identity, well-formedness, and the previous-pass mirror

`treeEquiv` is value-identity of two virtual trees as the idempotence claim
uses it: same node kinds, tag names, keys, attribute maps (their entries —
the `ref` identity tags may differ, as they would between two renders), and
text values (plus the remaining value fields: flags, constant id, owner,
preserve markers).

`Mirror` describes the annotated real DOM that a reconciliation pass leaves
behind for a virtual tree: the real records produced by `___actualize` (with
the browser's defaulted form-control properties), the `vElementByDOMNode`
and `keysByDOMNode` entries, the owning component's keyed-element entries,
and the child layout — children are allocated depth-first, so a subtree
occupies the consecutive id interval starting at its root.
-/

mutual

/-- Value-identity of virtual trees (attribute maps compared by entries,
not by object identity). -/
def treeEquiv : VTree → VTree → Bool
  | VTree.elem d1 cs1, VTree.elem d2 cs2 =>
    d1.tag == d2.tag && d1.key == d2.key
      && d1.attrs.entries == d2.attrs.entries
      && d1.flags == d2.flags && d1.constId == d2.constId
      && d1.owner == d2.owner && d1.preserve == d2.preserve
      && d1.valueInternal == d2.valueInternal
      && d1.preserveTextAreaValue == d2.preserveTextAreaValue
      && treeEquivList cs1 cs2
  | VTree.text s1, VTree.text s2 => s1 == s2
  | VTree.comment s1, VTree.comment s2 => s1 == s2
  | _, _ => false

/-- Pointwise value-identity of child lists. -/
def treeEquivList : List VTree → List VTree → Bool
  | [], [] => true
  | t1 :: r1, t2 :: r2 => treeEquiv t1 t2 && treeEquivList r1 r2
  | _, _ => false

end

/-- Tags with a `specialElHandlers` entry. -/
def specialTag (tag : String) : Bool :=
  tag == strOption || tag == strButton || tag == strInput
    || tag == strTextarea || tag == strSelect

/-- Duplicate-freedom of a string list, as a boolean. -/
def nodupStr : List String → Bool
  | [] => true
  | x :: xs => !(xs.contains x) && nodupStr xs

mutual

/-- Well-formedness of a virtual tree as the builder produces it: attribute
names are distinct (JS object properties), no `xlink:href` attribute
(excluded by the amended idempotence claim), textarea nodes are childless
(`___appendChild` never links children under a textarea), and custom
elements do not use the form-control tag names. -/
def wfT : VTree → Bool
  | VTree.elem d cs =>
    nodupStr (d.attrs.entries.map Prod.fst)
      && d.attrs.entries.all (fun e => e.1 != strXlinkHref)
      && (if d.tag == strTextarea then cs.isEmpty else true)
      && (if hasFlag d.flags FLAG_CUSTOM_ELEMENT then !specialTag d.tag
          else true)
      && wfL cs
  | VTree.text _ => true
  | VTree.comment _ => true

/-- Well-formedness of a child list. -/
def wfL : List VTree → Bool
  | [] => true
  | t :: rest => wfT t && wfL rest

end

/-- The owner component of a virtual element for scoping
(`curToNodeChild.___ownerComponent || parentComponent`). -/
def ownerOfD (pc : String) (d : VElemData) : String := d.owner.getD pc

/-- The scoped key of a keyed virtual element as `morphChildren` computes it
before the key sequence (auto keys of foreign owners suffixed with the owner
id). -/
def scopedKeyOf (pc : String) (d : VElemData) : String :=
  let keyRaw := d.key.getD ""
  if isAutoKey keyRaw then
    if ownerOfD pc d != pc then keyRaw ++ colon ++ ownerOfD pc d else keyRaw
  else keyRaw

/-- The reference component of a keyed virtual element (the parent component
for auto keys, the owner for user `@`-keys). -/
def refCompOf (pc : String) (d : VElemData) : String :=
  if isAutoKey (d.key.getD "") then pc else ownerOfD pc d

mutual

/-- The `(referenceComponent, scopedKey)` occurrences of keyed nodes in a
virtual tree, in the depth-first order in which one reconciliation pass
feeds them to the key sequences. -/
def keyOccsOf (pc : String) : VTree → List (String × String)
  | VTree.elem d cs =>
    (if keyTruthy d.key then [(refCompOf pc d, scopedKeyOf pc d)] else [])
      ++ keyOccsList pc cs
  | VTree.text _ => []
  | VTree.comment _ => []

/-- Key occurrences of a child list. -/
def keyOccsList (pc : String) : List VTree → List (String × String)
  | [] => []
  | t :: rest => keyOccsOf pc t ++ keyOccsList pc rest

end

mutual

/-- The number of real nodes one pass materializes for a virtual tree. -/
def rsizeT : VTree → Nat
  | VTree.elem _ cs => 1 + rsizeL cs
  | VTree.text _ => 1
  | VTree.comment _ => 1

/-- The number of real nodes materialized for a child list. -/
def rsizeL : List VTree → Nat
  | [] => 0
  | t :: rest => rsizeT t + rsizeL rest

end

/-- The real ids of the children materialized depth-first from `base`. -/
def idsOfChildren (base : Nat) : List VTree → List Nat
  | [] => []
  | v :: rest => base :: idsOfChildren (base + rsizeT v) rest

/-- The real record `___actualize` leaves for a virtual element whose
children occupy `rs` (see `actualizeNode` for the property defaults). -/
def realElemOf (d : VElemData) (rs : List Nat) : RNode :=
  { newRNode RKind.elem d.tag
      (if hasFlag d.flags FLAG_CUSTOM_ELEMENT then []
       else actualizeAttrs d.attrs.entries)
      "" (velValue d)
      (velHasAttribute d strChecked) (velHasAttribute d strSelected)
      (velHasAttribute d strDisabled) with
    children := rs }

mutual

/-- The annotated real DOM a reconciliation pass leaves for one virtual
node rooted at real id `r`: the actualized record, the side-table entries,
the keyed-element entry for keyed elements, parent links of the children,
and the children mirrored depth-first from `r + 1`. -/
def Mirror (st : MState) (pc : String) (r : Nat) : VTree → Prop
  | VTree.text s =>
    st.getNode r = some (newRNode RKind.textNode "" [] s "" false false false)
  | VTree.comment s =>
    st.getNode r =
      some (newRNode RKind.commentNode "" [] s "" false false false)
  | VTree.elem d cs =>
    st.getNode r = some (realElemOf d (idsOfChildren (r + 1) cs)) ∧
    nlookup st.vByDom r = some (VTree.elem d cs) ∧
    (keyTruthy d.key = true →
      nlookup st.keyByDom r = some (scopedKeyOf pc d) ∧
      keyedGet st (refCompOf pc d) (scopedKeyOf pc d) = some r) ∧
    (∀ c ∈ idsOfChildren (r + 1) cs, domParent st.dom c = some r) ∧
    MirrorChildren st pc (r + 1) cs

/-- Children mirrored depth-first from `base`. -/
def MirrorChildren (st : MState) (pc : String) (base : Nat) :
    List VTree → Prop
  | [] => True
  | v :: rest =>
    Mirror st pc base v ∧ MirrorChildren st pc (base + rsizeT v) rest

end

/-- All upcoming scoped keys are unseen by the current key sequences (their
stored counters are zero), so each resolves verbatim. -/
def SeqFresh (seqs : List (String × KeySequence))
    (occs : List (String × String)) : Prop :=
  ∀ p ∈ occs, KeySequence.stored (getKeySeq seqs p.1) p.2 = 0

/-- All upcoming scoped keys are absent from the keyed-element tables. -/
def TablesFresh (st : MState) (occs : List (String × String)) : Prop :=
  ∀ p ∈ occs, keyedGet st p.1 p.2 = none

/-- Ids at or above the allocation counter are unused everywhere. -/
def FreshOK (st : MState) : Prop :=
  (∀ n, st.nextId ≤ n → st.getNode n = none) ∧
  (∀ n, st.nextId ≤ n → nlookup st.vByDom n = none) ∧
  (∀ n, st.nextId ≤ n → nlookup st.keyByDom n = none) ∧
  (∀ n, st.nextId ≤ n → ∀ e ∈ st.dom, n ∉ e.2.children)

/-- A clean initial state holding one empty container element with id `0`,
the state a first render pass starts from. -/
def initialContainer (ctag : String) : MState :=
  { dom := [(0, newRNode RKind.elem ctag [] "" "" false false false)],
    vByDom := [], keyByDom := [], detachedByDom := [], comps := [],
    keySeqs := [], detachedNodes := [], log := [], nextId := 1 }

/-- A virtual element carrying an `xlink:href` attribute, as a first render
would build it (attribute map object `1`). -/
def cexXlinkV1 : VTree :=
  VTree.elem
    { tag := "a", key := none,
      attrs := { ref := 1, entries := [(strXlinkHref, AttrVal.str "u")] },
      flags := 0, constId := none, owner := none, preserve := false,
      valueInternal := none, preserveTextAreaValue := false } []

/-- The value-identical virtual element a re-render builds (a fresh
attribute map object `2`, same entries). -/
def cexXlinkV2 : VTree :=
  VTree.elem
    { tag := "a", key := none,
      attrs := { ref := 2, entries := [(strXlinkHref, AttrVal.str "u")] },
      flags := 0, constId := none, owner := none, preserve := false,
      valueInternal := none, preserveTextAreaValue := false } []

/-- Container tree around the first render of the `xlink:href` element. -/
def cexCont1 : VTree :=
  VTree.elem
    { tag := "div", key := none, attrs := { ref := 3, entries := [] },
      flags := 0, constId := none, owner := none, preserve := false,
      valueInternal := none, preserveTextAreaValue := false } [cexXlinkV1]

/-- The value-identical container of the second render. -/
def cexCont2 : VTree :=
  VTree.elem
    { tag := "div", key := none, attrs := { ref := 4, entries := [] },
      flags := 0, constId := none, owner := none, preserve := false,
      valueInternal := none, preserveTextAreaValue := false } [cexXlinkV2]

/-- The state the first render pass leaves behind on the `xlink:href`
counterexample: the container holds the actualized anchor element (id `1`,
its attribute stored under the xlink namespace with local name `href`), the
anchor is recorded in `vElementByDOMNode`, and the pass logged exactly the
one insertion. -/
def cexP1lit : MState :=
  { dom := [(0, { kind := RKind.elem, tag := "div", attrs := [], nodeValue := "",
                  valueProp := "", checkedProp := false, selectedProp := false,
                  disabledProp := false, selectedIndexProp := -1,
                  placeholderProp := "", children := [1] }),
            (1, { kind := RKind.elem, tag := "a",
                  attrs := [({ ns := some nsXlink, name := strHref }, "u")],
                  nodeValue := "", valueProp := "", checkedProp := false,
                  selectedProp := false, disabledProp := false,
                  selectedIndexProp := -1, placeholderProp := "", children := [] })],
    vByDom := [(1, cexXlinkV1)], keyByDom := [], detachedByDom := [], comps := [],
    keySeqs := [], detachedNodes := [], log := [Mut.insertBefore 1 none 0],
    nextId := 2 }

/-- `cexP1lit` with the mutation log cleared — the state the second pass
starts from. -/
def cexP1z : MState :=
  { dom := [(0, { kind := RKind.elem, tag := "div", attrs := [], nodeValue := "",
                  valueProp := "", checkedProp := false, selectedProp := false,
                  disabledProp := false, selectedIndexProp := -1,
                  placeholderProp := "", children := [1] }),
            (1, { kind := RKind.elem, tag := "a",
                  attrs := [({ ns := some nsXlink, name := strHref }, "u")],
                  nodeValue := "", valueProp := "", checkedProp := false,
                  selectedProp := false, disabledProp := false,
                  selectedIndexProp := -1, placeholderProp := "", children := [] })],
    vByDom := [(1, cexXlinkV1)], keyByDom := [], detachedByDom := [], comps := [],
    keySeqs := [], detachedNodes := [], log := [], nextId := 2 }

/-- What the second pass produces on the counterexample: the anchor's
`xlink:href` attribute is re-set (the `___morphAttrs` name-remap quirk reads
the old value under `href`, misses, and writes again), so the log holds one
`setAttribute` record even though the trees are value-identical. -/
def cexP2lit : MState :=
  { dom := [(0, { kind := RKind.elem, tag := "div", attrs := [], nodeValue := "",
                  valueProp := "", checkedProp := false, selectedProp := false,
                  disabledProp := false, selectedIndexProp := -1,
                  placeholderProp := "", children := [1] }),
            (1, { kind := RKind.elem, tag := "a",
                  attrs := [({ ns := some nsXlink, name := strHref }, "u")],
                  nodeValue := "", valueProp := "", checkedProp := false,
                  selectedProp := false, disabledProp := false,
                  selectedIndexProp := -1, placeholderProp := "", children := [] })],
    vByDom := [(1, cexXlinkV2)], keyByDom := [], detachedByDom := [], comps := [],
    keySeqs := [], detachedNodes := [],
    log := [Mut.setAttr 1 { ns := some nsXlink, name := strHref } "u"],
    nextId := 2 }

/-- A virtual element carrying a constant id, as a first render builds it. -/
def wConstV1 : VTree :=
  VTree.elem
    { tag := "div", key := none,
      attrs := { ref := 11, entries := [("class", AttrVal.str "x")] },
      flags := 0, constId := some 7, owner := none, preserve := false,
      valueInternal := none, preserveTextAreaValue := false }
    [VTree.text "t"]

/-- The element a re-render builds: a fresh attribute map object, different
entries even, but the same constant id. -/
def wConstV2 : VTree :=
  VTree.elem
    { tag := "div", key := none,
      attrs := { ref := 12, entries := [("class", AttrVal.str "y")] },
      flags := 0, constId := some 7, owner := none, preserve := false,
      valueInternal := none, preserveTextAreaValue := false }
    [VTree.text "u"]

/-- Keyed element `A` (key `a`) as the first render builds it. -/
def wsA : VTree :=
  VTree.elem
    { tag := "span", key := some "a",
      attrs := { ref := 21, entries := [("class", AttrVal.str "x")] },
      flags := 0, constId := none, owner := none, preserve := false,
      valueInternal := none, preserveTextAreaValue := false } []

/-- Keyed element `B` (key `b`) as the first render builds it. -/
def wsB : VTree :=
  VTree.elem
    { tag := "span", key := some "b",
      attrs := { ref := 22, entries := [("class", AttrVal.str "y")] },
      flags := 0, constId := none, owner := none, preserve := false,
      valueInternal := none, preserveTextAreaValue := false } []

/-- `A` as the re-render builds it (fresh attribute map, same values). -/
def wsA2 : VTree :=
  VTree.elem
    { tag := "span", key := some "a",
      attrs := { ref := 23, entries := [("class", AttrVal.str "x")] },
      flags := 0, constId := none, owner := none, preserve := false,
      valueInternal := none, preserveTextAreaValue := false } []

/-- `B` as the re-render builds it. -/
def wsB2 : VTree :=
  VTree.elem
    { tag := "span", key := some "b",
      attrs := { ref := 24, entries := [("class", AttrVal.str "y")] },
      flags := 0, constId := none, owner := none, preserve := false,
      valueInternal := none, preserveTextAreaValue := false } []

/-- The first render's container: `[A(key=a), B(key=b)]`. -/
def wsCont1 : VTree :=
  VTree.elem
    { tag := "div", key := none, attrs := { ref := 25, entries := [] },
      flags := 0, constId := none, owner := none, preserve := false,
      valueInternal := none, preserveTextAreaValue := false } [wsA, wsB]

/-- The re-render's container: `[B(key=b), A(key=a)]`. -/
def wsCont2 : VTree :=
  VTree.elem
    { tag := "div", key := none, attrs := { ref := 26, entries := [] },
      flags := 0, constId := none, owner := none, preserve := false,
      valueInternal := none, preserveTextAreaValue := false } [wsB2, wsA2]

/-- The container's real record with child list `cs`. -/
def wsRDiv (cs : List Nat) : RNode :=
  { kind := RKind.elem, tag := "div", attrs := [], nodeValue := "",
    valueProp := "", checkedProp := false, selectedProp := false,
    disabledProp := false, selectedIndexProp := -1, placeholderProp := "",
    children := cs }

/-- A span's real record with class value `v`. -/
def wsRSpan (v : String) : RNode :=
  { kind := RKind.elem, tag := "span",
    attrs := [({ ns := none, name := "class" }, v)], nodeValue := "",
    valueProp := "", checkedProp := false, selectedProp := false,
    disabledProp := false, selectedIndexProp := -1, placeholderProp := "",
    children := [] }

/-- The state after the first render materialized `A`. -/
def wsStA : MState :=
  { dom := [(0, wsRDiv [1]), (1, wsRSpan "x")], vByDom := [(1, wsA)],
    keyByDom := [(1, "a")], detachedByDom := [],
    comps := [("PC", [("a", 1)])], keySeqs := [("PC", [("a", 1)])],
    detachedNodes := [], log := [Mut.insertBefore 1 none 0], nextId := 2 }

/-- The state the first render pass leaves behind. -/
def wsP1 : MState :=
  { dom := [(0, wsRDiv [1, 2]), (1, wsRSpan "x"), (2, wsRSpan "y")],
    vByDom := [(1, wsA), (2, wsB)], keyByDom := [(1, "a"), (2, "b")],
    detachedByDom := [], comps := [("PC", [("a", 1), ("b", 2)])],
    keySeqs := [("PC", [("a", 1), ("b", 1)])], detachedNodes := [],
    log := [Mut.insertBefore 1 none 0, Mut.insertBefore 2 none 0],
    nextId := 3 }

/-- Second-pass start (log cleared, per-pass tables reset). -/
def wsP2a : MState := { wsP1 with log := [], keySeqs := [] }

/-- After the `b` key consumption. -/
def wsP2b : MState := { wsP2a with keySeqs := [("PC", [("b", 1)])] }

/-- After the single swap move (`insertBefore` of `B` before `A`). -/
def wsP2c : MState :=
  { wsP2b with
    dom := [(0, wsRDiv [2, 1]), (1, wsRSpan "x"), (2, wsRSpan "y")],
    log := [Mut.insertBefore 2 (some 1) 0] }

/-- After morphing `B` in place (only its virtual record is replaced). -/
def wsP2d : MState := { wsP2c with vByDom := [(1, wsA), (2, wsB2)] }

/-- After the `a` key consumption. -/
def wsP2e : MState :=
  { wsP2d with keySeqs := [("PC", [("b", 1), ("a", 1)])] }

/-- The second pass's final state: one logged move, nothing else. -/
def wsP2f : MState := { wsP2e with vByDom := [(1, wsA2), (2, wsB2)] }

/-!
## Helper lemmas about the association-list operations
-/

theorem alookup_astore {α : Type} (m : List (String × α)) (j k : String) (v : α) :
    alookup (astore m j v) k = if j = k then some v else alookup m k := by
  induction m with
  | nil =>
    by_cases h : j = k <;> simp [astore, alookup, h]
  | cons hd tl ih =>
    obtain ⟨k2, v2⟩ := hd
    simp only [astore]
    by_cases h1 : k2 = j
    · subst h1
      simp only [if_pos rfl, alookup]
      by_cases h2 : k2 = k <;> simp [h2]
    · simp only [if_neg h1, alookup]
      by_cases h2 : k2 = k
      · have h3 : ¬j = k := fun hh => h1 (h2.trans hh.symm)
        simp [h2, h3]
      · simp [h2, ih]

theorem stored_astore (s : KeySequence) (j k : String) (v : Nat) :
    KeySequence.stored (astore s j v) k = if j = k then v else s.stored k := by
  unfold KeySequence.stored
  rw [alookup_astore]
  by_cases hjk : j = k <;> simp [hjk]

theorem stored_nextKey (s : KeySequence) (j k : String) :
    ((s.nextKey j).2).stored k = s.stored k + (if j = k then 1 else 0) := by
  cases h : alookup s j with
  | none =>
    have h2 : (s.nextKey j).2 = astore s j 1 := by
      unfold KeySequence.nextKey
      rw [h]
    rw [h2, stored_astore]
    by_cases hjk : j = k
    · subst hjk
      unfold KeySequence.stored
      rw [h]
      simp
    · simp [hjk]
  | some n =>
    by_cases hn : n = 0
    · subst hn
      have h2 : (s.nextKey j).2 = astore s j 1 := by
        unfold KeySequence.nextKey
        rw [h]
        simp
      rw [h2, stored_astore]
      by_cases hjk : j = k
      · subst hjk
        unfold KeySequence.stored
        rw [h]
        simp
      · simp [hjk]
    · have h2 : (s.nextKey j).2 = astore s j (n + 1) := by
        unfold KeySequence.nextKey
        rw [h]
        simp [hn]
      rw [h2, stored_astore]
      by_cases hjk : j = k
      · subst hjk
        unfold KeySequence.stored
        rw [h]
        simp
      · simp [hjk]

theorem stored_applyAll (cs : List String) (s : KeySequence) (k : String) :
    (s.applyAll cs).stored k = s.stored k + cs.count k := by
  induction cs generalizing s with
  | nil => simp [KeySequence.applyAll]
  | cons c cs ih =>
    rw [KeySequence.applyAll, ih, stored_nextKey]
    simp only [List.count_cons]
    by_cases h : c = k
    · simp [h]
      omega
    · have h2 : ¬((c == k) = true) := by simpa using h
      simp [h, h2]

theorem nextKey_fst (s : KeySequence) (k : String) :
    (s.nextKey k).1 =
      if s.stored k = 0 then k
      else k ++ underscore ++ toString (s.stored k) := by
  unfold KeySequence.nextKey KeySequence.stored
  cases h : alookup s k with
  | none => simp
  | some n =>
    by_cases hn : n = 0 <;> simp [hn]

/-!
## Concrete evaluation of the `xlink:href` counterexample

The reconciliation functions recurse on the virtual-tree measure, so concrete
runs are evaluated by unfolding their equations step by step: first the
initial render pass (materialising the anchor element), then the re-render
pass against the value-identical tree, which logs one `setAttribute`.
-/

theorem land_zero_flags (f : Nat) : Nat.land 0 f = 0 := Nat.zero_and f

theorem cex_hAct : actualizeNode (initialContainer "div") cexXlinkV1 =
    ({ cexP1lit with
        dom := [(0, { kind := RKind.elem, tag := "div", attrs := [],
                      nodeValue := "", valueProp := "", checkedProp := false,
                      selectedProp := false, disabledProp := false,
                      selectedIndexProp := -1, placeholderProp := "",
                      children := [] }),
                (1, { kind := RKind.elem, tag := "a",
                      attrs := [({ ns := some nsXlink, name := strHref }, "u")],
                      nodeValue := "", valueProp := "", checkedProp := false,
                      selectedProp := false, disabledProp := false,
                      selectedIndexProp := -1, placeholderProp := "",
                      children := [] })],
        log := [] }, 1) := by
  simp [actualizeNode, cexXlinkV1, actualizeAttrs, attrTruthyish, rstore,
    rlookup, convertAttrValue, hasFlag, FLAG_CUSTOM_ELEMENT, newRNode,
    createNode, initialContainer, velValue, velValueFallback, velHasAttribute,
    alookup, strValue, strChecked, strSelected, strDisabled, strXlinkHref,
    nsXlink, strHref, strCheckbox, strRadio, nstore, nlookup, cexP1lit,
    land_zero_flags]

theorem cex_hIns : insertVirtualNodeBefore (initialContainer "div") cexXlinkV1
    none none 0 "PC" "PC" = cexP1lit := by
  have hChild : morphChildrenM cexP1lit 1 cexXlinkV1 "PC" = cexP1lit := by
    rw [morphChildrenM]
    simp [outerLoop, leftoverLoop, cexXlinkV1, vchildren, firstChildR,
      nextSiblingR, nextAfter, MState.getNode, nlookup, cexP1lit, domParent]
  have hEq : insertBeforeOp
      ({ cexP1lit with
          dom := [(0, { kind := RKind.elem, tag := "div", attrs := [],
                        nodeValue := "", valueProp := "", checkedProp := false,
                        selectedProp := false, disabledProp := false,
                        selectedIndexProp := -1, placeholderProp := "",
                        children := [] }),
                  (1, { kind := RKind.elem, tag := "a",
                        attrs := [({ ns := some nsXlink, name := strHref }, "u")],
                        nodeValue := "", valueProp := "", checkedProp := false,
                        selectedProp := false, disabledProp := false,
                        selectedIndexProp := -1, placeholderProp := "",
                        children := [] })],
          log := [] } : MState) 1 none 0 = cexP1lit := by
    simp [insertBeforeOp, removeEverywhere, insertAt, insertAtAux, cexP1lit]
  have hVT : vNodeType cexXlinkV1 = 1 := rfl
  have hKT : keyTruthy (none : Option String) = false := rfl
  rw [insertVirtualNodeBefore]
  simp only [cex_hAct, hEq, hVT, hKT, beq_self_eq_true, if_true, if_false,
    Bool.false_eq_true, ite_true, ite_false, hChild]

theorem cex_pass1 : morphdomM (initialContainer "div") 0 cexCont1 "PC"
    = cexP1lit := by
  have hS0 : ({ initialContainer "div" with keySeqs := [], detachedNodes := [] } : MState) = initialContainer "div" := rfl
  have hScan : scanLoop (initialContainer "div") 0 "PC" "PC" cexXlinkV1 none 2
      = (initialContainer "div", none, false) := by
    rw [scanLoop]
  have hOuterNil : outerLoop cexP1lit 0 "PC" none none [] = (cexP1lit, none) := by
    rw [outerLoop]
  have hOuter : outerLoop (initialContainer "div") 0 "PC" none none [cexXlinkV1]
      = (cexP1lit, none) := by
    have hKeyT : keyTruthy (vKeyOf cexXlinkV1) = false := rfl
    have hOwn : vOwnerOf cexXlinkV1 = none := rfl
    rw [outerLoop]
    simp only [hOwn, Option.getD_none, hKeyT, Bool.false_eq_true, if_false,
      show (initialContainer "div").dom.length + 1 = 2 from rfl, hScan,
      show vKeyOf cexXlinkV1 = none from rfl, cex_hIns, hOuterNil,
      show keyTruthy none = false from rfl]
  have hLeft : leftoverLoop (cexP1lit.dom.length + 1) cexP1lit 0 "PC" none
      = cexP1lit := by
    rw [show cexP1lit.dom.length + 1 = 3 from rfl]
    rw [leftoverLoop]
  have hMC : morphChildrenM (initialContainer "div") 0 cexCont1 "PC"
      = cexP1lit := by
    rw [morphChildrenM]
    simp only [show vchildren cexCont1 = [cexXlinkV1] from rfl,
      show firstChildR (initialContainer "div") 0 = none from rfl,
      hOuter, hLeft]
  simp only [morphdomM, hS0, hMC,
    show cexP1lit.detachedNodes = [] from rfl, processDetachedList]

theorem cex_hMA : morphAttrs cexP1z 1 cexXlinkV1 cexXlinkV2 = cexP2lit := rfl

theorem cex_pass2 : morphdomM cexP1z 0 cexCont2 "PC" = cexP2lit := by
  have hMCel : morphChildrenM cexP2lit 1 cexXlinkV2 "PC" = cexP2lit := by
    rw [morphChildrenM]
    simp [outerLoop, leftoverLoop, cexXlinkV2, vchildren, firstChildR,
      nextSiblingR, nextAfter, MState.getNode, nlookup, cexP2lit, domParent]
  have hEl : morphElM cexP1z 1 cexXlinkV1 cexXlinkV2 none "PC" "PC"
      = cexP2lit := by
    rw [morphElM]
    simp only [show (velData cexXlinkV2).constId.isSome = false from rfl,
      Bool.false_and, Bool.false_eq_true, if_false, cex_hMA,
      show ((velData cexXlinkV2).tag != strTextarea) = true from rfl, if_true,
      hMCel, show specialElHandler cexP2lit 1 cexXlinkV2 = cexP2lit from rfl]
  have hScan2 : scanLoop cexP1z 0 "PC" "PC" cexXlinkV2 (some 1) 3
      = (cexP2lit, none, true) := by
    rw [scanLoop]
    simp only [show nextSiblingR cexP1z 1 = none from rfl,
      show MState.getNode cexP1z 1 = some
        { kind := RKind.elem, tag := "a",
          attrs := [({ ns := some nsXlink, name := strHref }, "u")],
          nodeValue := "", valueProp := "", checkedProp := false,
          selectedProp := false, disabledProp := false,
          selectedIndexProp := -1, placeholderProp := "", children := [] }
        from rfl,
      show nlookup cexP1z.vByDom 1 = some cexXlinkV1 from rfl,
      show (rKindType RKind.elem == vNodeType cexXlinkV2) = true from rfl,
      if_true,
      show (!keyTruthy (vKeyOf cexXlinkV1)
        && compareNodeNames cexXlinkV1 cexXlinkV2) = true from rfl,
      show vKeyOf cexXlinkV2 = none from rfl, hEl]
  have hOuterNil2 : outerLoop cexP2lit 0 "PC" none none [] = (cexP2lit, none) := by
    rw [outerLoop]
  have hOuter2 : outerLoop cexP1z 0 "PC" (some 1) none [cexXlinkV2]
      = (cexP2lit, none) := by
    rw [outerLoop]
    simp only [show vOwnerOf cexXlinkV2 = none from rfl, Option.getD_none,
      show keyTruthy (vKeyOf cexXlinkV2) = false from rfl, Bool.false_eq_true,
      if_false, show cexP1z.dom.length + 1 = 3 from rfl, hScan2, hOuterNil2,
      if_true, ite_true]
  have hLeft2 : leftoverLoop (cexP2lit.dom.length + 1) cexP2lit 0 "PC" none
      = cexP2lit := by
    rw [show cexP2lit.dom.length + 1 = 3 from rfl]
    rw [leftoverLoop]
  have hMC2 : morphChildrenM cexP1z 0 cexCont2 "PC" = cexP2lit := by
    rw [morphChildrenM]
    simp only [show vchildren cexCont2 = [cexXlinkV2] from rfl,
      show firstChildR cexP1z 0 = some 1 from rfl, hOuter2, hLeft2]
  have hS0 : ({ cexP1z with keySeqs := [], detachedNodes := [] } : MState) = cexP1z := rfl
  simp only [morphdomM, hS0, hMC2,
    show cexP2lit.detachedNodes = [] from rfl, processDetachedList]

/-!
## C7 helper lemmas: invariant preservation along valid traces
-/

theorem lget?_eq_none {α : Type} (l : List α) (i : Nat) :
    lget? l i = none ↔ l.length ≤ i := by
  induction l generalizing i with
  | nil => simp [lget?]
  | cons x xs ih =>
    cases i with
    | zero => simp [lget?]
    | succ j =>
      simp only [lget?, ih, List.length_cons]
      omega

theorem lget?_append_lt {α : Type} (l m : List α) (i : Nat) (h : i < l.length) :
    lget? (l ++ m) i = lget? l i := by
  induction l generalizing i with
  | nil => simp at h
  | cons x xs ih =>
    cases i with
    | zero => rfl
    | succ j =>
      simp only [List.cons_append, lget?]
      exact ih j (by simpa using h)

theorem lget?_append_self {α : Type} (l : List α) (x : α) :
    lget? (l ++ [x]) l.length = some x := by
  induction l with
  | nil => rfl
  | cons y ys ih => simpa [lget?] using ih

theorem lget?_lset {α : Type} (l : List α) (i j : Nat) (f : α → α) :
    lget? (lset l i f) j = if j = i then (lget? l j).map f else lget? l j := by
  induction l generalizing i j with
  | nil => simp [lset, lget?]
  | cons x xs ih =>
    cases i with
    | zero =>
      cases j with
      | zero => simp [lset, lget?]
      | succ j2 => simp [lset, lget?]
    | succ i2 =>
      cases j with
      | zero => simp [lset, lget?]
      | succ j2 => simpa [lset, lget?] using ih i2 j2

theorem length_lset {α : Type} (l : List α) (i : Nat) (f : α → α) :
    (lset l i f).length = l.length := by
  induction l generalizing i with
  | nil => rfl
  | cons x xs ih => cases i <;> simp [lset, ih]

theorem doneKids_subset (sys : BSys) (b : Nat) :
    doneKidsOf sys b ⊆ kidsOf sys b := by
  intro c hc
  simp only [doneKidsOf, Finset.mem_filter, Finset.mem_range] at hc
  simp only [kidsOf, Finset.mem_filter, Finset.mem_range]
  exact ⟨hc.1, hc.2.1⟩

theorem card_doneKids_le (sys : BSys) (b : Nat) :
    (doneKidsOf sys b).card ≤ (kidsOf sys b).card :=
  Finset.card_le_card (doneKids_subset sys b)

theorem remOf_out (sys : BSys) (b : Nat) (h : sys.builders.length ≤ b) :
    remOf sys b = 0 := by
  simp [remOf, BSys.getB, (lget?_eq_none _ _).2 h]

theorem rem_nonneg {sys : BSys} (inv : BInv sys) (b : Nat) :
    0 ≤ remOf sys b := by
  by_cases hb : b < sys.builders.length
  · have h := inv.count b hb
    have h2 := card_doneKids_le sys b
    by_cases he : endedOf sys b = true <;> simp [he] at h <;> omega
  · rw [remOf_out sys b (by omega)]

theorem zero_ended {sys : BSys} (inv : BInv sys) (b : Nat)
    (h : remOf sys b = 0) : endedOf sys b = true := by
  by_cases hb : b < sys.builders.length
  · have hc := inv.count b hb
    have h2 := card_doneKids_le sys b
    by_cases he : endedOf sys b = true
    · exact he
    · simp [he, h] at hc
      omega
  · simp [endedOf, BSys.getB, (lget?_eq_none _ _).2 (by omega : sys.builders.length ≤ b)]

theorem rem_pos_of_not_ended {sys : BSys} (inv : BInv sys) (b : Nat)
    (h : endedOf sys b = false) (hb : b < sys.builders.length) :
    1 ≤ remOf sys b := by
  have hc := inv.count b hb
  have h2 := card_doneKids_le sys b
  simp [h] at hc
  omega

theorem all_rem_zero_of_root {sys : BSys} (inv : BInv sys)
    (h0 : remOf sys 0 = 0) :
    ∀ b, b < sys.builders.length → remOf sys b = 0 := by
  intro b
  induction b using Nat.strong_induction_on with
  | _ b ih =>
    intro hb
    cases hpar : parOf sys b with
    | none =>
      have hb0 := inv.parNone b hpar hb
      rw [hb0]
      exact h0
    | some p =>
      have hpb := inv.parLt b p hpar
      have hplen : p < sys.builders.length := by omega
      have hrp := ih p hpb hplen
      have hc := inv.count p hplen
      have hsub := doneKids_subset sys p
      have hcards : (kidsOf sys p).card ≤ (doneKidsOf sys p).card := by
        by_cases he : endedOf sys p = true <;> simp [he, hrp] at hc <;> omega
      have heq := Finset.eq_of_subset_of_card_le hsub hcards
      have hbk : b ∈ kidsOf sys p := by
        simp [kidsOf, Finset.mem_filter, Finset.mem_range, hb, hpar]
      rw [← heq] at hbk
      simp only [doneKidsOf, Finset.mem_filter] at hbk
      exact hbk.2.2

theorem all_rem_zero_of_all_ended {sys : BSys} (inv : BInv sys)
    (h : ∀ b, b < sys.builders.length → endedOf sys b = true) :
    ∀ b, b < sys.builders.length → remOf sys b = 0 := by
  have key : ∀ k b, sys.builders.length - b ≤ k → b < sys.builders.length →
      remOf sys b = 0 := by
    intro k
    induction k with
    | zero => intro b hk hb; omega
    | succ k ih =>
      intro b hk hb
      have hc := inv.count b hb
      have hkids : kidsOf sys b ⊆ doneKidsOf sys b := by
        intro c hcmem
        simp only [kidsOf, Finset.mem_filter, Finset.mem_range] at hcmem
        have hcb := inv.parLt c b hcmem.2
        have : remOf sys c = 0 := ih c (by omega) hcmem.1
        simp [doneKidsOf, Finset.mem_filter, Finset.mem_range, hcmem.1,
          hcmem.2, this]
      have hcards := Finset.card_le_card hkids
      have h2 := card_doneKids_le sys b
      simp [h b hb] at hc
      omega
  intro b hb
  exact key sys.builders.length b (by omega) hb

theorem getB_setB (sys : BSys) (b c : Nat) (f : Builder → Builder) :
    (sys.setB b f).getB c = if c = b then (sys.getB c).map f else sys.getB c := by
  simp [BSys.setB, BSys.getB, lget?_lset]

theorem length_setB (sys : BSys) (b : Nat) (f : Builder → Builder) :
    (sys.setB b f).builders.length = sys.builders.length := by
  simp [BSys.setB, length_lset]

theorem getB_lt_length {sys : BSys} {b : Nat} {bd : Builder}
    (h : sys.getB b = some bd) : b < sys.builders.length := by
  by_contra hb
  rw [BSys.getB, (lget?_eq_none _ _).2 (by omega)] at h
  exact Option.noConfusion h

theorem begin_preserves {sys : BSys} {p : Nat} {bd : Builder}
    (inv : BInv sys) (hg : sys.getB p = some bd) (he : bd.ended = false)
    (hns : bd.sync = false) :
    BInv (sys.stepOp (BOp.begin p)) := by
  have hp : p < sys.builders.length := getB_lt_length hg
  have hstep : sys.stepOp (BOp.begin p) =
      { sys.setB p (fun x => { x with remaining := x.remaining + 1 }) with
        builders :=
          (sys.setB p (fun x => { x with remaining := x.remaining + 1 })).builders
            ++ [Builder.new (some p)] } := by
    simp [BSys.stepOp, BSys.beginAsync, hg, hns]
  set n := sys.builders.length with hn
  set S := sys.stepOp (BOp.begin p) with hS
  have hlen : S.builders.length = n + 1 := by
    rw [hstep]
    simp [length_setB]
  have hgetlt : ∀ c, c < n → S.getB c =
      if c = p then some { bd with remaining := bd.remaining + 1 }
      else sys.getB c := by
    intro c hc
    rw [hstep]
    show lget? _ c = _
    rw [lget?_append_lt _ _ c (by simpa [length_setB] using hc)]
    have := getB_setB sys p c (fun x => { x with remaining := x.remaining + 1 })
    by_cases hcp : c = p
    · subst hcp
      simpa [hg] using this
    · simpa [hcp] using this
  have hgetn : S.getB n = some (Builder.new (some p)) := by
    rw [hstep]
    show lget? _ n = _
    have : n = (sys.setB p (fun x => { x with remaining := x.remaining + 1 })).builders.length := by
      simp [length_setB]
    rw [this]
    exact lget?_append_self _ _
  have hgetgt : ∀ c, n + 1 ≤ c → S.getB c = none := by
    intro c hc
    rw [BSys.getB, (lget?_eq_none _ _).2 (by omega)]
  have hparlt : ∀ c, c < n → parOf S c = parOf sys c := by
    intro c hc
    rw [parOf, hgetlt c hc]
    by_cases hcp : c = p
    · subst hcp
      simp [parOf, hg]
    · simp [hcp, parOf]
  have hparn : parOf S n = some p := by
    simp [parOf, hgetn, Builder.new]
  have hremlt : ∀ c, c < n → c ≠ p → remOf S c = remOf sys c := by
    intro c hc hcp
    rw [remOf, hgetlt c hc]
    simp [hcp, remOf]
  have hremp : remOf S p = remOf sys p + 1 := by
    rw [remOf, hgetlt p hp]
    simp [remOf, hg]
  have hremn : remOf S n = 1 := by
    simp [remOf, hgetn, Builder.new]
  have hendlt : ∀ c, c < n → endedOf S c = endedOf sys c := by
    intro c hc
    rw [endedOf, hgetlt c hc]
    by_cases hcp : c = p
    · subst hcp
      simp [endedOf, hg]
    · simp [hcp, endedOf]
  have hendsysp : endedOf sys p = false := by
    simp [endedOf, hg, he]
  have hremppos : 1 ≤ remOf sys p := rem_pos_of_not_ended inv p hendsysp hp
  have hremSc : ∀ c, c < n → (remOf S c = 0 ↔ remOf sys c = 0) := by
    intro c hc
    by_cases hcp : c = p
    · subst hcp
      rw [hremp]
      omega
    · rw [hremlt c hc hcp]
  have hkids : ∀ b, kidsOf S b =
      if b = p then insert n (kidsOf sys b) else kidsOf sys b := by
    intro b
    rw [kidsOf, hlen, Finset.range_succ, Finset.filter_insert]
    have hfilt : (Finset.range n).filter (fun c => parOf S c = some b) =
        (Finset.range n).filter (fun c => parOf sys c = some b) := by
      apply Finset.filter_congr
      intro c hc
      rw [hparlt c (Finset.mem_range.1 hc)]
    by_cases hbp : b = p
    · subst hbp
      simp [hparn, hfilt, kidsOf, hn]
    · have : ¬(parOf S n = some b) := by
        rw [hparn]
        simp
        omega
      simp [this, hfilt, kidsOf, hn, hbp]
  have hdone : ∀ b, doneKidsOf S b = doneKidsOf sys b := by
    intro b
    rw [doneKidsOf, hlen, Finset.range_succ, Finset.filter_insert]
    have hnotn : ¬(parOf S n = some b ∧ remOf S n = 0) := by
      rw [hremn]
      simp
    rw [if_neg hnotn]
    apply Finset.filter_congr
    intro c hc
    have hc2 := Finset.mem_range.1 hc
    rw [hparlt c hc2, hremSc c hc2]
  have hnnotmem : n ∉ kidsOf sys p := by
    simp [kidsOf, hn]
  refine ⟨?_, ?_, ?_, ?_, ?_⟩
  · omega
  · intro c hpar hc
    rw [hlen] at hc
    by_cases hcn : c < n
    · exact inv.parNone c (by rw [← hparlt c hcn]; exact hpar) hcn
    · have : c = n := by omega
      rw [this, hparn] at hpar
      exact Option.noConfusion hpar
  · intro c q hpar
    by_cases hcn : c < n
    · exact inv.parLt c q (by rw [← hparlt c hcn]; exact hpar)
    · by_cases hcn2 : c = n
      · rw [hcn2, hparn] at hpar
        cases hpar
        omega
      · rw [parOf, hgetgt c (by omega)] at hpar
        exact Option.noConfusion hpar
  · intro b hb
    rw [hlen] at hb
    rw [hkids b, hdone b]
    by_cases hbn : b = n
    · subst hbn
      have hbp : ¬(n = p) := by omega
      rw [if_neg hbp]
      have hkempty : kidsOf sys n = ∅ := by
        rw [Finset.eq_empty_iff_forall_not_mem]
        intro c hc
        simp only [kidsOf, Finset.mem_filter, Finset.mem_range] at hc
        have := inv.parLt c n hc.2
        omega
      have hdempty : doneKidsOf sys n = ∅ := by
        rw [Finset.eq_empty_iff_forall_not_mem]
        intro c hc
        have h2 := doneKids_subset sys n hc
        rw [hkempty] at h2
        exact Finset.not_mem_empty c h2
      rw [hkempty, hdempty, hremn]
      simp only [endedOf, hgetn, Builder.new, Option.map_some, Option.getD_some,
        Finset.card_empty, Nat.cast_zero]
      norm_num
    · have hbn2 : b < n := by omega
      have hcount := inv.count b hbn2
      rw [hendlt b hbn2]
      by_cases hbp : b = p
      · subst hbp
        rw [if_pos rfl, hremp, Finset.card_insert_of_not_mem hnnotmem]
        push_cast
        omega
      · rw [if_neg hbp, hremlt b hbn2 hbp]
        exact hcount
  · have hlog : S.finishLog = sys.finishLog := by
      show (sys.stepOp (BOp.begin p)).finishLog = sys.finishLog
      simp only [BSys.stepOp, BSys.beginAsync, hg, hns, Bool.false_eq_true,
        if_false, ite_false]
      rfl
    rw [hlog, inv.logSpec]
    by_cases hp0 : p = 0
    · subst hp0
      rw [hremp]
      have h1 : remOf sys 0 ≠ 0 := by omega
      have h2 : ¬(remOf sys 0 + 1 = 0) := by omega
      rw [if_neg h1, if_neg h2]
    · rw [hremlt 0 (by omega) (by omega)]

theorem lget?_lt {α : Type} (l : List α) (i : Nat) (h : i < l.length) :
    ∃ x, lget? l i = some x := by
  cases hx : lget? l i with
  | none =>
    rw [lget?_eq_none] at hx
    omega
  | some x => exact ⟨x, rfl⟩

theorem filter_range_insert_point {n b : Nat} {p q : Nat → Prop}
    [DecidablePred p] [DecidablePred q] (hb : b < n)
    (hsame : ∀ c, c ≠ b → (p c ↔ q c)) (hpb : p b) (hqb : ¬ q b) :
    (Finset.range n).filter p = insert b ((Finset.range n).filter q) := by
  ext c
  simp only [Finset.mem_filter, Finset.mem_range, Finset.mem_insert]
  constructor
  · rintro ⟨hc, hpc⟩
    by_cases hcb : c = b
    · exact Or.inl hcb
    · exact Or.inr ⟨hc, (hsame c hcb).1 hpc⟩
  · rintro (hcb | ⟨hc, hqc⟩)
    · subst hcb
      exact ⟨hb, hpb⟩
    · by_cases hcb : c = b
      · subst hcb
        exact absurd hqc hqb
      · exact ⟨hc, (hsame c hcb).2 hqc⟩

theorem pend_rem_pos {sys : BSys} {b : Nat} (pend : BInvPend sys b) :
    1 ≤ remOf sys b := by
  have h := pend.countB
  have h2 := card_doneKids_le sys b
  by_cases he : endedOf sys b = true <;> simp [he] at h <;> omega

theorem hcdAux_preserves (fuel : Nat) : ∀ (sys : BSys) (b : Nat),
    BInvPend sys b → b ≤ fuel → BInv (BSys.hcdAux fuel sys b) := by
  induction fuel with
  | zero =>
    intro sys b pend hb
    have hb0 : b = 0 := by omega
    subst hb0
    obtain ⟨bd, hg⟩ := lget?_lt sys.builders 0 pend.blt
    have hg2 : sys.getB 0 = some bd := hg
    have hremb : remOf sys 0 = bd.remaining := by simp [remOf, hg2]
    have hrempos : 1 ≤ remOf sys 0 := pend_rem_pos pend
    rw [BSys.hcdAux]
    simp only [hg2]
    set sys2 := sys.setB 0 (fun x => { x with remaining := bd.remaining - 1 })
      with hsys2
    have hget2 : ∀ c, sys2.getB c =
        if c = 0 then some { bd with remaining := bd.remaining - 1 }
        else sys.getB c := by
      intro c
      rw [hsys2, getB_setB]
      by_cases hc : c = 0
      · subst hc
        simp [hg2]
      · simp [hc]
    have hlen2 : sys2.builders.length = sys.builders.length := by
      rw [hsys2, length_setB]
    have hpar2 : ∀ c, parOf sys2 c = parOf sys c := by
      intro c
      rw [parOf, hget2 c]
      by_cases hc : c = 0
      · subst hc
        simp [parOf, hg2]
      · simp [hc, parOf]
    have hend2 : ∀ c, endedOf sys2 c = endedOf sys c := by
      intro c
      rw [endedOf, hget2 c]
      by_cases hc : c = 0
      · subst hc
        simp [endedOf, hg2]
      · simp [hc, endedOf]
    have hrem2b : remOf sys2 0 = remOf sys 0 - 1 := by
      rw [remOf, hget2 0]
      simp [hremb]
    have hrem2 : ∀ c, c ≠ 0 → remOf sys2 c = remOf sys c := by
      intro c hc
      rw [remOf, hget2 c]
      simp [hc, remOf]
    have hkids2 : ∀ q, kidsOf sys2 q = kidsOf sys q := by
      intro q
      rw [kidsOf, kidsOf, hlen2]
      exact Finset.filter_congr (fun c _ => by rw [hpar2 c])
    have hlog2 : sys2.finishLog = sys.finishLog := by
      rw [hsys2]
      rfl
    have hpos0 := pend.posLen
    have hblt0 := pend.blt
    by_cases hrem : bd.remaining - 1 = 0
    · rw [if_pos hrem]
      cases hpar : bd.parentOut with
      | some p =>
        have hps : parOf sys 0 = some p := by simp [parOf, hg2, hpar]
        have := pend.parLt 0 p hps
        omega
      | none =>
        have hps : parOf sys 0 = none := by simp [parOf, hg2, hpar]
        show BInv (BSys.doFinish sys2 0)
        have hdone2 : ∀ q, doneKidsOf sys2 q = doneKidsOf sys q := by
          intro q
          rw [doneKidsOf, doneKidsOf, hlen2]
          apply Finset.filter_congr
          intro c _
          by_cases hc : c = 0
          · subst hc
            constructor
            · rintro ⟨hp, _⟩
              rw [hpar2 0, hps] at hp
              exact absurd hp (by simp)
            · rintro ⟨hp, _⟩
              rw [hps] at hp
              exact absurd hp (by simp)
          · rw [hpar2 c, hrem2 c hc]
        refine ⟨?_, ?_, ?_, ?_, ?_⟩
        · show 0 < (BSys.doFinish sys2 0).builders.length
          simp [BSys.doFinish, hlen2, pend.posLen]
        · intro c hp hc
          exact pend.parNone c (by rw [← hpar2 c]; exact hp)
            (by simpa [BSys.doFinish, hlen2] using hc)
        · intro c q hp
          exact pend.parLt c q (by rw [← hpar2 c]; exact hp)
        · intro q hq
          have hq2 : q < sys.builders.length := by
            simpa [BSys.doFinish, hlen2] using hq
          show remOf sys2 q + (if endedOf sys2 q = true then 1 else 0)
              + ((doneKidsOf sys2 q).card : Int)
              = 1 + ((kidsOf sys2 q).card : Int)
          rw [hdone2 q, hkids2 q, hend2 q]
          by_cases hq0 : q = 0
          · subst hq0
            rw [hrem2b]
            have := pend.countB
            omega
          · rw [hrem2 q hq0]
            exact pend.countOther q hq2 hq0
        · show sys2.finishLog ++ [0] =
            if remOf sys2 0 = 0 then [0] else []
          rw [hlog2, pend.log, hrem2b, hremb]
          simp [hrem]
    · rw [if_neg hrem]
      have hdone2 : ∀ q, doneKidsOf sys2 q = doneKidsOf sys q := by
        intro q
        rw [doneKidsOf, doneKidsOf, hlen2]
        apply Finset.filter_congr
        intro c _
        by_cases hc : c = 0
        · subst hc
          rw [hpar2 0, hrem2b, hremb]
          constructor
          · rintro ⟨hp, hr⟩
            exact absurd hr hrem
          · rintro ⟨hp, hr⟩
            exact ⟨hp, by omega⟩
        · rw [hpar2 c, hrem2 c hc]
      refine ⟨by omega, ?_, ?_, ?_, ?_⟩
      · intro c hp hc
        exact pend.parNone c (by rw [← hpar2 c]; exact hp) (by omega)
      · intro c q hp
        exact pend.parLt c q (by rw [← hpar2 c]; exact hp)
      · intro q hq
        rw [hdone2 q, hkids2 q, hend2 q]
        by_cases hq0 : q = 0
        · subst hq0
          rw [hrem2b]
          have := pend.countB
          omega
        · rw [hrem2 q hq0]
          exact pend.countOther q (by omega) hq0
      · rw [hlog2, pend.log, hrem2b, hremb]
        have : ¬(bd.remaining - 1 = 0) := hrem
        rw [if_neg (by omega)]
  | succ fuel ih =>
    intro sys b pend hb
    obtain ⟨bd, hg⟩ := lget?_lt sys.builders b pend.blt
    have hg2 : sys.getB b = some bd := hg
    have hremb : remOf sys b = bd.remaining := by simp [remOf, hg2]
    have hrempos : 1 ≤ remOf sys b := pend_rem_pos pend
    rw [BSys.hcdAux]
    simp only [hg2]
    set sys2 := sys.setB b (fun x => { x with remaining := bd.remaining - 1 })
      with hsys2
    have hget2 : ∀ c, sys2.getB c =
        if c = b then some { bd with remaining := bd.remaining - 1 }
        else sys.getB c := by
      intro c
      rw [hsys2, getB_setB]
      by_cases hc : c = b
      · subst hc
        simp [hg2]
      · simp [hc]
    have hlen2 : sys2.builders.length = sys.builders.length := by
      rw [hsys2, length_setB]
    have hpar2 : ∀ c, parOf sys2 c = parOf sys c := by
      intro c
      rw [parOf, hget2 c]
      by_cases hc : c = b
      · subst hc
        simp [parOf, hg2]
      · simp [hc, parOf]
    have hend2 : ∀ c, endedOf sys2 c = endedOf sys c := by
      intro c
      rw [endedOf, hget2 c]
      by_cases hc : c = b
      · subst hc
        simp [endedOf, hg2]
      · simp [hc, endedOf]
    have hrem2b : remOf sys2 b = remOf sys b - 1 := by
      rw [remOf, hget2 b]
      simp [hremb]
    have hrem2 : ∀ c, c ≠ b → remOf sys2 c = remOf sys c := by
      intro c hc
      rw [remOf, hget2 c]
      simp [hc, remOf]
    have hkids2 : ∀ q, kidsOf sys2 q = kidsOf sys q := by
      intro q
      rw [kidsOf, kidsOf, hlen2]
      exact Finset.filter_congr (fun c _ => by rw [hpar2 c])
    have hlog2 : sys2.finishLog = sys.finishLog := by
      rw [hsys2]
      rfl
    have hpos0 := pend.posLen
    have hblt0 := pend.blt
    by_cases hrem : bd.remaining - 1 = 0
    · rw [if_pos hrem]
      cases hpar : bd.parentOut with
      | none =>
        have hps : parOf sys b = none := by simp [parOf, hg2, hpar]
        have hb0 : b = 0 := pend.parNone b hps pend.blt
        subst hb0
        show BInv (BSys.doFinish sys2 0)
        have hdone2 : ∀ q, doneKidsOf sys2 q = doneKidsOf sys q := by
          intro q
          rw [doneKidsOf, doneKidsOf, hlen2]
          apply Finset.filter_congr
          intro c _
          by_cases hc : c = 0
          · subst hc
            constructor
            · rintro ⟨hp, _⟩
              rw [hpar2 0, hps] at hp
              exact absurd hp (by simp)
            · rintro ⟨hp, _⟩
              rw [hps] at hp
              exact absurd hp (by simp)
          · rw [hpar2 c, hrem2 c hc]
        refine ⟨?_, ?_, ?_, ?_, ?_⟩
        · show 0 < (BSys.doFinish sys2 0).builders.length
          simp [BSys.doFinish, hlen2, pend.posLen]
        · intro c hp hc
          exact pend.parNone c (by rw [← hpar2 c]; exact hp)
            (by simpa [BSys.doFinish, hlen2] using hc)
        · intro c q hp
          exact pend.parLt c q (by rw [← hpar2 c]; exact hp)
        · intro q hq
          have hq2 : q < sys.builders.length := by
            simpa [BSys.doFinish, hlen2] using hq
          show remOf sys2 q + (if endedOf sys2 q = true then 1 else 0)
              + ((doneKidsOf sys2 q).card : Int)
              = 1 + ((kidsOf sys2 q).card : Int)
          rw [hdone2 q, hkids2 q, hend2 q]
          by_cases hq0 : q = 0
          · subst hq0
            rw [hrem2b]
            have := pend.countB
            omega
          · rw [hrem2 q hq0]
            exact pend.countOther q hq2 hq0
        · show sys2.finishLog ++ [0] =
            if remOf sys2 0 = 0 then [0] else []
          rw [hlog2, pend.log, hrem2b, hremb]
          simp [hrem]
      | some p =>
        have hps : parOf sys b = some p := by simp [parOf, hg2, hpar]
        have hpb : p < b := pend.parLt b p hps
        have hbne : b ≠ 0 := by omega
        have hdone2p : doneKidsOf sys2 p = insert b (doneKidsOf sys p) := by
          rw [doneKidsOf, doneKidsOf, hlen2]
          apply filter_range_insert_point pend.blt
          · intro c hc
            rw [hpar2 c, hrem2 c hc]
          · refine ⟨by rw [hpar2 b]; exact hps, ?_⟩
            rw [hrem2b, hremb]
            omega
          · rintro ⟨_, hr⟩
            rw [hremb] at hr
            omega
        have hbnotin : b ∉ doneKidsOf sys p := by
          simp only [doneKidsOf, Finset.mem_filter, Finset.mem_range]
          rintro ⟨_, _, hr⟩
          rw [hremb] at hr
          omega
        have hdone2 : ∀ q, q ≠ p → doneKidsOf sys2 q = doneKidsOf sys q := by
          intro q hq
          rw [doneKidsOf, doneKidsOf, hlen2]
          apply Finset.filter_congr
          intro c _
          by_cases hc : c = b
          · rw [hc, hpar2 b, hps]
            constructor
            · rintro ⟨hp2, _⟩
              cases hp2
              exact absurd rfl hq
            · rintro ⟨hp2, _⟩
              cases hp2
              exact absurd rfl hq
          · rw [hpar2 c, hrem2 c hc]
        have pend2 : BInvPend sys2 p := by
          refine ⟨by omega, by omega, ?_, ?_, ?_, ?_, ?_, ?_⟩
          · intro c hp hc
            exact pend.parNone c (by rw [← hpar2 c]; exact hp) (by omega)
          · intro c q hp
            exact pend.parLt c q (by rw [← hpar2 c]; exact hp)
          · rw [hdone2p, Finset.card_insert_of_not_mem hbnotin, hkids2 p,
              hend2 p, hrem2 p (by omega)]
            have := pend.countOther p (by omega) (by omega)
            push_cast
            omega
          · intro q hq hqp
            rw [hkids2 q, hend2 q]
            by_cases hqb : q = b
            · rw [hqb, hdone2 b (by omega), hrem2b]
              have := pend.countB
              omega
            · rw [hdone2 q hqp, hrem2 q hqb]
              exact pend.countOther q (by omega) hqb
          · rw [hlog2]
            exact pend.log
          · intro hp0
            rw [hrem2 0 (by omega)]
            exact pend.rootRem hbne
        show BInv (BSys.hcdAux fuel sys2 p)
        exact ih sys2 p pend2 (by omega)
    · rw [if_neg hrem]
      have hdone2 : ∀ q, doneKidsOf sys2 q = doneKidsOf sys q := by
        intro q
        rw [doneKidsOf, doneKidsOf, hlen2]
        apply Finset.filter_congr
        intro c _
        by_cases hc : c = b
        · rw [hc, hpar2 b, hrem2b, hremb]
          constructor
          · rintro ⟨hp, hr⟩
            exact absurd hr hrem
          · rintro ⟨hp, hr⟩
            exact ⟨hp, by omega⟩
        · rw [hpar2 c, hrem2 c hc]
      refine ⟨by omega, ?_, ?_, ?_, ?_⟩
      · intro c hp hc
        exact pend.parNone c (by rw [← hpar2 c]; exact hp) (by omega)
      · intro c q hp
        exact pend.parLt c q (by rw [← hpar2 c]; exact hp)
      · intro q hq
        rw [hdone2 q, hkids2 q, hend2 q]
        by_cases hqb : q = b
        · rw [hqb, hrem2b]
          have := pend.countB
          omega
        · rw [hrem2 q hqb]
          exact pend.countOther q (by omega) hqb
      · rw [hlog2, pend.log]
        have h0 : ¬(remOf sys2 0 = 0) := by
          by_cases hb0 : b = 0
          · rw [hb0] at hrem2b hremb
            rw [hrem2b, hremb]
            intro hx
            exact hrem (by omega)
          · rw [hrem2 0 (by omega)]
            exact pend.rootRem hb0
        rw [if_neg h0]

theorem endB_preserves {sys : BSys} {b : Nat} {bd : Builder}
    (inv : BInv sys) (hg : sys.getB b = some bd) (he : bd.ended = false) :
    BInv (sys.endB b) := by
  have hblt : b < sys.builders.length := getB_lt_length hg
  set sys1 := sys.setB b (fun x => { x with ended := true }) with hsys1
  have hget1 : ∀ c, sys1.getB c =
      if c = b then some { bd with ended := true } else sys.getB c := by
    intro c
    rw [hsys1, getB_setB]
    by_cases hc : c = b
    · rw [hc, hg]
      simp
    · simp [hc]
  have hlen1 : sys1.builders.length = sys.builders.length := by
    rw [hsys1, length_setB]
  have hpar1 : ∀ c, parOf sys1 c = parOf sys c := by
    intro c
    rw [parOf, hget1 c]
    by_cases hc : c = b
    · rw [hc]
      simp [parOf, hg]
    · simp [hc, parOf]
  have hrem1 : ∀ c, remOf sys1 c = remOf sys c := by
    intro c
    rw [remOf, hget1 c]
    by_cases hc : c = b
    · rw [hc]
      simp [remOf, hg]
    · simp [hc, remOf]
  have hend1b : endedOf sys1 b = true := by
    rw [endedOf, hget1 b]
    simp
  have hend1 : ∀ c, c ≠ b → endedOf sys1 c = endedOf sys c := by
    intro c hc
    rw [endedOf, hget1 c]
    simp [hc, endedOf]
  have hkids1 : ∀ q, kidsOf sys1 q = kidsOf sys q := by
    intro q
    rw [kidsOf, kidsOf, hlen1]
    exact Finset.filter_congr (fun c _ => by rw [hpar1 c])
  have hdone1 : ∀ q, doneKidsOf sys1 q = doneKidsOf sys q := by
    intro q
    rw [doneKidsOf, doneKidsOf, hlen1]
    exact Finset.filter_congr (fun c _ => by rw [hpar1 c, hrem1 c])
  have hlog1 : sys1.finishLog = sys.finishLog := by
    rw [hsys1]
    rfl
  have hendsb : endedOf sys b = false := by
    simp [endedOf, hg, he]
  have hroot : remOf sys 0 ≠ 0 := by
    by_cases hb0 : b = 0
    · rw [← hb0]
      have := rem_pos_of_not_ended inv b hendsb hblt
      omega
    · intro h0
      have := all_rem_zero_of_root inv h0 b hblt
      have := zero_ended inv b this
      rw [this] at hendsb
      exact Bool.noConfusion hendsb
  have pend1 : BInvPend sys1 b := by
    refine ⟨by omega, by omega, ?_, ?_, ?_, ?_, ?_, ?_⟩
    · intro c hp hc
      exact inv.parNone c (by rw [← hpar1 c]; exact hp) (by omega)
    · intro c q hp
      exact inv.parLt c q (by rw [← hpar1 c]; exact hp)
    · rw [hrem1 b, hend1b, hdone1 b, hkids1 b]
      have := inv.count b hblt
      rw [hendsb] at this
      simp only [Bool.false_eq_true, if_false] at this
      simp only [if_true]
      omega
    · intro q hq hqb
      rw [hrem1 q, hend1 q hqb, hdone1 q, hkids1 q]
      exact inv.count q (by omega)
    · rw [hlog1, inv.logSpec, if_neg hroot]
    · intro _
      rw [hrem1 0]
      exact hroot
  show BInv (BSys.hcdAux b sys1 b)
  exact hcdAux_preserves b sys1 b pend1 le_rfl

theorem runOps_preserves : ∀ (ops : List BOp) (sys : BSys),
    BInv sys → sys.validOps ops = true → BInv (sys.runOps ops) := by
  intro ops
  induction ops with
  | nil =>
    intro sys inv _
    exact inv
  | cons op ops ih =>
    intro sys inv hv
    rw [BSys.runOps]
    cases op with
    | begin p =>
      simp only [BSys.validOps, Bool.and_eq_true] at hv
      obtain ⟨hguard, hrest⟩ := hv
      cases hgb : sys.getB p with
      | none =>
        rw [hgb] at hguard
        exact absurd hguard (by simp)
      | some bd =>
        rw [hgb] at hguard
        simp only [Bool.and_eq_true, Bool.not_eq_true'] at hguard
        exact ih _ (begin_preserves inv hgb hguard.1 hguard.2) hrest
    | done b =>
      simp only [BSys.validOps, Bool.and_eq_true] at hv
      obtain ⟨hguard, hrest⟩ := hv
      cases hgb : sys.getB b with
      | none =>
        rw [hgb] at hguard
        exact absurd hguard (by simp)
      | some bd =>
        rw [hgb] at hguard
        simp only [Bool.not_eq_true'] at hguard
        exact ih _ (endB_preserves inv hgb hguard) hrest

theorem BInv_init : BInv BSys.init := by
  have hget : ∀ c, BSys.init.getB c =
      if c = 0 then some (Builder.new none) else none := by
    intro c
    cases c with
    | zero => rfl
    | succ c2 => rfl
  refine ⟨by decide, ?_, ?_, ?_, by decide⟩
  · intro c hp hc
    simp only [BSys.init, List.length_singleton] at hc
    omega
  · intro c p hp
    rw [parOf, hget c] at hp
    by_cases hc : c = 0
    · rw [hc] at hp
      simp [Builder.new] at hp
    · simp [hc] at hp
  · intro b hb
    simp only [BSys.init, List.length_singleton] at hb
    have hb0 : b = 0 := by omega
    subst hb0
    have hkids0 : kidsOf BSys.init 0 = ∅ := by decide
    have hdone0 : doneKidsOf BSys.init 0 = ∅ := by decide
    rw [hkids0, hdone0]
    decide

/-!
## Concrete evaluation of the two-element keyed swap
-/

theorem ws_pass1 : morphdomM (initialContainer "div") 0 wsCont1 "PC"
    = wsP1 := by
  have hMCA : morphChildrenM wsStA 1 wsA "PC" = wsStA := by
    have hON : outerLoop wsStA 1 "PC" none none [] = (wsStA, none) := by
      rw [outerLoop]
    rw [morphChildrenM]
    show leftoverLoop ((outerLoop wsStA 1 "PC" none none []).1.dom.length + 1)
      (outerLoop wsStA 1 "PC" none none []).1 1 "PC"
      (outerLoop wsStA 1 "PC" none none []).2 = wsStA
    rw [hON]
    show leftoverLoop 3 wsStA 1 "PC" none = wsStA
    rw [leftoverLoop]
  have hIVA : insertVirtualNodeBefore
      ({ initialContainer "div" with keySeqs := [("PC", [("a", 1)])] } : MState)
      wsA (some "a") none 0 "PC" "PC" = wsStA := by
    rw [insertVirtualNodeBefore]
    show morphChildrenM wsStA 1 wsA "PC" = wsStA
    exact hMCA
  have hKMA : keyedMatchStep
      ({ initialContainer "div" with keySeqs := [("PC", [("a", 1)])] } : MState)
      0 "PC" "PC" none none "PC" "a" none wsA (some wsB)
      = (wsStA, none) := by
    rw [keyedMatchStep]
    show (insertVirtualNodeBefore
      ({ initialContainer "div" with keySeqs := [("PC", [("a", 1)])] } : MState)
      wsA (some "a") none 0 "PC" "PC", (none : Option Nat)) = (wsStA, none)
    rw [hIVA]
  have hKSA : keyedStep (initialContainer "div") 0 "PC" "PC" none none wsA
      (some wsB) = (wsStA, none) := by
    rw [keyedStep]
    exact hKMA
  have hMCB : morphChildrenM wsP1 2 wsB "PC" = wsP1 := by
    have hON : outerLoop wsP1 2 "PC" none none [] = (wsP1, none) := by
      rw [outerLoop]
    rw [morphChildrenM]
    show leftoverLoop ((outerLoop wsP1 2 "PC" none none []).1.dom.length + 1)
      (outerLoop wsP1 2 "PC" none none []).1 2 "PC"
      (outerLoop wsP1 2 "PC" none none []).2 = wsP1
    rw [hON]
    show leftoverLoop 4 wsP1 2 "PC" none = wsP1
    rw [leftoverLoop]
  have hIVB : insertVirtualNodeBefore
      ({ wsStA with keySeqs := [("PC", [("a", 1), ("b", 1)])] } : MState)
      wsB (some "b") none 0 "PC" "PC" = wsP1 := by
    rw [insertVirtualNodeBefore]
    show morphChildrenM wsP1 2 wsB "PC" = wsP1
    exact hMCB
  have hKMB : keyedMatchStep
      ({ wsStA with keySeqs := [("PC", [("a", 1), ("b", 1)])] } : MState)
      0 "PC" "PC" none none "PC" "b" none wsB none
      = (wsP1, none) := by
    rw [keyedMatchStep]
    show (insertVirtualNodeBefore
      ({ wsStA with keySeqs := [("PC", [("a", 1), ("b", 1)])] } : MState)
      wsB (some "b") none 0 "PC" "PC", (none : Option Nat)) = (wsP1, none)
    rw [hIVB]
  have hKSB : keyedStep wsStA 0 "PC" "PC" none none wsB none
      = (wsP1, none) := by
    rw [keyedStep]
    exact hKMB
  have hONP : outerLoop wsP1 0 "PC" none none [] = (wsP1, none) := by
    rw [outerLoop]
  have hO2 : outerLoop wsStA 0 "PC" none none [wsB] = (wsP1, none) := by
    rw [outerLoop]
    show (if keyTruthy (vKeyOf wsB) = true then
        outerLoop (keyedStep wsStA 0 "PC" "PC" none none wsB [].head?).1 0 "PC"
          (keyedStep wsStA 0 "PC" "PC" none none wsB [].head?).2
          (keyedStep wsStA 0 "PC" "PC" none none wsB [].head?).2 []
      else _) = (wsP1, none)
    rw [if_pos (by rfl)]
    show outerLoop (keyedStep wsStA 0 "PC" "PC" none none wsB none).1 0 "PC"
      (keyedStep wsStA 0 "PC" "PC" none none wsB none).2
      (keyedStep wsStA 0 "PC" "PC" none none wsB none).2 [] = (wsP1, none)
    rw [hKSB]
    exact hONP
  have hO1 : outerLoop (initialContainer "div") 0 "PC" none none [wsA, wsB]
      = (wsP1, none) := by
    rw [outerLoop]
    show (if keyTruthy (vKeyOf wsA) = true then
        outerLoop
          (keyedStep (initialContainer "div") 0 "PC" "PC" none none wsA
            [wsB].head?).1 0 "PC"
          (keyedStep (initialContainer "div") 0 "PC" "PC" none none wsA
            [wsB].head?).2
          (keyedStep (initialContainer "div") 0 "PC" "PC" none none wsA
            [wsB].head?).2 [wsB]
      else _) = (wsP1, none)
    rw [if_pos (by rfl)]
    show outerLoop
      (keyedStep (initialContainer "div") 0 "PC" "PC" none none wsA
        (some wsB)).1 0 "PC"
      (keyedStep (initialContainer "div") 0 "PC" "PC" none none wsA
        (some wsB)).2
      (keyedStep (initialContainer "div") 0 "PC" "PC" none none wsA
        (some wsB)).2 [wsB] = (wsP1, none)
    rw [hKSA]
    exact hO2
  have hMC : morphChildrenM (initialContainer "div") 0 wsCont1 "PC"
      = wsP1 := by
    rw [morphChildrenM]
    show leftoverLoop
      ((outerLoop (initialContainer "div") 0 "PC" none none
        [wsA, wsB]).1.dom.length + 1)
      (outerLoop (initialContainer "div") 0 "PC" none none [wsA, wsB]).1 0 "PC"
      (outerLoop (initialContainer "div") 0 "PC" none none [wsA, wsB]).2
      = wsP1
    rw [hO1]
    show leftoverLoop 4 wsP1 0 "PC" none = wsP1
    rw [leftoverLoop]
  show processDetachedList
    (morphChildrenM (initialContainer "div") 0 wsCont1 "PC")
    (morphChildrenM (initialContainer "div") 0 wsCont1 "PC").detachedNodes
    = wsP1
  rw [hMC]
  show processDetachedList wsP1 [] = wsP1
  rfl

theorem ws_pass2 : morphdomM { wsP1 with log := [] } 0 wsCont2 "PC"
    = wsP2f := by
  have hMCB2 : morphChildrenM wsP2d 2 wsB2 "PC" = wsP2d := by
    have hON : outerLoop wsP2d 2 "PC" none none [] = (wsP2d, none) := by
      rw [outerLoop]
    rw [morphChildrenM]
    show leftoverLoop ((outerLoop wsP2d 2 "PC" none none []).1.dom.length + 1)
      (outerLoop wsP2d 2 "PC" none none []).1 2 "PC"
      (outerLoop wsP2d 2 "PC" none none []).2 = wsP2d
    rw [hON]
    show leftoverLoop 4 wsP2d 2 "PC" none = wsP2d
    rw [leftoverLoop]
  have hElB : morphElM wsP2c 2 wsB wsB2 (some "b") "PC" "PC" = wsP2d := by
    rw [morphElM]
    show specialElHandler
      (morphChildrenM (morphAttrs wsP2c 2 wsB wsB2) 2 wsB2 "PC") 2 wsB2
      = wsP2d
    rw [show morphAttrs wsP2c 2 wsB wsB2 = wsP2d from rfl, hMCB2]
    rfl
  have hKFB : keyedFoundStep wsP2b 0 "PC" "PC" (some 1) (some "a") "b"
      (some 2) wsB2 (some wsA2) 2 wsB = (wsP2d, some 1) := by
    rw [keyedFoundStep]
    show (morphElM (insertBeforeOp wsP2b 2 (some 1) 0) 2 wsB wsB2 (some "b")
      "PC" "PC", some 1) = (wsP2d, some 1)
    rw [show insertBeforeOp wsP2b 2 (some 1) 0 = wsP2c from rfl, hElB]
  have hKMB2 : keyedMatchStep wsP2b 0 "PC" "PC" (some 1) (some "a") "PC" "b"
      (some 2) wsB2 (some wsA2) = (wsP2d, some 1) := by
    rw [keyedMatchStep]
    exact hKFB
  have hKSB2 : keyedStep wsP2a 0 "PC" "PC" (some 1) none wsB2 (some wsA2)
      = (wsP2d, some 1) := by
    rw [keyedStep]
    exact hKMB2
  have hMCA2 : morphChildrenM wsP2f 1 wsA2 "PC" = wsP2f := by
    have hON : outerLoop wsP2f 1 "PC" none none [] = (wsP2f, none) := by
      rw [outerLoop]
    rw [morphChildrenM]
    show leftoverLoop ((outerLoop wsP2f 1 "PC" none none []).1.dom.length + 1)
      (outerLoop wsP2f 1 "PC" none none []).1 1 "PC"
      (outerLoop wsP2f 1 "PC" none none []).2 = wsP2f
    rw [hON]
    show leftoverLoop 4 wsP2f 1 "PC" none = wsP2f
    rw [leftoverLoop]
  have hElA : morphElM wsP2e 1 wsA wsA2 (some "a") "PC" "PC" = wsP2f := by
    rw [morphElM]
    show specialElHandler
      (morphChildrenM (morphAttrs wsP2e 1 wsA wsA2) 1 wsA2 "PC") 1 wsA2
      = wsP2f
    rw [show morphAttrs wsP2e 1 wsA wsA2 = wsP2f from rfl, hMCA2]
    rfl
  have hKSameA : keyedSameStep wsP2e 0 "PC" "PC" (some 1) (some wsA) "a"
      none wsA2 = (wsP2f, none) := by
    rw [keyedSameStep]
    show (morphElM wsP2e 1 wsA wsA2 (some "a") "PC" "PC", (none : Option Nat))
      = (wsP2f, none)
    rw [hElA]
  have hKSA2 : keyedStep wsP2d 0 "PC" "PC" (some 1) (some 1) wsA2 none
      = (wsP2f, none) := by
    rw [keyedStep]
    exact hKSameA
  have hONP : outerLoop wsP2f 0 "PC" none none [] = (wsP2f, none) := by
    rw [outerLoop]
  have hO2 : outerLoop wsP2d 0 "PC" (some 1) (some 1) [wsA2]
      = (wsP2f, none) := by
    rw [outerLoop]
    show (if keyTruthy (vKeyOf wsA2) = true then
        outerLoop (keyedStep wsP2d 0 "PC" "PC" (some 1) (some 1) wsA2
          [].head?).1 0 "PC"
          (keyedStep wsP2d 0 "PC" "PC" (some 1) (some 1) wsA2 [].head?).2
          (keyedStep wsP2d 0 "PC" "PC" (some 1) (some 1) wsA2 [].head?).2 []
      else _) = (wsP2f, none)
    rw [if_pos (by rfl)]
    show outerLoop (keyedStep wsP2d 0 "PC" "PC" (some 1) (some 1) wsA2
        none).1 0 "PC"
      (keyedStep wsP2d 0 "PC" "PC" (some 1) (some 1) wsA2 none).2
      (keyedStep wsP2d 0 "PC" "PC" (some 1) (some 1) wsA2 none).2 []
      = (wsP2f, none)
    rw [hKSA2]
    exact hONP
  have hO1 : outerLoop wsP2a 0 "PC" (some 1) none [wsB2, wsA2]
      = (wsP2f, none) := by
    rw [outerLoop]
    show (if keyTruthy (vKeyOf wsB2) = true then
        outerLoop (keyedStep wsP2a 0 "PC" "PC" (some 1) none wsB2
          [wsA2].head?).1 0 "PC"
          (keyedStep wsP2a 0 "PC" "PC" (some 1) none wsB2 [wsA2].head?).2
          (keyedStep wsP2a 0 "PC" "PC" (some 1) none wsB2 [wsA2].head?).2
          [wsA2]
      else _) = (wsP2f, none)
    rw [if_pos (by rfl)]
    show outerLoop (keyedStep wsP2a 0 "PC" "PC" (some 1) none wsB2
        (some wsA2)).1 0 "PC"
      (keyedStep wsP2a 0 "PC" "PC" (some 1) none wsB2 (some wsA2)).2
      (keyedStep wsP2a 0 "PC" "PC" (some 1) none wsB2 (some wsA2)).2 [wsA2]
      = (wsP2f, none)
    rw [hKSB2]
    exact hO2
  have hMC : morphChildrenM wsP2a 0 wsCont2 "PC" = wsP2f := by
    rw [morphChildrenM]
    show leftoverLoop
      ((outerLoop wsP2a 0 "PC" (some 1) none [wsB2, wsA2]).1.dom.length + 1)
      (outerLoop wsP2a 0 "PC" (some 1) none [wsB2, wsA2]).1 0 "PC"
      (outerLoop wsP2a 0 "PC" (some 1) none [wsB2, wsA2]).2 = wsP2f
    rw [hO1]
    show leftoverLoop 4 wsP2f 0 "PC" none = wsP2f
    rw [leftoverLoop]
  show processDetachedList (morphChildrenM wsP2a 0 wsCont2 "PC")
    (morphChildrenM wsP2a 0 wsCont2 "PC").detachedNodes = wsP2f
  rw [hMC]
  show processDetachedList wsP2f [] = wsP2f
  rfl

theorem keyedFoundStep_swap (st : MState) (fromNode : Nat) (pc oc : String)
    (curFrom : Option Nat) (curFromKey : Option String) (resolvedKey : String)
    (fromNext2 : Option Nat) (curTo tn : VTree) (matching : Nat) (vf2 : VTree)
    (hcmp : compareNodeNames vf2 curTo = true)
    (hnext : fromNext2 = some matching)
    (hstrict : keyStrictEq (vKeyJs tn) curFromKey = true) :
    keyedFoundStep st fromNode pc oc curFrom curFromKey resolvedKey fromNext2
        curTo (some tn) matching vf2
      = (morphElM (insertBeforeOp st matching curFrom fromNode) matching vf2
          curTo (some resolvedKey) oc pc, curFrom) := by
  rw [keyedFoundStep.eq_def, hnext]
  simp only [hcmp, if_true, ite_true, beq_self_eq_true, hstrict]

/-!
## Claim theorems (part 1)
-/

/-- **C3** Textarea leaf constraint: on a virtual node named `textarea`,
`___appendChild` throws `TypeError` for a child that is neither a text node
nor flagged preserve; a text child's value is concatenated onto the
accumulated value string without being linked into the child list; on every
non-textarea parent `___appendChild` never throws and links the child as the
new last child. -/
theorem textarea_appendChild_spec (p : VParentNode) (c : VChildNode) :
    (p.nodeName = some strTextarea → c.isText = false → c.preserve = false →
      p.appendChild c = Except.error JsError.typeError) ∧
    (p.nodeName = some strTextarea → c.isText = true →
      p.appendChild c = Except.ok { p with
        childCount := p.childCount + 1
        valueInternal := some (jsStrOr p.valueInternal ++ c.nodeValue) }) ∧
    (p.nodeName ≠ some strTextarea →
      p.appendChild c = Except.ok { p with
        childCount := p.childCount + 1
        children := p.children ++ [c] }) := by
  refine ⟨?_, ?_, ?_⟩
  · intro h1 h2 h3
    simp [VParentNode.appendChild, h1, h2, h3]
  · intro h1 h2
    simp [VParentNode.appendChild, h1, h2]
  · intro h1
    simp only [VParentNode.appendChild]
    rw [if_neg (by simpa using h1)]

/-- Witness for `textarea_appendChild_spec` at concrete inputs: an element
child appended to a textarea throws, a text child accumulates into the
value, and a `div` parent links the child. -/
theorem textarea_appendChild_spec_witness :
    (VParentNode.appendChild
        ⟨some strTextarea, 0, [], none, false⟩ ⟨false, false, ""⟩ =
      Except.error JsError.typeError) ∧
    (VParentNode.appendChild
        ⟨some strTextarea, 0, [], some "ab", false⟩ ⟨true, false, "cd"⟩ =
      Except.ok ⟨some strTextarea, 1, [], some "abcd", false⟩) ∧
    (VParentNode.appendChild
        ⟨some "div", 0, [], none, false⟩ ⟨false, false, ""⟩ =
      Except.ok ⟨some "div", 1, [⟨false, false, ""⟩], none, false⟩) := by
  refine ⟨?_, ?_, ?_⟩
  · exact (textarea_appendChild_spec _ _).1 rfl rfl rfl
  · exact (textarea_appendChild_spec _ _).2.1 rfl rfl
  · exact (textarea_appendChild_spec _ _).2.2 (by decide)

/-- **C6** Fragment transparency in traversal: the `___firstChild` getter
delegates through a document-fragment first child (empty fragment: the
fragment's `___nextSibling`; otherwise the fragment's own first real child),
and the `___nextSibling` getter skips over an empty document-fragment
sibling and falls through from the last child of a document-fragment parent
to that parent's `___nextSibling`. -/
theorem fragment_transparent_traversal :
    (∀ (s : LStore) (f i c : Nat) (nd cd : LNode),
      nlookup s i = some nd → nd.firstChildInternal = some c →
      nlookup s c = some cd → cd.isDocFragment = true →
      cd.firstChildInternal = none →
      lFirstChild s (f + 2) i = lNextSibling s (f + 1) c) ∧
    (∀ (s : LStore) (f i c g : Nat) (nd cd gd : LNode),
      nlookup s i = some nd → nd.firstChildInternal = some c →
      nlookup s c = some cd → cd.isDocFragment = true →
      cd.firstChildInternal = some g → nlookup s g = some gd →
      gd.isDocFragment = false →
      lFirstChild s (f + 2) i = some (some g)) ∧
    (∀ (s : LStore) (f i c : Nat) (nd cd : LNode),
      nlookup s i = some nd → nd.nextSiblingInternal = some c →
      nlookup s c = some cd → cd.isDocFragment = true →
      cd.firstChildInternal = none →
      lNextSibling s (f + 2) i = lNextSibling s (f + 1) c) ∧
    (∀ (s : LStore) (f i p : Nat) (nd pd : LNode),
      nlookup s i = some nd → nd.nextSiblingInternal = none →
      nd.parentNode = some p → nlookup s p = some pd →
      pd.isDocFragment = true →
      lNextSibling s (f + 1) i = lNextSibling s f p) := by
  refine ⟨?_, ?_, ?_, ?_⟩
  · intro s f i c nd cd hi hfc hc hfrag hempty
    have hsub : lFirstChild s (f + 1) c = some none := by
      rw [lFirstChild]
      simp only [hc, hempty]
    rw [lFirstChild]
    simp only [hi, hfc, hc, hfrag, hsub, if_true]
  · intro s f i c g nd cd gd hi hfc hc hfrag hg hgl hgfrag
    have hsub : lFirstChild s (f + 1) c = some (some g) := by
      rw [lFirstChild]
      simp only [hc, hg, hgl, hgfrag, Bool.false_eq_true, if_false]
    rw [lFirstChild]
    simp only [hi, hfc, hc, hfrag, hsub, if_true]
  · intro s f i c nd cd hi hns hc hfrag hempty
    have hsub : lFirstChild s (f + 1) c = some none := by
      rw [lFirstChild]
      simp only [hc, hempty]
    rw [lNextSibling]
    simp only [hi, hns, hc, hfrag, hsub, if_true]
  · intro s f i p nd pd hi hns hp hpl hpfrag
    rw [lNextSibling]
    simp only [hi, hns, hp, hpl, hpfrag, if_true]

/-- Witness for `fragment_transparent_traversal` on a concrete store:
node 1 has an empty fragment 2 as first child and an empty fragment 4 as
next sibling; node 5 has a fragment 6 whose first real child is 7; node 7 is
the last child of fragment 6. -/
theorem fragment_transparent_traversal_witness :
    (lFirstChild witnessStore 7 1 = lNextSibling witnessStore 6 2) ∧
    (lFirstChild witnessStore 7 5 = some (some 7)) ∧
    (lNextSibling witnessStore 7 1 = lNextSibling witnessStore 6 4) ∧
    (lNextSibling witnessStore 7 7 = lNextSibling witnessStore 6 6) := by
  refine ⟨?_, ?_, ?_, ?_⟩
  · exact fragment_transparent_traversal.1 witnessStore 5 1 2
      ⟨some 2, some 4, none, false⟩ ⟨none, some 3, some 1, true⟩
      rfl rfl rfl rfl rfl
  · exact fragment_transparent_traversal.2.1 witnessStore 5 5 6 7
      ⟨some 6, none, none, false⟩ ⟨some 7, none, some 5, true⟩
      ⟨none, none, some 6, false⟩ rfl rfl rfl rfl rfl rfl rfl
  · exact fragment_transparent_traversal.2.2.1 witnessStore 5 1 4
      ⟨some 2, some 4, none, false⟩ ⟨none, none, none, true⟩
      rfl rfl rfl rfl rfl
  · exact fragment_transparent_traversal.2.2.2 witnessStore 6 7 6
      ⟨none, none, some 6, false⟩ ⟨some 7, none, some 5, true⟩
      rfl rfl rfl rfl rfl

/-- **C8** Builder error path always ends the stream: `error(e)` runs
`end()` exactly once whether or not an `error` listener is attached; with
zero listeners the emitter rethrows `e` synchronously, yet the resulting
system is still `endB` of the input (the `end()` sits in a `finally`
block). -/
theorem builder_error_always_ends (sys : BSys) (b : Nat) (e : JsError)
    (hev : sys.events.hasEvents = true) :
    (sys.events.errorListeners = 0 →
      sys.errorB b e = (sys.endB b, some e, 0)) ∧
    (∀ n, sys.events.errorListeners = n + 1 →
      sys.errorB b e = (sys.endB b, none, n + 1)) := by
  constructor
  · intro h0
    simp [BSys.errorB, Emitter.emitError, hev, h0]
  · intro n hn
    simp [BSys.errorB, Emitter.emitError, hev, hn]

/-- Witness for `builder_error_always_ends`: on the initial system (no
`error` listener) the error is rethrown and the stream is still ended. -/
theorem builder_error_always_ends_witness :
    BSys.errorB BSys.init 0 JsError.typeError =
      (BSys.endB BSys.init 0, some JsError.typeError, 0) :=
  (builder_error_always_ends BSys.init 0 JsError.typeError rfl).1 rfl

theorem collectHandlers_all (handlers : List String)
    (changes : List (String × Option SVal))
    (h : ∀ p ∈ changes.map Prod.fst, p ∈ handlers) :
    collectHandlers handlers changes = some (changes.map Prod.fst) := by
  induction changes with
  | nil => rfl
  | cons hd tl ih =>
    obtain ⟨p, v⟩ := hd
    have hp : p ∈ handlers := h p (by simp)
    have htl := ih (fun q hq => h q (by simp [hq]))
    simp [collectHandlers, hp, htl]

theorem collectHandlers_missing (handlers : List String)
    (changes : List (String × Option SVal))
    (h : ∃ p ∈ changes.map Prod.fst, p ∉ handlers) :
    collectHandlers handlers changes = none := by
  induction changes with
  | nil => simp at h
  | cons hd tl ih =>
    obtain ⟨p, v⟩ := hd
    by_cases hp : p ∈ handlers
    · have : ∃ q ∈ tl.map Prod.fst, q ∉ handlers := by
        obtain ⟨q, hq1, hq2⟩ := h
        refine ⟨q, ?_, hq2⟩
        simp only [List.map_cons, List.mem_cons] at hq1
        rcases hq1 with h1 | h1
        · exact absurd (h1 ▸ hp) hq2
        · exact h1
      simp [collectHandlers, hp, ih this]
    · simp [collectHandlers, hp]

theorem reset_reset (c : Component9) : c.reset.reset = c.reset := by
  simp [Component9.reset, Option.map_map]
  rfl

/-- **C9** Update-handler shortcut: with input not dirty and state dirty, if
every changed state key has a user-supplied `update_<key>` method,
`update()` invokes each handler with `(newValue, oldValue)`, emits the
`update` lifecycle event, clears the dirty tracking and schedules no
re-render; if at least one changed key lacks a handler, no handler is
invoked and a full re-render is scheduled instead, subject to
`shouldUpdate`. -/
theorem update_handler_shortcut (c : Component9) (s : ComponentState)
    (hd : c.destroyed = false) (hdirty : c.dirty = false)
    (hs : c.state = some s) (hsd : s.dirty = true) (hne : s.changes ≠ []) :
    ((∀ p ∈ s.changes.map Prod.fst, p ∈ c.handlers) →
      c.update = Except.ok (c.reset,
        { handlerCalls :=
            (s.changes.map Prod.fst).map
              (fun p => (p, (alookup s.changes p).getD none, alookup s.old p))
          emittedUpdate := true
          rerenderScheduled := false })) ∧
    ((∃ p ∈ s.changes.map Prod.fst, p ∉ c.handlers) → c.hasRenderer = true →
      c.update = Except.ok (c.reset,
        { handlerCalls := []
          emittedUpdate := false
          rerenderScheduled := c.shouldUpdateResult })) := by
  have hid : c.isDirty = true := by
    simp [Component9.isDirty, hdirty, hs, hsd]
  have hguard : ¬(c.destroyed = true ∨ c.isDirty = false) := by
    simp [hd, hid]
  have hresetState : c.reset.state = some ⟨false, [], []⟩ := by
    simp [Component9.reset, hs]
  have hresetDirty : c.reset.isDirty = false := by
    simp [Component9.isDirty, Component9.reset, hs]
  constructor
  · intro hall
    have hcol := collectHandlers_all c.handlers s.changes hall
    have hpu : processUpdateHandlers c s.changes s.old =
        (true, c.reset,
          { handlerCalls :=
              (s.changes.map Prod.fst).map
                (fun p => (p, (alookup s.changes p).getD none, alookup s.old p))
            emittedUpdate := true
            rerenderScheduled := false }) := by
      unfold processUpdateHandlers
      rw [hcol]
      cases hch : s.changes with
      | nil => exact absurd hch hne
      | cons e0 tl => simp
    have hc2 : ({ c.reset with
        state := c.reset.state.map (fun s2 => { s2 with dirty := false }) }
          : Component9) = c.reset := by
      rw [hresetState]
      cases hcr : c.reset
      simp_all
    unfold Component9.update
    rw [if_neg hguard, hs]
    simp only [hdirty, hsd, hpu, hc2, and_self, if_true, ite_true, true_and,
      eq_self_iff_true, hresetDirty, Bool.false_eq_true, if_false, ite_false,
      reset_reset]
  · intro hmiss hren
    have hcol := collectHandlers_missing c.handlers s.changes hmiss
    have hpu : processUpdateHandlers c s.changes s.old =
        (false, c, UpdateEffects.none) := by
      unfold processUpdateHandlers
      rw [hcol]
    unfold Component9.update
    rw [if_neg hguard, hs]
    simp only [hdirty, hsd, hpu, and_self, if_true, ite_true, true_and,
      eq_self_iff_true, Bool.false_eq_true, if_false, ite_false, hid]
    by_cases hsu : c.shouldUpdateResult = false
    · rw [if_neg (by simp [hsu])]
      simp [hsu, UpdateEffects.none]
    · have hsu2 : c.shouldUpdateResult = true := by
        cases h : c.shouldUpdateResult
        · exact absurd h hsu
        · rfl
      rw [if_pos (by simp [hsu2])]
      simp [Component9.scheduleRerender, hren, reset_reset, hsu2,
        UpdateEffects.none]

/-- **C10** `beginAsync` on a builder in sync mode throws (with the source's
issue-942 message) instead of spawning a child builder, and the builder
constructed by `Component.prototype.___rerender` is put in sync mode before
the renderer runs, so async sub-trees are unsupported during client-side
re-renders. -/
theorem beginAsync_sync_mode_throws :
    (∀ (sys : BSys) (b : Nat) (bd : Builder),
      sys.getB b = some bd → bd.sync = true →
      sys.beginAsync b = Except.error (JsError.error syncModeErrorMsg)) ∧
    rerenderOut.sync = true := by
  constructor
  · intro sys b bd hb hs
    simp [BSys.beginAsync, hb, hs]
  · rfl

/-- Witness for `beginAsync_sync_mode_throws`: a system whose root builder
is the re-render builder rejects `beginAsync`. -/
theorem beginAsync_sync_mode_throws_witness :
    BSys.beginAsync
      { builders := [rerenderOut], finished := false, finishLog := [],
        events := Emitter.new } 0 =
      Except.error (JsError.error syncModeErrorMsg) :=
  beginAsync_sync_mode_throws.1 _ 0 rerenderOut rfl rfl

/-- Witness for `update_handler_shortcut`: a component with a handler for
its single changed key `count` takes the shortcut — the handler is called
with the new and old values, `update` is emitted, and no re-render is
scheduled. -/
theorem update_handler_shortcut_witness :
    Component9.update
      { destroyed := false, dirty := false, updateQueued := false,
        state := some { dirty := true, changes := [("count", some "1")],
                        old := [("count", "0")] },
        handlers := ["count"], shouldUpdateResult := true,
        hasRenderer := true } =
    Except.ok
      (Component9.reset
        { destroyed := false, dirty := false, updateQueued := false,
          state := some { dirty := true, changes := [("count", some "1")],
                          old := [("count", "0")] },
          handlers := ["count"], shouldUpdateResult := true,
          hasRenderer := true },
       { handlerCalls := [("count", some "1", some "0")],
         emittedUpdate := true, rerenderScheduled := false }) :=
  (update_handler_shortcut _
    { dirty := true, changes := [("count", some "1")], old := [("count", "0")] }
    rfl rfl rfl rfl (by simp)).1 (by simp)

/-- **C1** (counterexample) Reconciliation is not idempotent as stated: the
container trees `cexCont1` and `cexCont2` are value-identical (same node
kinds, tag names, keys, attribute maps, and text values), yet re-running
`morphdom` over the real tree the first pass produced performs one DOM
mutation — the anchor's `xlink:href` attribute is set again, because
`___morphAttrs` remaps the name to `href` before reading the old attribute
map, misses, and re-writes the attribute on every pass. -/
theorem morph_idempotence_counterexample :
    treeEquiv cexCont1 cexCont2 = true ∧
    (morphdomM { morphdomM (initialContainer "div") 0 cexCont1 "PC" with
        log := [] } 0 cexCont2 "PC").log
      = [Mut.setAttr 1 { ns := some nsXlink, name := strHref } "u"] := by
  constructor
  · decide
  · rw [cex_pass1]
    rw [show ({ cexP1lit with log := [] } : MState) = cexP1z from rfl]
    rw [cex_pass2]
    rfl

/-- **C5** Constant-id short circuit: when the new virtual element's
`___constId` is defined and strictly equal to the old one's, `morphEl`
returns the state unchanged — no attribute diffing, no child
reconciliation, no special form-control handling; otherwise the full
pipeline runs: attribute diff, child morph (skipped for textareas), then
the special-element handler. -/
theorem morphEl_constId_short_circuit (st : MState) (fromEl : Nat)
    (vFromT toT : VTree) (toKey : Option String) (owner parentComp : String) :
    (((velData toT).constId.isSome
        && ((velData vFromT).constId == (velData toT).constId)) = true →
      morphElM st fromEl vFromT toT toKey owner parentComp = st) ∧
    (((velData toT).constId.isSome
        && ((velData vFromT).constId == (velData toT).constId)) = false →
      morphElM st fromEl vFromT toT toKey owner parentComp =
        specialElHandler
          (if (velData toT).tag != strTextarea then
            morphChildrenM (morphAttrs st fromEl vFromT toT) fromEl toT
              parentComp
           else morphAttrs st fromEl vFromT toT) fromEl toT) := by
  constructor <;> intro h <;> rw [morphElM] <;> simp [h]

/-- Witness for `morphEl_constId_short_circuit`: two versions of an element
share constant id `7` while their attributes and children differ, and
`morphEl` leaves the state untouched. -/
theorem morphEl_constId_short_circuit_witness :
    morphElM (initialContainer "div") 0 wConstV1 wConstV2 none "PC" "PC"
      = initialContainer "div" :=
  (morphEl_constId_short_circuit (initialContainer "div") 0 wConstV1 wConstV2
    none "PC" "PC").1 (by decide)

/-- **C4** Key collision resolution: after any sequence of `___nextKey`
calls on a fresh `KeySequence`, the next call on a key `k` returns `k`
verbatim when `k` has not been passed before, and `k ++ "_" ++ n` when `k`
was passed `n` times before — so the first call returns the key unchanged,
the `n`-th call on the same literal returns `k_(n-1)`, and counters for
distinct literals are independent (only the count of `k` itself matters).
Each `morphdom` pass discards the incoming `keySequences` table, and the
empty table resolves every reference-component scope to a fresh
sequence. -/
theorem key_collision_resolution :
    (∀ (calls : List String) (k : String),
      ((KeySequence.fresh.applyAll calls).nextKey k).1 =
        if calls.count k = 0 then k
        else k ++ underscore ++ toString (calls.count k)) ∧
    (∀ (st : MState) (s1 s2 : List (String × KeySequence)) (fromNode : Nat)
        (toT : VTree) (pc : String),
      morphdomM { st with keySeqs := s1 } fromNode toT pc =
        morphdomM { st with keySeqs := s2 } fromNode toT pc) ∧
    (∀ cid, getKeySeq [] cid = KeySequence.fresh) := by
  refine ⟨fun calls k => ?_, fun st s1 s2 fromNode toT pc => rfl,
    fun cid => rfl⟩
  rw [nextKey_fst, stored_applyAll]
  simp [KeySequence.stored, KeySequence.fresh, alookup]

/-- **C7** Builder finish gating: over every valid operation trace (each
`beginAsync` on a live non-sync builder, each `end` once per live builder)
from a fresh render, the `finish` event fires at most once; when it has
fired, it fired on the root builder and every builder's outstanding-work
count is zero with its `end` already run — never while any async descendant
branch is still open; and once every builder has ended, the finish event
has fired, on the root, regardless of the completion order of sibling
branches. -/
theorem builder_finish_gating (ops : List BOp)
    (hv : BSys.init.validOps ops = true) :
    (BSys.init.runOps ops).finishLog.length ≤ 1 ∧
    ((BSys.init.runOps ops).finishLog ≠ [] →
      (BSys.init.runOps ops).finishLog = [0] ∧
      ∀ b, b < (BSys.init.runOps ops).builders.length →
        remOf (BSys.init.runOps ops) b = 0 ∧
        endedOf (BSys.init.runOps ops) b = true) ∧
    ((∀ b, b < (BSys.init.runOps ops).builders.length →
        endedOf (BSys.init.runOps ops) b = true) →
      (BSys.init.runOps ops).finishLog = [0]) := by
  have inv := runOps_preserves ops BSys.init BInv_init hv
  refine ⟨?_, ?_, ?_⟩
  · rw [inv.logSpec]
    by_cases h : remOf (BSys.init.runOps ops) 0 = 0 <;> simp [h]
  · intro hne
    have h0 : remOf (BSys.init.runOps ops) 0 = 0 := by
      by_contra h
      rw [inv.logSpec, if_neg h] at hne
      exact hne rfl
    refine ⟨by rw [inv.logSpec, if_pos h0], ?_⟩
    intro b hb
    have hr := all_rem_zero_of_root inv h0 b hb
    exact ⟨hr, zero_ended inv b hr⟩
  · intro hall
    have hz := all_rem_zero_of_all_ended inv hall
    have h0 : remOf (BSys.init.runOps ops) 0 = 0 := hz 0 inv.posLen
    rw [inv.logSpec, if_pos h0]

/-- Witness for `builder_finish_gating`: the root spawns two async
branches, the second branch completes first, the root ends next, and the
finish fires exactly when the remaining branch completes. -/
theorem builder_finish_gating_witness :
    BSys.validOps BSys.init
      [BOp.begin 0, BOp.begin 0, BOp.done 2, BOp.done 0, BOp.done 1]
      = true ∧
    (BSys.init.runOps
      [BOp.begin 0, BOp.begin 0, BOp.done 2, BOp.done 0, BOp.done 1]).finishLog
      = [0] :=
  ⟨by decide, (builder_finish_gating _ (by decide)).2.2 (by decide)⟩

/-- **C2** Single-move swap: the keyed reconciliation branch takes the swap
case — one `insertBefore` of the matched element followed by an in-place
morph, with no detach and no removal — whenever the matched element's node
name fits, the match is the immediate next real sibling, and the next
virtual sibling's key strictly equals the key stored for the real node at
the cursor; `insertBefore` logs exactly one move record; and on the
two-element instance (`[A(key=a), B(key=b)]` re-rendered value-identically
as `[B, A]`) the whole second pass logs exactly one `insertBefore` — no
remove/insert pair and no attribute mutation. -/
theorem single_move_swap :
    (∀ (st : MState) (fromNode : Nat) (pc oc : String) (curFrom : Option Nat)
        (curFromKey : Option String) (resolvedKey : String)
        (fromNext2 : Option Nat) (curTo tn : VTree) (matching : Nat)
        (vf2 : VTree),
      compareNodeNames vf2 curTo = true →
      fromNext2 = some matching →
      keyStrictEq (vKeyJs tn) curFromKey = true →
      keyedFoundStep st fromNode pc oc curFrom curFromKey resolvedKey
          fromNext2 curTo (some tn) matching vf2
        = (morphElM (insertBeforeOp st matching curFrom fromNode) matching
            vf2 curTo (some resolvedKey) oc pc, curFrom)) ∧
    (∀ (st : MState) (n : Nat) (ref : Option Nat) (p : Nat),
      (insertBeforeOp st n ref p).log
        = st.log ++ [Mut.insertBefore n ref p]) ∧
    (morphdomM { morphdomM (initialContainer "div") 0 wsCont1 "PC" with
        log := [] } 0 wsCont2 "PC").log
      = [Mut.insertBefore 2 (some 1) 0] := by
  refine ⟨fun st fn pc oc cf cfk rk fn2 cT tn m v h1 h2 h3 =>
      keyedFoundStep_swap st fn pc oc cf cfk rk fn2 cT tn m v h1 h2 h3,
    fun st n ref p => rfl, ?_⟩
  rw [ws_pass1, ws_pass2]
  rfl

/-- Witness for `single_move_swap`: the swap branch on the concrete
two-element state moves `B` before `A` with one `insertBefore`. -/
theorem single_move_swap_witness :
    keyedFoundStep wsP2b 0 "PC" "PC" (some 1) (some "a") "b" (some 2) wsB2
        (some wsA2) 2 wsB
      = (morphElM (insertBeforeOp wsP2b 2 (some 1) 0) 2 wsB wsB2 (some "b")
          "PC" "PC", some 1) :=
  single_move_swap.1 wsP2b 0 "PC" "PC" (some 1) (some "a") "b" (some 2)
    wsB2 wsA2 2 wsB (by decide) rfl (by decide)

/-!
## Idempotence proof layer: basic lemmas
-/

theorem nlookup_nstore {α : Type} (m : List (Nat × α)) (k j : Nat) (v : α) :
    nlookup (nstore m k v) j = if k = j then some v else nlookup m j := by
  induction m with
  | nil =>
    by_cases h : k = j <;> simp [nstore, nlookup, h]
  | cons e rest ih =>
    obtain ⟨a, b⟩ := e
    by_cases hak : a = k
    · subst hak
      by_cases haj : a = j <;> simp [nstore, nlookup, haj]
    · by_cases haj : a = j
      · subst haj
        simp [nstore, nlookup, hak, if_neg (fun hh : k = a => hak hh.symm)]
      · simp [nstore, nlookup, hak, haj, ih]

theorem nodupStr_cons {x : String} {xs : List String}
    (h : nodupStr (x :: xs) = true) : x ∉ xs ∧ nodupStr xs = true := by
  simp only [nodupStr, Bool.and_eq_true, Bool.not_eq_true'] at h
  refine ⟨?_, h.2⟩
  intro hx
  have hc : xs.contains x = true :=
    List.contains_iff_exists_mem_beq.2 ⟨x, hx, by simp⟩
  rw [hc] at h
  exact Bool.noConfusion h.1

theorem alookup_eq_none_of_not_mem {α : Type} (m : List (String × α))
    (k : String) (h : k ∉ m.map Prod.fst) : alookup m k = none := by
  induction m with
  | nil => rfl
  | cons e rest ih =>
    simp only [List.map_cons, List.mem_cons] at h
    push_neg at h
    obtain ⟨a, b⟩ := e
    have hne : ¬(a = k) := fun hh => h.1 hh.symm
    simp only [alookup, if_neg hne, ite_false]
    exact ih h.2

theorem alookup_self_of_nodup {α : Type} (m : List (String × α))
    (hnd : nodupStr (m.map Prod.fst) = true) :
    ∀ p ∈ m, alookup m p.1 = some p.2 := by
  induction m with
  | nil => intro p hp; simp at hp
  | cons e rest ih =>
    intro p hp
    obtain ⟨a, b⟩ := e
    simp only [List.map_cons] at hnd
    obtain ⟨hnm, hnd2⟩ := nodupStr_cons hnd
    rcases List.mem_cons.1 hp with h | h
    · subst h
      simp [alookup]
    · have hne : a ≠ p.1 := by
        intro hh
        exact hnm (hh ▸ List.mem_map.2 ⟨p, h, rfl⟩)
      simp only [alookup, if_neg hne, ite_false]
      exact ih hnd2 p h

theorem keyedGet_keyedSetSt (st : MState) (c k : String) (n : Nat)
    (c' k' : String) :
    keyedGet (keyedSetSt st c k n) c' k' =
      if c = c' ∧ k = k' then some n else keyedGet st c' k' := by
  unfold keyedGet keyedSetSt
  simp only [alookup_astore]
  by_cases hc : c = c'
  · subst hc
    simp only [if_pos rfl, Option.getD_some, alookup_astore]
    by_cases hk : k = k'
    · simp [hk, alookup_astore]
    · simp [hk, alookup_astore]
  · simp [hc]

theorem getKeySeq_astore (m : List (String × KeySequence)) (rc : String)
    (sq : KeySequence) (rc' : String) :
    getKeySeq (astore m rc sq) rc' =
      if rc = rc' then sq else getKeySeq m rc' := by
  unfold getKeySeq
  rw [alookup_astore]
  by_cases h : rc = rc' <;> simp [h]

theorem stored_consume (m : List (String × KeySequence)) (rc k : String)
    (rc' k' : String) :
    KeySequence.stored
        (getKeySeq (astore m rc ((getKeySeq m rc).nextKey k).2) rc') k' =
      KeySequence.stored (getKeySeq m rc') k'
        + (if rc = rc' ∧ k = k' then 1 else 0) := by
  rw [getKeySeq_astore]
  by_cases hc : rc = rc'
  · subst hc
    rw [if_pos rfl, stored_nextKey]
    by_cases hk : k = k'
    · simp [hk]
    · have : (k == k') = false := by simpa using hk
      simp [this, hk]
  · simp [hc]

theorem rsizeT_pos (v : VTree) : 0 < rsizeT v := by
  cases v <;> simp [rsizeT]

theorem mem_idsOfChildren (b : Nat) (cs : List VTree) :
    ∀ c ∈ idsOfChildren b cs, b ≤ c ∧ c < b + rsizeL cs := by
  induction cs generalizing b with
  | nil => intro c hc; simp [idsOfChildren] at hc
  | cons v rest ih =>
    intro c hc
    simp only [idsOfChildren, List.mem_cons] at hc
    rcases hc with h | h
    · subst h
      have := rsizeT_pos v
      simp only [rsizeL]
      omega
    · have := ih (b + rsizeT v) c h
      simp only [rsizeL]
      omega

theorem nextAfter_skip (l : List Nat) (c : Nat) (x : Nat) (hx : x ≠ c) :
    nextAfter (x :: l) c = nextAfter l c := by
  cases l <;> simp [nextAfter, hx]

theorem nextAfter_head (l : List Nat) (c : Nat) :
    nextAfter (c :: l) c = l.head? := by
  cases l <;> simp [nextAfter]

theorem nextAfter_prefix (pre l : List Nat) (c : Nat) (h : c ∉ pre) :
    nextAfter (pre ++ l) c = nextAfter l c := by
  induction pre with
  | nil => rfl
  | cons x xs ih =>
    simp only [List.mem_cons] at h
    push_neg at h
    rw [List.cons_append, nextAfter_skip _ _ _ (fun hh => h.1 hh.symm)]
    exact ih h.2

theorem rlookup_rstore (m : List (RAttrKey × String)) (k : RAttrKey)
    (v : String) (j : RAttrKey) :
    rlookup (rstore m k v) j = if k = j then some v else rlookup m j := by
  induction m with
  | nil =>
    by_cases h : k = j <;> simp [rstore, rlookup, h]
  | cons e rest ih =>
    obtain ⟨a, b⟩ := e
    by_cases hak : a = k
    · subst hak
      by_cases haj : a = j <;> simp [rstore, rlookup, haj]
    · by_cases haj : a = j
      · subst haj
        simp [rstore, rlookup, hak, if_neg (fun hh : k = a => hak hh.symm)]
      · simp [rstore, rlookup, hak, haj, ih]

theorem actualizeAttrs_lookup_gen (es : List (String × AttrVal))
    (hnd : nodupStr (es.map Prod.fst) = true)
    (hnx : es.all (fun e => e.1 != strXlinkHref) = true) :
    ∀ (acc : List (RAttrKey × String)) (n : String),
      rlookup
          (es.foldl
            (fun acc e =>
              if attrTruthyish e.2 then
                rstore acc
                  (if e.1 == strXlinkHref then
                    { ns := some nsXlink, name := strHref }
                   else { ns := none, name := e.1 })
                  (convertAttrValue e.2)
              else acc)
            acc) { ns := none, name := n }
        = match alookup es n with
          | some v =>
            if attrTruthyish v then some (convertAttrValue v)
            else rlookup acc { ns := none, name := n }
          | none => rlookup acc { ns := none, name := n } := by
  induction es with
  | nil => intro acc n; simp [alookup]
  | cons e rest ih =>
    intro acc n
    obtain ⟨m, v⟩ := e
    simp only [List.all_cons, Bool.and_eq_true, bne_iff_ne] at hnx
    simp only [List.map_cons] at hnd
    obtain ⟨hnm, hnd2⟩ := nodupStr_cons hnd
    have hxm : ¬(m == strXlinkHref) = true := by simpa using hnx.1
    simp only [List.foldl_cons, if_neg hxm, Bool.false_eq_true, ite_false]
    rw [ih hnd2 hnx.2]
    by_cases hmn : m = n
    · subst hmn
      have hrest : alookup rest m = none := by
        apply alookup_eq_none_of_not_mem
        exact hnm
      simp only [alookup, if_pos rfl, ite_true, hrest]
      by_cases ht : attrTruthyish v = true
      · simp only [ht, if_true, ite_true, rlookup_rstore]
      · have ht2 : attrTruthyish v = false := by
          cases h : attrTruthyish v
          · rfl
          · exact absurd h ht
        simp [ht2]
    · simp only [alookup, if_neg hmn, ite_false]
      by_cases ht : attrTruthyish v = true
      · simp only [ht, if_true, ite_true, rlookup_rstore]
        have : ¬(({ ns := none, name := m } : RAttrKey)
            = { ns := none, name := n }) := by
          simp [hmn]
        rw [if_neg this]
      · have ht2 : attrTruthyish v = false := by
          cases h : attrTruthyish v
          · rfl
          · exact absurd h ht
        simp [ht2]

theorem actualizeAttrs_lookup (es : List (String × AttrVal))
    (hnd : nodupStr (es.map Prod.fst) = true)
    (hnx : es.all (fun e => e.1 != strXlinkHref) = true) (n : String) :
    rlookup (actualizeAttrs es) { ns := none, name := n }
      = match alookup es n with
        | some v =>
          if attrTruthyish v then some (convertAttrValue v) else none
        | none => none := by
  have := actualizeAttrs_lookup_gen es hnd hnx [] n
  unfold actualizeAttrs
  rw [this]
  cases alookup es n with
  | none => rfl
  | some v =>
    by_cases ht : attrTruthyish v = true
    · simp [ht]
    · have ht2 : attrTruthyish v = false := by
        cases h : attrTruthyish v
        · rfl
        · exact absurd h ht
      simp [ht2, rlookup]

theorem removeEverywhere_of_not_mem (dom : List (Nat × RNode)) (n : Nat)
    (h : ∀ e ∈ dom, n ∉ e.2.children) : removeEverywhere dom n = dom := by
  induction dom with
  | nil => rfl
  | cons e rest ih =>
    have h1 : n ∉ e.2.children := h e (by simp)
    have h2 := ih (fun x hx => h x (by simp [hx]))
    unfold removeEverywhere at h2 ⊢
    simp only [List.map_cons]
    rw [List.erase_of_not_mem h1, h2]

theorem mem_insertAt (l : List Nat) (ref : Option Nat) (n x : Nat) :
    x ∈ insertAt l ref n ↔ x ∈ l ∨ x = n := by
  cases ref with
  | none => simp [insertAt]
  | some r =>
    simp only [insertAt]
    induction l with
    | nil => simp [insertAtAux]
    | cons y ys ih =>
      by_cases hyr : y = r
      · subst hyr
        simp only [insertAtAux, if_pos rfl, ite_true]
        constructor
        · intro hx
          rcases List.mem_cons.1 hx with h1 | h1
          · exact Or.inr h1
          · exact Or.inl h1
        · rintro (h1 | h1)
          · simp [h1]
          · simp [h1]
      · simp only [insertAtAux, if_neg hyr, ite_false]
        constructor
        · intro hx
          rcases List.mem_cons.1 hx with h1 | h1
          · exact Or.inl (by simp [h1])
          · rcases ih.1 h1 with h2 | h2
            · exact Or.inl (by simp [h2])
            · exact Or.inr h2
        · rintro (h1 | h1)
          · rcases List.mem_cons.1 h1 with h2 | h2
            · simp [h2]
            · exact List.mem_cons.2 (Or.inr (ih.2 (Or.inl h2)))
          · exact List.mem_cons.2 (Or.inr (ih.2 (Or.inr h1)))

theorem domParent_append (dom extra : List (Nat × RNode)) (n : Nat) :
    domParent (dom ++ extra) n
      = match domParent dom n with
        | some p => some p
        | none => domParent extra n := by
  induction dom with
  | nil => rfl
  | cons e rest ih =>
    obtain ⟨i, nd⟩ := e
    by_cases h : n ∈ nd.children
    · simp [domParent, h]
    · simp [domParent, h, ih]

theorem nlookup_append {α : Type} (dom extra : List (Nat × α)) (n : Nat) :
    nlookup (dom ++ extra) n
      = match nlookup dom n with
        | some v => some v
        | none => nlookup extra n := by
  induction dom with
  | nil => rfl
  | cons e rest ih =>
    obtain ⟨i, nd⟩ := e
    by_cases h : i = n
    · simp [nlookup, h]
    · simp [nlookup, h, ih]

theorem treeEquiv_elem {d d' : VElemData} {cs cs' : List VTree}
    (h : treeEquiv (VTree.elem d cs) (VTree.elem d' cs') = true) :
    d.tag = d'.tag ∧ d.key = d'.key
      ∧ d.attrs.entries = d'.attrs.entries ∧ d.flags = d'.flags
      ∧ d.constId = d'.constId ∧ d.owner = d'.owner
      ∧ d.preserve = d'.preserve ∧ d.valueInternal = d'.valueInternal
      ∧ d.preserveTextAreaValue = d'.preserveTextAreaValue
      ∧ treeEquivList cs cs' = true := by
  rw [treeEquiv] at h
  simp only [Bool.and_eq_true, beq_iff_eq] at h
  tauto

theorem treeEquivList_cons {v : VTree} {r cs' : List VTree}
    (h : treeEquivList (v :: r) cs' = true) :
    ∃ v' r', cs' = v' :: r' ∧ treeEquiv v v' = true
      ∧ treeEquivList r r' = true := by
  cases cs' with
  | nil => exact Bool.noConfusion h
  | cons v' r' =>
    rw [show treeEquivList (v :: r) (v' :: r')
      = (treeEquiv v v' && treeEquivList r r') from rfl] at h
    simp only [Bool.and_eq_true] at h
    exact ⟨v', r', rfl, h.1, h.2⟩

theorem treeEquivList_nil {cs' : List VTree}
    (h : treeEquivList [] cs' = true) : cs' = [] := by
  cases cs' with
  | nil => rfl
  | cons v' r' => exact Bool.noConfusion h

theorem wfT_elem {d : VElemData} {cs : List VTree}
    (h : wfT (VTree.elem d cs) = true) :
    nodupStr (d.attrs.entries.map Prod.fst) = true
      ∧ d.attrs.entries.all (fun e => e.1 != strXlinkHref) = true
      ∧ (d.tag = strTextarea → cs = [])
      ∧ wfL cs = true := by
  rw [wfT] at h
  simp only [Bool.and_eq_true] at h
  refine ⟨h.1.1.1.1, h.1.1.1.2, ?_, h.2⟩
  intro hta
  have := h.1.1.2
  rw [show (d.tag == strTextarea) = true from by simp [hta]] at this
  simp only [if_true, ite_true, List.isEmpty_iff] at this
  exact this

theorem wfL_cons {v : VTree} {rest : List VTree}
    (h : wfL (v :: rest) = true) : wfT v = true ∧ wfL rest = true := by
  rw [wfL] at h
  simpa [Bool.and_eq_true] using h

theorem keyOccsOf_elem (pc : String) (d : VElemData) (cs : List VTree) :
    keyOccsOf pc (VTree.elem d cs)
      = (if keyTruthy d.key then [(refCompOf pc d, scopedKeyOf pc d)] else [])
        ++ keyOccsList pc cs := by
  rw [keyOccsOf]

theorem nlookup_updParent (dom : List (Nat × RNode)) (p : Nat)
    (g : RNode → RNode) (n : Nat) :
    nlookup (dom.map (fun e => if e.1 = p then (e.1, g e.2) else e)) n
      = if n = p then (nlookup dom n).map g else nlookup dom n := by
  induction dom with
  | nil => by_cases h : n = p <;> simp [nlookup, h]
  | cons e rest ih =>
    obtain ⟨i, nd⟩ := e
    simp only [List.map_cons]
    by_cases hni : n = i
    · have hin : i = n := hni.symm
      by_cases hip : i = p
      · rw [show ((if (i, nd).1 = p then ((i, nd).1, g (i, nd).2)
            else (i, nd)) : Nat × RNode) = (i, g nd) from by simp [hip]]
        have hnp : n = p := hni.trans hip
        simp [nlookup, hin, hnp]
      · rw [show ((if (i, nd).1 = p then ((i, nd).1, g (i, nd).2)
            else (i, nd)) : Nat × RNode) = (i, nd) from by simp [hip]]
        have hnp : ¬(n = p) := fun h => hip (hni.symm.trans h)
        simp [nlookup, hin, hnp]
    · have hin : ¬(i = n) := fun h => hni h.symm
      by_cases hip : i = p
      · subst hip
        simp only [if_pos rfl, ite_true]
        rw [show nlookup ((i, g nd)
            :: List.map (fun e => if e.1 = i then (e.1, g e.2) else e) rest) n
          = nlookup (List.map (fun e => if e.1 = i then (e.1, g e.2) else e)
            rest) n from by simp [nlookup, hin]]
        rw [ih, if_neg hni, if_neg hni]
        simp [nlookup, hin]
      · simp only [if_neg hip, ite_false]
        rw [show nlookup ((i, nd)
            :: List.map (fun e => if e.1 = p then (e.1, g e.2) else e) rest) n
          = nlookup (List.map (fun e => if e.1 = p then (e.1, g e.2) else e)
            rest) n from by simp [nlookup, hin]]
        rw [ih]
        by_cases hnp : n = p
        · rw [if_pos hnp, if_pos hnp]
          simp [nlookup, hin]
        · rw [if_neg hnp, if_neg hnp]
          simp [nlookup, hin]

theorem domParent_updParent (dom : List (Nat × RNode)) (p : Nat)
    (g : RNode → RNode) (x : Nat)
    (hg : ∀ nd, x ∈ (g nd).children ↔ x ∈ nd.children) :
    domParent (dom.map (fun e => if e.1 = p then (e.1, g e.2) else e)) x
      = domParent dom x := by
  induction dom with
  | nil => rfl
  | cons e rest ih =>
    obtain ⟨i, nd⟩ := e
    simp only [List.map_cons]
    by_cases hip : i = p
    · rw [show ((if (i, nd).1 = p then ((i, nd).1, g (i, nd).2)
          else (i, nd)) : Nat × RNode) = (i, g nd) from by simp [hip]]
      by_cases hx : x ∈ nd.children
      · simp [domParent, hx, hg]
      · simp [domParent, hx, hg, ih]
    · rw [show ((if (i, nd).1 = p then ((i, nd).1, g (i, nd).2)
          else (i, nd)) : Nat × RNode) = (i, nd) from by simp [hip]]
      by_cases hx : x ∈ nd.children
      · simp [domParent, hx]
      · simp [domParent, hx, ih]

/-- The per-subtree properties `Mirror` reads only facts inside the
subtree's interval, so any state transition preserving them preserves
`Mirror`. -/
def MirrorFrameT (v : VTree) : Prop :=
  ∀ (st st2 : MState) (pc : String) (r : Nat),
    Mirror st pc r v →
    (∀ n, r ≤ n → n < r + rsizeT v → st2.getNode n = st.getNode n) →
    (∀ n, r ≤ n → n < r + rsizeT v →
      nlookup st2.vByDom n = nlookup st.vByDom n) →
    (∀ n, r ≤ n → n < r + rsizeT v →
      nlookup st2.keyByDom n = nlookup st.keyByDom n) →
    (∀ rc k, (rc, k) ∈ keyOccsOf pc v → keyedGet st2 rc k = keyedGet st rc k) →
    (∀ c q, r < c → c < r + rsizeT v → domParent st.dom c = some q →
      domParent st2.dom c = some q) →
    Mirror st2 pc r v

/-- `MirrorFrameT` for a child list on its interval. -/
def MirrorFrameL (cs : List VTree) : Prop :=
  ∀ (st st2 : MState) (pc : String) (b : Nat),
    MirrorChildren st pc b cs →
    (∀ n, b ≤ n → n < b + rsizeL cs → st2.getNode n = st.getNode n) →
    (∀ n, b ≤ n → n < b + rsizeL cs →
      nlookup st2.vByDom n = nlookup st.vByDom n) →
    (∀ n, b ≤ n → n < b + rsizeL cs →
      nlookup st2.keyByDom n = nlookup st.keyByDom n) →
    (∀ rc k, (rc, k) ∈ keyOccsList pc cs →
      keyedGet st2 rc k = keyedGet st rc k) →
    (∀ c q, b ≤ c → c < b + rsizeL cs → domParent st.dom c = some q →
      domParent st2.dom c = some q) →
    MirrorChildren st2 pc b cs

theorem mirror_frame_all :
    ∀ n, (∀ v, vsize v ≤ n → MirrorFrameT v)
      ∧ (∀ cs, vsizeList cs ≤ n → MirrorFrameL cs) := by
  intro n
  induction n using Nat.strong_induction_on with
  | _ n ih =>
    constructor
    · intro v hv st st2 pc r hm hg hvb hkb htab hdp
      cases v with
      | text s =>
        rw [Mirror] at hm ⊢
        rw [hg r le_rfl (by simp [rsizeT])]
        exact hm
      | comment s =>
        rw [Mirror] at hm ⊢
        rw [hg r le_rfl (by simp [rsizeT])]
        exact hm
      | elem d cs =>
        rw [Mirror] at hm ⊢
        obtain ⟨h1, h2, h3, h4, h5⟩ := hm
        have hrs : 0 < rsizeT (VTree.elem d cs) := rsizeT_pos _
        have hrseq : rsizeT (VTree.elem d cs) = 1 + rsizeL cs := by
          rw [rsizeT]
        refine ⟨?_, ?_, ?_, ?_, ?_⟩
        · rw [hg r le_rfl (by omega)]
          exact h1
        · rw [hvb r le_rfl (by omega)]
          exact h2
        · intro hk
          obtain ⟨h3a, h3b⟩ := h3 hk
          refine ⟨?_, ?_⟩
          · rw [hkb r le_rfl (by omega)]
            exact h3a
          · rw [htab (refCompOf pc d) (scopedKeyOf pc d)
              (by rw [keyOccsOf_elem]; simp [hk])]
            exact h3b
        · intro c hc
          have hb := mem_idsOfChildren (r + 1) cs c hc
          exact hdp c r (by omega) (by omega) (h4 c hc)
        · have hn1 : vsizeList cs < n := by
            have : vsize (VTree.elem d cs) = 1 + vsizeList cs := by
              rw [vsize]
            omega
          refine (ih (vsizeList cs) hn1).2 cs le_rfl st st2 pc (r + 1) h5
            ?_ ?_ ?_ ?_ ?_
          · intro m h1m h2m
            exact hg m (by omega) (by omega)
          · intro m h1m h2m
            exact hvb m (by omega) (by omega)
          · intro m h1m h2m
            exact hkb m (by omega) (by omega)
          · intro rc k hmem
            exact htab rc k (by rw [keyOccsOf_elem]; simp [hmem])
          · intro c q h1c h2c hq
            exact hdp c q (by omega) (by omega) hq
    · intro cs hcs st st2 pc b hm hg hvb hkb htab hdp
      cases cs with
      | nil => rw [MirrorChildren]; trivial
      | cons v rest =>
        rw [MirrorChildren] at hm ⊢
        obtain ⟨hm1, hm2⟩ := hm
        have hsz : vsize v < n ∧ vsizeList rest < n := by
          have : vsizeList (v :: rest) = 1 + vsize v + vsizeList rest := by
            rw [vsizeList]
          omega
        have hrs : rsizeL (v :: rest) = rsizeT v + rsizeL rest := by
          rw [rsizeL]
        constructor
        · refine (ih (vsize v) hsz.1).1 v le_rfl st st2 pc b hm1
            ?_ ?_ ?_ ?_ ?_
          · intro m h1m h2m
            exact hg m (by omega) (by omega)
          · intro m h1m h2m
            exact hvb m (by omega) (by omega)
          · intro m h1m h2m
            exact hkb m (by omega) (by omega)
          · intro rc k hmem
            exact htab rc k (by rw [keyOccsList]; simp [hmem])
          · intro c q h1c h2c hq
            exact hdp c q (by omega) (by omega) hq
        · refine (ih (vsizeList rest) hsz.2).2 rest le_rfl st st2 pc
            (b + rsizeT v) hm2 ?_ ?_ ?_ ?_ ?_
          · intro m h1m h2m
            exact hg m (by omega) (by omega)
          · intro m h1m h2m
            exact hvb m (by omega) (by omega)
          · intro m h1m h2m
            exact hkb m (by omega) (by omega)
          · intro rc k hmem
            exact htab rc k (by rw [keyOccsList]; simp [hmem])
          · intro c q h1c h2c hq
            exact hdp c q (by omega) (by omega) hq

theorem mirrorFrameT (v : VTree) : MirrorFrameT v :=
  (mirror_frame_all (vsize v)).1 v le_rfl

theorem mirrorFrameL (cs : List VTree) : MirrorFrameL cs :=
  (mirror_frame_all (vsizeList cs)).2 cs le_rfl

/-!
## Insertion-pass lemmas (phase C helpers)
-/

theorem ownerOf_getD (v : VTree) (pc : String) :
    (vOwnerOf v).getD pc = ownerOfD pc (velData v) := by
  cases v <;> rfl

theorem data_ne_nil (a : String) (ha : a ≠ "") : a.data ≠ [] := by
  intro h
  exact ha (String.ext (h.trans rfl))

theorem append_ne_empty (a b : String) (ha : a ≠ "") : a ++ b ≠ "" := by
  intro h
  have h2 := congrArg String.data h
  rw [String.data_append] at h2
  exact data_ne_nil a ha (List.append_eq_nil.mp h2).1

theorem head_append (a b : String) (ha : a ≠ "") :
    (a ++ b).data.head? = a.data.head? := by
  rw [String.data_append]
  cases hd : a.data with
  | nil => exact absurd hd (data_ne_nil a ha)
  | cons c cs => rfl

theorem keyRaw_ne_empty {k : Option String} (h : keyTruthy k = true) :
    k.getD "" ≠ "" := by
  cases k with
  | none => exact Bool.noConfusion h
  | some s =>
    simp only [keyTruthy, Bool.not_eq_true', beq_eq_false_iff_ne, ne_eq] at h
    simpa using h

theorem scopedKey_ne_empty (pc : String) (d : VElemData)
    (h : keyTruthy d.key = true) : scopedKeyOf pc d ≠ "" := by
  have hk := keyRaw_ne_empty h
  simp only [scopedKeyOf]
  split
  · split
    · exact append_ne_empty _ _ (append_ne_empty _ _ hk)
    · exact hk
  · exact hk

theorem keyTruthy_scopedKey (pc : String) (d : VElemData)
    (h : keyTruthy d.key = true) :
    keyTruthy (some (scopedKeyOf pc d)) = true := by
  have h2 := scopedKey_ne_empty pc d h
  simp [keyTruthy, h2]

theorem isAutoKey_scopedKey (pc : String) (d : VElemData)
    (h : keyTruthy d.key = true) :
    isAutoKey (scopedKeyOf pc d) = isAutoKey (d.key.getD "") := by
  have hk := keyRaw_ne_empty h
  simp only [scopedKeyOf]
  split
  · split
    · unfold isAutoKey
      rw [head_append _ _ (append_ne_empty _ _ hk), head_append _ _ hk]
    · rfl
  · rfl

theorem scanLoop_noneCur (st : MState) (fn : Nat) (pc oc : String)
    (v : VTree) : ∀ fuel, scanLoop st fn pc oc v none fuel
      = (st, none, false) := by
  intro fuel
  cases fuel with
  | zero => rw [scanLoop]
  | succ n => rw [scanLoop]

theorem leftoverLoop_noneCur (fuel : Nat) (st : MState) (fn : Nat)
    (pc : String) : leftoverLoop fuel st fn pc none = st := by
  cases fuel <;> rfl

theorem nlookup_mapIns (dom : List (Nat × RNode)) (p : Nat) (ref : Option Nat)
    (n q : Nat) :
    nlookup (dom.map (fun e =>
        if e.1 = p then
          (e.1, { e.2 with children := insertAt e.2.children ref n })
        else e)) q
      = if q = p then
          (nlookup dom q).map (fun nd =>
            { nd with children := insertAt nd.children ref n })
        else nlookup dom q :=
  nlookup_updParent dom p
    (fun nd => { nd with children := insertAt nd.children ref n }) q

theorem domParent_mapIns_other (dom : List (Nat × RNode)) (p : Nat)
    (ref : Option Nat) (n x : Nat) (hx : x ≠ n) :
    domParent (dom.map (fun e =>
        if e.1 = p then
          (e.1, { e.2 with children := insertAt e.2.children ref n })
        else e)) x
      = domParent dom x :=
  domParent_updParent dom p
    (fun nd => { nd with children := insertAt nd.children ref n }) x (by
    intro nd
    show x ∈ insertAt nd.children ref n ↔ x ∈ nd.children
    rw [mem_insertAt]
    simp [hx])

theorem domParent_mapIns_self (dom : List (Nat × RNode)) (p : Nat)
    (ref : Option Nat) (n : Nat)
    (hclean : ∀ e ∈ dom, n ∉ e.2.children)
    (hp : ∃ nd, nlookup dom p = some nd) :
    domParent (dom.map (fun e =>
        if e.1 = p then
          (e.1, { e.2 with children := insertAt e.2.children ref n })
        else e)) n = some p := by
  induction dom with
  | nil =>
    obtain ⟨nd, hnd⟩ := hp
    exact Option.noConfusion hnd
  | cons e rest ih =>
    obtain ⟨i, nd⟩ := e
    simp only [List.map_cons]
    by_cases hip : i = p
    · rw [show ((if (i, nd).1 = p then
          ((i, nd).1, { (i, nd).2 with
            children := insertAt (i, nd).2.children ref n })
          else (i, nd)) : Nat × RNode)
        = (i, { nd with children := insertAt nd.children ref n })
        from by simp [hip]]
      have hmem : n ∈ insertAt nd.children ref n :=
        (mem_insertAt _ _ _ _).2 (Or.inr rfl)
      simp [domParent, hmem, hip]
    · rw [show ((if (i, nd).1 = p then
          ((i, nd).1, { (i, nd).2 with
            children := insertAt (i, nd).2.children ref n })
          else (i, nd)) : Nat × RNode) = (i, nd) from by simp [hip]]
      have hn : n ∉ nd.children := hclean (i, nd) (by simp)
      rw [show domParent ((i, nd) :: List.map (fun e =>
          if e.1 = p then
            (e.1, { e.2 with children := insertAt e.2.children ref n })
          else e) rest) n
        = domParent (List.map (fun e =>
          if e.1 = p then
            (e.1, { e.2 with children := insertAt e.2.children ref n })
          else e) rest) n from by simp [domParent, hn]]
      refine ih (fun e he => hclean e (by simp [he])) ?_
      obtain ⟨nd2, hnd2⟩ := hp
      refine ⟨nd2, ?_⟩
      rw [show nlookup ((i, nd) :: rest) p = nlookup rest p
        from by simp [nlookup, hip]] at hnd2
      exact hnd2

theorem getNode_insertBeforeOp (st : MState) (n : Nat) (ref : Option Nat)
    (p : Nat) (hclean : ∀ e ∈ st.dom, n ∉ e.2.children) (q : Nat) :
    (insertBeforeOp st n ref p).getNode q
      = if q = p then
          (st.getNode q).map (fun nd =>
            { nd with children := insertAt nd.children ref n })
        else st.getNode q := by
  show nlookup ((removeEverywhere st.dom n).map (fun e =>
      if e.1 = p then
        (e.1, { e.2 with children := insertAt e.2.children ref n })
      else e)) q = _
  rw [removeEverywhere_of_not_mem st.dom n hclean]
  exact nlookup_mapIns st.dom p ref n q

theorem domParent_insertBeforeOp_other (st : MState) (n : Nat)
    (ref : Option Nat) (p : Nat) (hclean : ∀ e ∈ st.dom, n ∉ e.2.children)
    (x : Nat) (hx : x ≠ n) :
    domParent (insertBeforeOp st n ref p).dom x = domParent st.dom x := by
  show domParent ((removeEverywhere st.dom n).map (fun e =>
      if e.1 = p then
        (e.1, { e.2 with children := insertAt e.2.children ref n })
      else e)) x = _
  rw [removeEverywhere_of_not_mem st.dom n hclean]
  exact domParent_mapIns_other st.dom p ref n x hx

theorem domParent_insertBeforeOp_self (st : MState) (n : Nat)
    (ref : Option Nat) (p : Nat) (hclean : ∀ e ∈ st.dom, n ∉ e.2.children)
    (hp : ∃ nd, st.getNode p = some nd) :
    domParent (insertBeforeOp st n ref p).dom n = some p := by
  show domParent ((removeEverywhere st.dom n).map (fun e =>
      if e.1 = p then
        (e.1, { e.2 with children := insertAt e.2.children ref n })
      else e)) n = _
  rw [removeEverywhere_of_not_mem st.dom n hclean]
  exact domParent_mapIns_self st.dom p ref n hclean hp

theorem children_insertBeforeOp (st : MState) (n : Nat) (ref : Option Nat)
    (p m : Nat) (hm : m ≠ n)
    (hold : ∀ e ∈ st.dom, m ∉ e.2.children) :
    ∀ e ∈ (insertBeforeOp st n ref p).dom, m ∉ e.2.children := by
  intro e he
  have he2 : e ∈ (removeEverywhere st.dom n).map (fun e =>
      if e.1 = p then
        (e.1, { e.2 with children := insertAt e.2.children ref n })
      else e) := he
  obtain ⟨a, ha, hfa⟩ := List.mem_map.1 he2
  obtain ⟨b, hb, hba⟩ := List.mem_map.1 (show a ∈ st.dom.map (fun e =>
      (e.1, { e.2 with children := e.2.children.erase n })) from ha)
  have hmb : m ∉ b.2.children := hold b hb
  have hma : m ∉ a.2.children := by
    rw [← hba]
    intro hmem
    exact hmb (List.mem_of_mem_erase hmem)
  rw [← hfa]
  by_cases hap : a.1 = p
  · rw [show ((if a.1 = p then
        (a.1, { a.2 with children := insertAt a.2.children ref n })
        else a) : Nat × RNode)
      = (a.1, { a.2 with children := insertAt a.2.children ref n })
      from by simp [hap]]
    intro hmem
    rcases (mem_insertAt _ _ _ _).1 hmem with h | h
    · exact hma h
    · exact hm h
  · rw [show ((if a.1 = p then
        (a.1, { a.2 with children := insertAt a.2.children ref n })
        else a) : Nat × RNode) = a from by simp [hap]]
    exact hma

theorem nlookup_mem {α : Type} (m : List (Nat × α)) (p : Nat) (v : α)
    (h : nlookup m p = some v) : (p, v) ∈ m := by
  induction m with
  | nil => exact Option.noConfusion h
  | cons e rest ih =>
    obtain ⟨i, w⟩ := e
    by_cases hip : i = p
    · subst hip
      rw [show nlookup ((i, w) :: rest) i = some w from by simp [nlookup]] at h
      injection h with h2
      rw [← h2]
      exact List.mem_cons_self _ _
    · rw [show nlookup ((i, w) :: rest) p = nlookup rest p
        from by simp [nlookup, hip]] at h
      exact List.mem_cons.2 (Or.inr (ih h))

theorem nodup_append_parts {α : Type} {l1 l2 : List α}
    (h : (l1 ++ l2).Nodup) :
    l1.Nodup ∧ l2.Nodup ∧ ∀ x ∈ l1, x ∉ l2 := by
  rw [List.nodup_append] at h
  exact ⟨h.1, h.2.1, fun x hx hx2 => h.2.2 hx hx2⟩

/-!
## The insertion pass

`insertVirtualNodeBefore` with a `null` reference, run on a fresh subtree
under a parent already in the store, appends one depth-first interval of new
nodes and leaves exactly the `Mirror` annotations behind while the rest of
the state is framed.  `P1Concl` / `P1LConcl` record that postcondition for
one virtual node and for a child list.
-/

structure P1Concl (st : MState) (p : Nat) (pc : String) (v : VTree)
    (st2 : MState) : Prop where
  nid : st2.nextId = st.nextId + rsizeT v
  gOld : ∀ n, n < st.nextId → n ≠ p → st2.getNode n = st.getNode n
  gPar : ∀ pnd, st.getNode p = some pnd →
    st2.getNode p = some { pnd with children := pnd.children ++ [st.nextId] }
  mir : Mirror st2 pc st.nextId v
  vbOld : ∀ n, n < st.nextId → nlookup st2.vByDom n = nlookup st.vByDom n
  kbOld : ∀ n, n < st.nextId → nlookup st2.keyByDom n = nlookup st.keyByDom n
  tabF : ∀ rc k, (rc, k) ∉ keyOccsOf pc v →
    keyedGet st2 rc k = keyedGet st rc k
  seqF : ∀ rc k, (rc, k) ∉ keyOccsOf pc v →
    KeySequence.stored (getKeySeq st2.keySeqs rc) k
      = KeySequence.stored (getKeySeq st.keySeqs rc) k
  detB : st2.detachedByDom = st.detachedByDom
  detN : st2.detachedNodes = st.detachedNodes
  fresh : FreshOK st2
  rootPar : domParent st2.dom st.nextId = some p
  dpOld : ∀ x q, x < st.nextId → domParent st.dom x = some q →
    domParent st2.dom x = some q

structure P1LConcl (st : MState) (p : Nat) (pc : String) (cs : List VTree)
    (st2 : MState) : Prop where
  nid : st2.nextId = st.nextId + rsizeL cs
  gOld : ∀ n, n < st.nextId → n ≠ p → st2.getNode n = st.getNode n
  gPar : ∀ pnd, st.getNode p = some pnd →
    st2.getNode p = some { pnd with
      children := pnd.children ++ idsOfChildren st.nextId cs }
  mirC : MirrorChildren st2 pc st.nextId cs
  vbOld : ∀ n, n < st.nextId → nlookup st2.vByDom n = nlookup st.vByDom n
  kbOld : ∀ n, n < st.nextId → nlookup st2.keyByDom n = nlookup st.keyByDom n
  tabF : ∀ rc k, (rc, k) ∉ keyOccsList pc cs →
    keyedGet st2 rc k = keyedGet st rc k
  seqF : ∀ rc k, (rc, k) ∉ keyOccsList pc cs →
    KeySequence.stored (getKeySeq st2.keySeqs rc) k
      = KeySequence.stored (getKeySeq st.keySeqs rc) k
  detB : st2.detachedByDom = st.detachedByDom
  detN : st2.detachedNodes = st.detachedNodes
  fresh : FreshOK st2
  kidsPar : ∀ c ∈ idsOfChildren st.nextId cs, domParent st2.dom c = some p
  dpOld : ∀ x q, x < st.nextId → domParent st.dom x = some q →
    domParent st2.dom x = some q

/-- The insertion postcondition for one virtual node, as a statement
quantified over the insertion context. -/
def P1InsP (v : VTree) : Prop :=
  ∀ (st : MState) (p : Nat) (pc oc : String) (key : Option String),
    wfT v = true →
    FreshOK st →
    p < st.nextId →
    (∃ pnd, st.getNode p = some pnd) →
    SeqFresh st.keySeqs (keyOccsList pc (vchildren v)) →
    TablesFresh st (keyOccsList pc (vchildren v)) →
    (keyOccsOf pc v).Nodup →
    oc = ownerOfD pc (velData v) →
    key = (if keyTruthy (vKeyOf v) then some (scopedKeyOf pc (velData v))
           else vKeyOf v) →
    P1Concl st p pc v (insertVirtualNodeBefore st v key none p oc pc)

/-- The insertion postcondition for a child list fed to the outer loop with
no real cursor. -/
def P1LstP (cs : List VTree) : Prop :=
  ∀ (st : MState) (p : Nat) (pc : String),
    wfL cs = true →
    FreshOK st →
    p < st.nextId →
    (∃ pnd, st.getNode p = some pnd) →
    SeqFresh st.keySeqs (keyOccsList pc cs) →
    TablesFresh st (keyOccsList pc cs) →
    (keyOccsList pc cs).Nodup →
    (outerLoop st p pc none none cs).2 = none ∧
    P1LConcl st p pc cs (outerLoop st p pc none none cs).1

theorem occsList_sub_occsOf (pc : String) (v : VTree) :
    ∀ q ∈ keyOccsList pc (vchildren v), q ∈ keyOccsOf pc v := by
  cases v with
  | elem d cs =>
    intro q hq
    rw [keyOccsOf_elem]
    exact List.mem_append.2 (Or.inr hq)
  | text s => intro q hq; exact absurd hq (by rw [show vchildren (VTree.text s) = [] from rfl, keyOccsList]; simp)
  | comment s => intro q hq; exact absurd hq (by rw [show vchildren (VTree.comment s) = [] from rfl, keyOccsList]; simp)

/-- Assembling the element conclusion from a characterized container state
and the child-list induction hypothesis. -/
theorem p1_elem_assemble (d : VElemData) (cs : List VTree)
    (ihL : P1LstP cs)
    (st st2 : MState) (p : Nat) (pc : String)
    (h2nid : st2.nextId = st.nextId + 1)
    (h2gSelf : st2.getNode st.nextId = some (realElemOf d []))
    (h2gOld : ∀ n, n ≠ p → n ≠ st.nextId → st2.getNode n = st.getNode n)
    (h2gPar : ∀ pnd, st.getNode p = some pnd →
      st2.getNode p
        = some { pnd with children := pnd.children ++ [st.nextId] })
    (h2vb : ∀ n, nlookup st2.vByDom n
      = if n = st.nextId then some (VTree.elem d cs)
        else nlookup st.vByDom n)
    (h2kb : ∀ n, n ≠ st.nextId →
      nlookup st2.keyByDom n = nlookup st.keyByDom n)
    (h2kbSelf : keyTruthy d.key = true →
      nlookup st2.keyByDom st.nextId = some (scopedKeyOf pc d))
    (h2tab : ∀ rc k,
      ¬(keyTruthy d.key = true ∧ rc = refCompOf pc d ∧ k = scopedKeyOf pc d) →
      keyedGet st2 rc k = keyedGet st rc k)
    (h2tabSelf : keyTruthy d.key = true →
      keyedGet st2 (refCompOf pc d) (scopedKeyOf pc d) = some st.nextId)
    (h2seq : st2.keySeqs = st.keySeqs)
    (h2detB : st2.detachedByDom = st.detachedByDom)
    (h2detN : st2.detachedNodes = st.detachedNodes)
    (h2dpSelf : domParent st2.dom st.nextId = some p)
    (h2dpOld : ∀ x q, x ≠ st.nextId → domParent st.dom x = some q →
      domParent st2.dom x = some q)
    (h2fresh : FreshOK st2)
    (hw : wfT (VTree.elem d cs) = true)
    (hseq : SeqFresh st.keySeqs (keyOccsList pc cs))
    (htab : TablesFresh st (keyOccsList pc cs))
    (hnd : (keyOccsOf pc (VTree.elem d cs)).Nodup)
    (hp : p < st.nextId)
    (hpex : ∃ pnd, st.getNode p = some pnd) :
    P1Concl st p pc (VTree.elem d cs)
      (morphChildrenM st2 st.nextId (VTree.elem d cs) pc) := by
  have hwl : wfL cs = true := (wfT_elem hw).2.2.2
  -- decomposition of the key-occurrence nodup hypothesis
  have hoccv : keyOccsOf pc (VTree.elem d cs)
      = (if keyTruthy d.key then [(refCompOf pc d, scopedKeyOf pc d)]
         else []) ++ keyOccsList pc cs := keyOccsOf_elem pc d cs
  have hndcs : (keyOccsList pc cs).Nodup := by
    rw [hoccv] at hnd
    exact (nodup_append_parts hnd).2.1
  have hocc0 : keyTruthy d.key = true →
      (refCompOf pc d, scopedKeyOf pc d) ∉ keyOccsList pc cs := by
    intro hkt
    rw [hoccv, hkt] at hnd
    exact (nodup_append_parts hnd).2.2 _ (by simp)
  -- hypotheses of the child induction at the container state
  have hseq2 : SeqFresh st2.keySeqs (keyOccsList pc cs) := by
    intro q hq
    rw [h2seq]
    exact hseq q hq
  have htab2 : TablesFresh st2 (keyOccsList pc cs) := by
    intro q hq
    rw [h2tab q.1 q.2 ?hne]
    · exact htab q hq
    case hne =>
      rintro ⟨hkt, hrc, hk⟩
      apply hocc0 hkt
      have : q = (refCompOf pc d, scopedKeyOf pc d) := by
        cases q
        simp_all
      rw [← this]
      exact hq
  have hp2 : st.nextId < st2.nextId := by omega
  have hpex2 : ∃ nd, st2.getNode st.nextId = some nd := ⟨_, h2gSelf⟩
  obtain ⟨hret, hL⟩ := ihL st2 st.nextId pc hwl h2fresh hp2 hpex2 hseq2
    htab2 hndcs
  have hfc : firstChildR st2 st.nextId = none := by
    show (st2.getNode st.nextId).bind (fun nd => nd.children.head?) = none
    rw [h2gSelf]
    rfl
  have hmc : morphChildrenM st2 st.nextId (VTree.elem d cs) pc
      = (outerLoop st2 st.nextId pc none none cs).1 := by
    rw [morphChildrenM]
    rw [hfc]
    show leftoverLoop
        ((outerLoop st2 st.nextId pc none none
            (vchildren (VTree.elem d cs))).1.dom.length + 1)
        (outerLoop st2 st.nextId pc none none
          (vchildren (VTree.elem d cs))).1
        st.nextId pc
        (outerLoop st2 st.nextId pc none none
          (vchildren (VTree.elem d cs))).2 = _
    rw [show vchildren (VTree.elem d cs) = cs from rfl]
    rw [hret]
    exact leftoverLoop_noneCur _ _ _ _
  rw [hmc]
  have hnid2 : st2.nextId = st.nextId + 1 := h2nid
  refine ⟨?_, ?_, ?_, ?_, ?_, ?_, ?_, ?_, ?_, ?_, ?_, ?_, ?_⟩
  · rw [hL.nid, hnid2, rsizeT]
    omega
  · intro n hn hnp
    rw [hL.gOld n (by omega) (by omega), h2gOld n hnp (by omega)]
  · intro pnd hpnd
    rw [hL.gOld p (by omega) (by omega), h2gPar pnd hpnd]
  · rw [Mirror]
    refine ⟨?_, ?_, ?_, ?_, ?_⟩
    · have hx := hL.gPar (realElemOf d []) h2gSelf
      rw [hnid2] at hx
      rw [hx]
      rw [show (realElemOf d []).children = ([] : List Nat) from rfl,
        List.nil_append]
      rfl
    · rw [hL.vbOld st.nextId (by omega), h2vb st.nextId]
      simp
    · intro hkt
      constructor
      · rw [hL.kbOld st.nextId (by omega)]
        exact h2kbSelf hkt
      · rw [hL.tabF (refCompOf pc d) (scopedKeyOf pc d) (hocc0 hkt)]
        exact h2tabSelf hkt
    · intro c hc
      have := hL.kidsPar c (by rw [hnid2]; exact hc)
      exact this
    · have := hL.mirC
      rw [hnid2] at this
      exact this
  · intro n hn
    rw [hL.vbOld n (by omega), h2vb n]
    rw [if_neg (by omega)]
  · intro n hn
    rw [hL.kbOld n (by omega), h2kb n (by omega)]
  · intro rc k hnot
    rw [hoccv] at hnot
    have hnot2 : (rc, k) ∉ keyOccsList pc cs :=
      fun h => hnot (List.mem_append.2 (Or.inr h))
    rw [hL.tabF rc k hnot2]
    apply h2tab
    rintro ⟨hkt, hrc, hk⟩
    apply hnot
    rw [hkt]
    exact List.mem_append.2 (Or.inl (by simp [hrc, hk]))
  · intro rc k hnot
    rw [hoccv] at hnot
    have hnot2 : (rc, k) ∉ keyOccsList pc cs :=
      fun h => hnot (List.mem_append.2 (Or.inr h))
    rw [hL.seqF rc k hnot2, h2seq]
  · rw [hL.detB, h2detB]
  · rw [hL.detN, h2detN]
  · exact hL.fresh
  · exact hL.dpOld st.nextId p (by omega) h2dpSelf
  · intro x q hx hq
    exact hL.dpOld x q (by omega) (h2dpOld x q (by omega) hq)

theorem nstore_char {α : Type} (m : List (Nat × α)) (b : Nat) (v : α)
    (n : Nat) :
    nlookup (nstore m b v) n = if n = b then some v else nlookup m n := by
  rw [nlookup_nstore]
  by_cases h : b = n
  · simp [h]
  · have h2 : ¬(n = b) := fun hh => h hh.symm
    simp [h, h2]

/-- Facts about appending one fresh childless node and inserting it at the
end of `p`'s child list. -/
theorem ibo_append_facts (st stA : MState) (nd0 : RNode) (p : Nat)
    (hA : stA.dom = st.dom ++ [(st.nextId, nd0)])
    (hnd0 : nd0.children = [])
    (hF : FreshOK st) (hp : p < st.nextId)
    (hpex : ∃ pnd, st.getNode p = some pnd) :
    ((insertBeforeOp stA st.nextId none p).getNode st.nextId = some nd0) ∧
    (∀ n, n ≠ p → n ≠ st.nextId →
      (insertBeforeOp stA st.nextId none p).getNode n = st.getNode n) ∧
    (∀ pnd, st.getNode p = some pnd →
      (insertBeforeOp stA st.nextId none p).getNode p
        = some { pnd with children := pnd.children ++ [st.nextId] }) ∧
    domParent (insertBeforeOp stA st.nextId none p).dom st.nextId = some p ∧
    (∀ x q, x ≠ st.nextId → domParent st.dom x = some q →
      domParent (insertBeforeOp stA st.nextId none p).dom x = some q) ∧
    (∀ m, st.nextId + 1 ≤ m →
      (insertBeforeOp stA st.nextId none p).getNode m = none) ∧
    (∀ m, st.nextId + 1 ≤ m →
      ∀ e ∈ (insertBeforeOp stA st.nextId none p).dom, m ∉ e.2.children) := by
  have hclean : ∀ e ∈ stA.dom, st.nextId ∉ e.2.children := by
    rw [hA]
    intro e he
    rcases List.mem_append.1 he with h | h
    · exact hF.2.2.2 st.nextId le_rfl e h
    · rw [List.mem_singleton] at h
      rw [h, hnd0]
      simp
  have hAget : ∀ n, nlookup stA.dom n
      = match nlookup st.dom n with
        | some v => some v
        | none => nlookup [(st.nextId, nd0)] n := by
    intro n
    rw [hA, nlookup_append]
    cases nlookup st.dom n <;> rfl
  have hselfA : stA.getNode st.nextId = some nd0 := by
    show nlookup stA.dom st.nextId = some nd0
    rw [hAget st.nextId,
      show nlookup st.dom st.nextId = none from hF.1 st.nextId le_rfl]
    simp [nlookup]
  have holdA : ∀ n, n ≠ st.nextId → stA.getNode n = st.getNode n := by
    intro n hn
    show nlookup stA.dom n = st.getNode n
    rw [hAget n]
    cases h : st.getNode n with
    | some v =>
      rw [show nlookup st.dom n = some v from h]
    | none =>
      rw [show nlookup st.dom n = none from h]
      have hne : ¬(st.nextId = n) := fun hh => hn hh.symm
      simp [nlookup, hne]
  refine ⟨?_, ?_, ?_, ?_, ?_, ?_, ?_⟩
  · rw [getNode_insertBeforeOp stA st.nextId none p hclean st.nextId,
      if_neg (by omega)]
    exact hselfA
  · intro n hnp hnb
    rw [getNode_insertBeforeOp stA st.nextId none p hclean n, if_neg hnp]
    exact holdA n hnb
  · intro pnd hpnd
    rw [getNode_insertBeforeOp stA st.nextId none p hclean p, if_pos rfl]
    rw [holdA p (by omega), hpnd]
    rfl
  · refine domParent_insertBeforeOp_self stA st.nextId none p hclean ?_
    obtain ⟨pnd, hpnd⟩ := hpex
    exact ⟨pnd, by rw [holdA p (by omega)]; exact hpnd⟩
  · intro x q hx hq
    rw [domParent_insertBeforeOp_other stA st.nextId none p hclean x hx]
    have : domParent stA.dom x = some q := by
      rw [hA, domParent_append, hq]
    exact this
  · intro m hm
    rw [getNode_insertBeforeOp stA st.nextId none p hclean m,
      if_neg (by omega)]
    rw [holdA m (by omega)]
    exact hF.1 m (by omega)
  · intro m hm
    refine children_insertBeforeOp stA st.nextId none p m (by omega) ?_
    rw [hA]
    intro e he
    rcases List.mem_append.1 he with h | h
    · exact hF.2.2.2 m (by omega) e h
    · rw [List.mem_singleton] at h
      rw [h, hnd0]
      simp

/-- The leaf instance of the insertion conclusion (text and comment
nodes). -/
theorem p1_leaf (st : MState) (p : Nat) (pc : String) (v : VTree)
    (nd0 : RNode) (hnd0 : nd0.children = [])
    (hF : FreshOK st) (hp : p < st.nextId)
    (hpex : ∃ pnd, st.getNode p = some pnd)
    (hmir0 : ∀ st2 : MState, st2.getNode st.nextId = some nd0 →
      Mirror st2 pc st.nextId v)
    (hsz : rsizeT v = 1)
    (hocc : keyOccsOf pc v = []) :
    P1Concl st p pc v
      (insertBeforeOp
        { st with dom := st.dom ++ [(st.nextId, nd0)], nextId := st.nextId + 1 }
        st.nextId none p) := by
  obtain ⟨hgSelf, hgOld, hgPar, hdpSelf, hdpOld, hfreshG, hfreshCh⟩ :=
    ibo_append_facts st
      { st with dom := st.dom ++ [(st.nextId, nd0)], nextId := st.nextId + 1 }
      nd0 p rfl hnd0 hF hp hpex
  refine ⟨?_, ?_, ?_, ?_, ?_, ?_, ?_, ?_, ?_, ?_, ?_, ?_, ?_⟩
  · show st.nextId + 1 = st.nextId + rsizeT v
    rw [hsz]
  · intro n hn hnp
    exact hgOld n hnp (by omega)
  · exact hgPar
  · exact hmir0 _ hgSelf
  · intro n hn; rfl
  · intro n hn; rfl
  · intro rc k hno; rfl
  · intro rc k hno; rfl
  · rfl
  · rfl
  · refine ⟨?_, ?_, ?_, ?_⟩
    · intro n hn
      exact hfreshG n hn
    · intro n hn
      have hn2 : st.nextId + 1 ≤ n := hn
      exact hF.2.1 n (by omega)
    · intro n hn
      have hn2 : st.nextId + 1 ≤ n := hn
      exact hF.2.2.1 n (by omega)
    · intro n hn
      exact hfreshCh n hn
  · exact hdpSelf
  · intro x q hx hq
    exact hdpOld x q (by omega) hq

/-- The unkeyed element instance: the insertion shell reduces to the
child loop over a container characterized by `ibo_append_facts`. -/
theorem p1_elem_unkeyed (d : VElemData) (cs : List VTree) (ihL : P1LstP cs)
    (st : MState) (p : Nat) (pc oc : String) (key : Option String)
    (hw : wfT (VTree.elem d cs) = true) (hF : FreshOK st)
    (hp : p < st.nextId) (hpex : ∃ pnd, st.getNode p = some pnd)
    (hseq : SeqFresh st.keySeqs (keyOccsList pc cs))
    (htab : TablesFresh st (keyOccsList pc cs))
    (hnd : (keyOccsOf pc (VTree.elem d cs)).Nodup)
    (hktF : keyTruthy d.key = false) (hkeyF : keyTruthy key = false) :
    P1Concl st p pc (VTree.elem d cs)
      (insertVirtualNodeBefore st (VTree.elem d cs) key none p oc pc) := by
  have hshell : insertVirtualNodeBefore st (VTree.elem d cs) key none p oc pc
      = morphChildrenM
          (insertBeforeOp
            { st with dom := st.dom ++ [(st.nextId, realElemOf d [])], nextId := st.nextId + 1, vByDom := nstore st.vByDom st.nextId (VTree.elem d cs) }
            st.nextId none p)
          st.nextId (VTree.elem d cs) pc := by
    rw [insertVirtualNodeBefore]
    simp only [hkeyF, reduceIte]
    rfl
  rw [hshell]
  obtain ⟨hgSelf, hgOld, hgPar, hdpSelf, hdpOld, hfreshG, hfreshCh⟩ :=
    ibo_append_facts st
      { st with dom := st.dom ++ [(st.nextId, realElemOf d [])], nextId := st.nextId + 1, vByDom := nstore st.vByDom st.nextId (VTree.elem d cs) }
      (realElemOf d []) p rfl rfl hF hp hpex
  refine p1_elem_assemble d cs ihL st _ p pc rfl hgSelf hgOld hgPar
    ?_ ?_ ?_ ?_ ?_ rfl rfl rfl hdpSelf hdpOld ?_ hw hseq htab hnd hp hpex
  · intro n
    show nlookup (nstore st.vByDom st.nextId (VTree.elem d cs)) n = _
    rw [nstore_char]
  · intro n hn; rfl
  · intro hkt
    exact absurd hkt (by rw [hktF]; simp)
  · intro rc k hne; rfl
  · intro hkt
    exact absurd hkt (by rw [hktF]; simp)
  · refine ⟨?_, ?_, ?_, ?_⟩
    · intro n hn
      exact hfreshG n hn
    · intro n hn
      have hn2 : st.nextId + 1 ≤ n := hn
      show nlookup (nstore st.vByDom st.nextId (VTree.elem d cs)) n = none
      rw [nstore_char, if_neg (by omega)]
      exact hF.2.1 n (by omega)
    · intro n hn
      have hn2 : st.nextId + 1 ≤ n := hn
      exact hF.2.2.1 n (by omega)
    · intro n hn
      exact hfreshCh n hn

/-- The keyed element instance: the shell additionally records the resolved
key in `keysByDOMNode` and the reference component's keyed-element table. -/
theorem p1_elem_keyed (d : VElemData) (cs : List VTree) (ihL : P1LstP cs)
    (st : MState) (p : Nat) (pc : String)
    (hw : wfT (VTree.elem d cs) = true) (hF : FreshOK st)
    (hp : p < st.nextId) (hpex : ∃ pnd, st.getNode p = some pnd)
    (hseq : SeqFresh st.keySeqs (keyOccsList pc cs))
    (htab : TablesFresh st (keyOccsList pc cs))
    (hnd : (keyOccsOf pc (VTree.elem d cs)).Nodup)
    (hkt : keyTruthy d.key = true) :
    P1Concl st p pc (VTree.elem d cs)
      (insertVirtualNodeBefore st (VTree.elem d cs)
        (some (scopedKeyOf pc d)) none p (ownerOfD pc d) pc) := by
  have hkk : keyTruthy (some (scopedKeyOf pc d)) = true :=
    keyTruthy_scopedKey pc d hkt
  have hak : isAutoKey (scopedKeyOf pc d) = isAutoKey (d.key.getD "") :=
    isAutoKey_scopedKey pc d hkt
  have hshell : insertVirtualNodeBefore st (VTree.elem d cs)
        (some (scopedKeyOf pc d)) none p (ownerOfD pc d) pc
      = morphChildrenM
          (keyedSetSt
            { (insertBeforeOp { st with dom := st.dom ++ [(st.nextId, realElemOf d [])], nextId := st.nextId + 1, vByDom := nstore st.vByDom st.nextId (VTree.elem d cs) } st.nextId none p) with keyByDom := nstore st.keyByDom st.nextId (scopedKeyOf pc d) }
            (refCompOf pc d) (scopedKeyOf pc d) st.nextId)
          st.nextId (VTree.elem d cs) pc := by
    rw [insertVirtualNodeBefore]
    simp only [hkk, reduceIte, Option.getD_some, hak]
    rfl
  rw [hshell]
  obtain ⟨hgSelf, hgOld, hgPar, hdpSelf, hdpOld, hfreshG, hfreshCh⟩ :=
    ibo_append_facts st
      { st with dom := st.dom ++ [(st.nextId, realElemOf d [])], nextId := st.nextId + 1, vByDom := nstore st.vByDom st.nextId (VTree.elem d cs) }
      (realElemOf d []) p rfl rfl hF hp hpex
  refine p1_elem_assemble d cs ihL st _ p pc rfl hgSelf hgOld hgPar
    ?_ ?_ ?_ ?_ ?_ rfl rfl rfl hdpSelf hdpOld ?_ hw hseq htab hnd hp hpex
  · intro n
    show nlookup (nstore st.vByDom st.nextId (VTree.elem d cs)) n = _
    rw [nstore_char]
  · intro n hn
    show nlookup (nstore st.keyByDom st.nextId (scopedKeyOf pc d)) n
      = nlookup st.keyByDom n
    rw [nstore_char, if_neg hn]
  · intro _
    show nlookup (nstore st.keyByDom st.nextId (scopedKeyOf pc d)) st.nextId
      = some (scopedKeyOf pc d)
    rw [nstore_char, if_pos rfl]
  · intro rc k hne
    rw [keyedGet_keyedSetSt]
    rw [if_neg (fun hh => hne ⟨hkt, hh.1.symm, hh.2.symm⟩)]
    rfl
  · intro _
    rw [keyedGet_keyedSetSt, if_pos ⟨rfl, rfl⟩]
  · refine ⟨?_, ?_, ?_, ?_⟩
    · intro n hn
      exact hfreshG n hn
    · intro n hn
      have hn2 : st.nextId + 1 ≤ n := hn
      show nlookup (nstore st.vByDom st.nextId (VTree.elem d cs)) n = none
      rw [nstore_char, if_neg (by omega)]
      exact hF.2.1 n (by omega)
    · intro n hn
      have hn2 : st.nextId + 1 ≤ n := hn
      show nlookup (nstore st.keyByDom st.nextId (scopedKeyOf pc d)) n = none
      rw [nstore_char, if_neg (by omega)]
      exact hF.2.2.1 n (by omega)
    · intro n hn
      exact hfreshCh n hn

/-- Composing the head insertion with the tail-loop conclusion; the head
may start from a state `stX` differing from `st` in its key sequences
only. -/
theorem p1_cons_compose (st stX IV OL2 : MState) (p : Nat) (pc : String)
    (v : VTree) (rest : List VTree)
    (hXdom : stX.dom = st.dom)
    (hXvb : stX.vByDom = st.vByDom)
    (hXkb : stX.keyByDom = st.keyByDom)
    (hXcomps : stX.comps = st.comps)
    (hXdetB : stX.detachedByDom = st.detachedByDom)
    (hXdetN : stX.detachedNodes = st.detachedNodes)
    (hXnid : stX.nextId = st.nextId)
    (hXseq : ∀ rc k, (rc, k) ∉ keyOccsOf pc v →
      KeySequence.stored (getKeySeq stX.keySeqs rc) k
        = KeySequence.stored (getKeySeq st.keySeqs rc) k)
    (hp : p < st.nextId)
    (hdisj : ∀ q ∈ keyOccsOf pc v, q ∉ keyOccsList pc rest)
    (concl : P1Concl stX p pc v IV)
    (hL2 : P1LConcl IV p pc rest OL2) :
    P1LConcl st p pc (v :: rest) OL2 := by
  have hXg : ∀ n, stX.getNode n = st.getNode n := by
    intro n
    show nlookup stX.dom n = nlookup st.dom n
    rw [hXdom]
  have hXtab : ∀ rc k, keyedGet stX rc k = keyedGet st rc k := by
    intro rc k
    unfold keyedGet
    rw [hXcomps]
  have hIVn : IV.nextId = st.nextId + rsizeT v := by
    rw [concl.nid, hXnid]
  have hrsz : 0 < rsizeT v := rsizeT_pos v
  have hocc : keyOccsList pc (v :: rest)
      = keyOccsOf pc v ++ keyOccsList pc rest := by
    rw [keyOccsList]
  have hids : idsOfChildren st.nextId (v :: rest)
      = st.nextId :: idsOfChildren (st.nextId + rsizeT v) rest := by
    rw [idsOfChildren]
  refine ⟨?_, ?_, ?_, ?_, ?_, ?_, ?_, ?_, ?_, ?_, ?_, ?_, ?_⟩
  · rw [hL2.nid, hIVn, rsizeL]
    omega
  · intro n hn hnp
    rw [hL2.gOld n (by omega) hnp, concl.gOld n (by omega) hnp, hXg n]
  · intro pnd hpnd
    have h1 := concl.gPar pnd (by rw [hXg p]; exact hpnd)
    rw [hXnid] at h1
    have h2 := hL2.gPar _ h1
    rw [hIVn] at h2
    rw [hids]
    rw [show ({ pnd with children := pnd.children ++ [st.nextId] }
        : RNode).children = pnd.children ++ [st.nextId] from rfl] at h2
    rw [List.append_assoc, List.singleton_append] at h2
    exact h2
  · rw [MirrorChildren]
    constructor
    · have hm := concl.mir
      rw [hXnid] at hm
      refine mirrorFrameT v IV OL2 pc st.nextId hm ?_ ?_ ?_ ?_ ?_
      · intro m h1 h2
        exact hL2.gOld m (by omega) (by omega)
      · intro m h1 h2
        exact hL2.vbOld m (by omega)
      · intro m h1 h2
        exact hL2.kbOld m (by omega)
      · intro rc k hmem
        exact hL2.tabF rc k (hdisj (rc, k) hmem)
      · intro c q h1 h2 hq
        exact hL2.dpOld c q (by omega) hq
    · have hm := hL2.mirC
      rw [hIVn] at hm
      exact hm
  · intro n hn
    rw [hL2.vbOld n (by omega), concl.vbOld n (by omega), hXvb]
  · intro n hn
    rw [hL2.kbOld n (by omega), concl.kbOld n (by omega), hXkb]
  · intro rc k hnot
    rw [hocc] at hnot
    have hnv : (rc, k) ∉ keyOccsOf pc v :=
      fun h => hnot (List.mem_append.2 (Or.inl h))
    have hnr : (rc, k) ∉ keyOccsList pc rest :=
      fun h => hnot (List.mem_append.2 (Or.inr h))
    rw [hL2.tabF rc k hnr, concl.tabF rc k hnv, hXtab rc k]
  · intro rc k hnot
    rw [hocc] at hnot
    have hnv : (rc, k) ∉ keyOccsOf pc v :=
      fun h => hnot (List.mem_append.2 (Or.inl h))
    have hnr : (rc, k) ∉ keyOccsList pc rest :=
      fun h => hnot (List.mem_append.2 (Or.inr h))
    rw [hL2.seqF rc k hnr, concl.seqF rc k hnv, hXseq rc k hnv]
  · rw [hL2.detB, concl.detB, hXdetB]
  · rw [hL2.detN, concl.detN, hXdetN]
  · exact hL2.fresh
  · intro c hc
    rw [hids] at hc
    rcases List.mem_cons.1 hc with h | h
    · rw [h]
      refine hL2.dpOld st.nextId p (by omega) ?_
      have hr := concl.rootPar
      rw [hXnid] at hr
      exact hr
    · refine hL2.kidsPar c ?_
      rw [hIVn]
      exact h
  · intro x q hx hq
    refine hL2.dpOld x q (by omega) ?_
    refine concl.dpOld x q (by omega) ?_
    rw [hXdom]
    exact hq

theorem p1_all : ∀ n, (∀ v, vsize v ≤ n → P1InsP v)
    ∧ (∀ cs, vsizeList cs ≤ n → P1LstP cs) := by
  intro n
  induction n using Nat.strong_induction_on with
  | _ n ih =>
    constructor
    · intro v hv st p pc oc key hw hF hp hpex hseq htab hnd hoc hkey
      cases v with
      | text s =>
        have hmain : insertVirtualNodeBefore st (VTree.text s) key none p
              oc pc
            = insertBeforeOp { st with dom := st.dom ++ [(st.nextId, newRNode RKind.textNode "" [] s "" false false false)], nextId := st.nextId + 1 } st.nextId none p := by
          rw [insertVirtualNodeBefore]
          rfl
        rw [hmain]
        refine p1_leaf st p pc (VTree.text s) _ rfl hF hp hpex ?_ rfl rfl
        intro st2 h
        rw [Mirror]
        exact h
      | comment s =>
        have hmain : insertVirtualNodeBefore st (VTree.comment s) key none p
              oc pc
            = insertBeforeOp { st with dom := st.dom ++ [(st.nextId, newRNode RKind.commentNode "" [] s "" false false false)], nextId := st.nextId + 1 } st.nextId none p := by
          rw [insertVirtualNodeBefore]
          rfl
        rw [hmain]
        refine p1_leaf st p pc (VTree.comment s) _ rfl hF hp hpex ?_ rfl rfl
        intro st2 h
        rw [Mirror]
        exact h
      | elem d cs =>
        have hszcs : vsizeList cs < n := by
          have h1 : vsize (VTree.elem d cs) = 1 + vsizeList cs := by
            rw [vsize]
          omega
        have ihL : P1LstP cs := (ih (vsizeList cs) hszcs).2 cs le_rfl
        have hvd : velData (VTree.elem d cs) = d := rfl
        have hkv : vKeyOf (VTree.elem d cs) = d.key := rfl
        rw [hvd] at hoc
        rw [hvd, hkv] at hkey
        by_cases hkt : keyTruthy d.key = true
        · rw [hkey]
          simp only [hkt, reduceIte]
          rw [hoc]
          exact p1_elem_keyed d cs ihL st p pc hw hF hp hpex hseq htab hnd
            hkt
        · have hktF : keyTruthy d.key = false := by
            cases h : keyTruthy d.key
            · rfl
            · exact absurd h hkt
          rw [hkey]
          simp only [hktF, reduceIte]
          rw [hoc]
          exact p1_elem_unkeyed d cs ihL st p pc (ownerOfD pc d) d.key hw hF
            hp hpex hseq htab hnd hktF hktF
    · intro cs hcs st p pc hw hF hp hpex hseq htab hnd
      cases cs with
      | nil =>
        have hOL : outerLoop st p pc none none ([] : List VTree)
            = (st, none) := by
          rw [outerLoop]
        refine ⟨by rw [hOL], ?_⟩
        rw [hOL]
        refine ⟨?_, ?_, ?_, ?_, ?_, ?_, ?_, ?_, ?_, ?_, ?_, ?_, ?_⟩
        · rw [rsizeL]
          rfl
        · intro m _ _; rfl
        · intro pnd hpnd
          rw [idsOfChildren, List.append_nil]
          exact hpnd
        · rw [MirrorChildren]
          trivial
        · intro m _; rfl
        · intro m _; rfl
        · intro rc k _; rfl
        · intro rc k _; rfl
        · rfl
        · rfl
        · exact hF
        · intro c hc
          rw [idsOfChildren] at hc
          exact absurd hc (List.not_mem_nil c)
        · intro x q _ hq
          exact hq
      | cons v rest =>
        have hszv : vsize v < n ∧ vsizeList rest < n := by
          have h1 : vsizeList (v :: rest) = 1 + vsize v + vsizeList rest := by
            rw [vsizeList]
          omega
        have ihV : P1InsP v := (ih (vsize v) hszv.1).1 v le_rfl
        have ihR : P1LstP rest := (ih (vsizeList rest) hszv.2).2 rest le_rfl
        obtain ⟨hwv, hwr⟩ := wfL_cons hw
        have hoccs : keyOccsList pc (v :: rest)
            = keyOccsOf pc v ++ keyOccsList pc rest := by
          rw [keyOccsList]
        have hndparts := nodup_append_parts (show (keyOccsOf pc v
            ++ keyOccsList pc rest).Nodup from by rw [← hoccs]; exact hnd)
        by_cases hkt : keyTruthy (vKeyOf v) = true
        · cases v with
          | text s2 =>
            exact absurd hkt (by
              rw [show vKeyOf (VTree.text s2) = none from rfl]
              simp [keyTruthy])
          | comment s2 =>
            exact absurd hkt (by
              rw [show vKeyOf (VTree.comment s2) = none from rfl]
              simp [keyTruthy])
          | elem d cs2 =>
            have hkt2 : keyTruthy d.key = true := hkt
            have hoccv2 : keyOccsOf pc (VTree.elem d cs2)
                = (refCompOf pc d, scopedKeyOf pc d)
                  :: keyOccsList pc cs2 := by
              rw [keyOccsOf_elem]
              simp [hkt2]
            have hnd0 : (refCompOf pc d, scopedKeyOf pc d)
                ∉ keyOccsList pc cs2 := by
              have h1 := hndparts.1
              rw [hoccv2] at h1
              exact (List.nodup_cons.1 h1).1
            have hocc0mem : (refCompOf pc d, scopedKeyOf pc d)
                ∈ keyOccsList pc (VTree.elem d cs2 :: rest) := by
              rw [hoccs]
              refine List.mem_append.2 (Or.inl ?_)
              rw [hoccv2]
              exact List.mem_cons_self _ _
            have hstored0 : KeySequence.stored
                (getKeySeq st.keySeqs (refCompOf pc d))
                (scopedKeyOf pc d) = 0 := hseq _ hocc0mem
            have htab0 : keyedGet st (refCompOf pc d) (scopedKeyOf pc d)
                = none := htab _ hocc0mem
            have hres : ((getKeySeq st.keySeqs
                  (refCompOf pc d)).nextKey (scopedKeyOf pc d)).1
                = scopedKeyOf pc d := by
              rw [nextKey_fst, if_pos hstored0]
            have hgA : keyedGet { st with keySeqs := astore st.keySeqs (refCompOf pc d) ((getKeySeq st.keySeqs (refCompOf pc d)).nextKey (scopedKeyOf pc d)).2 } (refCompOf pc d) (((getKeySeq st.keySeqs (refCompOf pc d)).nextKey (scopedKeyOf pc d)).1) = none := by
              rw [hres]
              exact htab0
            have hks : keyedStep st p pc
                  ((vOwnerOf (VTree.elem d cs2)).getD pc) none none
                  (VTree.elem d cs2) rest.head?
                = (insertVirtualNodeBefore { st with keySeqs := astore st.keySeqs (refCompOf pc d) ((getKeySeq st.keySeqs (refCompOf pc d)).nextKey (scopedKeyOf pc d)).2 } (VTree.elem d cs2) (some (scopedKeyOf pc d)) none p (ownerOfD pc d) pc, none) := by
              rw [keyedStep]
              show keyedMatchStep { st with keySeqs := astore st.keySeqs (refCompOf pc d) ((getKeySeq st.keySeqs (refCompOf pc d)).nextKey (scopedKeyOf pc d)).2 } p pc (ownerOfD pc d) none none (refCompOf pc d) (((getKeySeq st.keySeqs (refCompOf pc d)).nextKey (scopedKeyOf pc d)).1) none (VTree.elem d cs2) rest.head? = _
              rw [keyedMatchStep]
              rw [hgA, hres]
            have hstep : outerLoop st p pc none none
                  (VTree.elem d cs2 :: rest)
                = outerLoop (insertVirtualNodeBefore { st with keySeqs := astore st.keySeqs (refCompOf pc d) ((getKeySeq st.keySeqs (refCompOf pc d)).nextKey (scopedKeyOf pc d)).2 } (VTree.elem d cs2) (some (scopedKeyOf pc d)) none p (ownerOfD pc d) pc) p pc none none rest := by
              rw [outerLoop]
              simp only [hkt, reduceIte]
              rw [hks]
            have hFA : FreshOK { st with keySeqs := astore st.keySeqs (refCompOf pc d) ((getKeySeq st.keySeqs (refCompOf pc d)).nextKey (scopedKeyOf pc d)).2 } := hF
            have hseqA : SeqFresh ({ st with keySeqs := astore st.keySeqs (refCompOf pc d) ((getKeySeq st.keySeqs (refCompOf pc d)).nextKey (scopedKeyOf pc d)).2 } : MState).keySeqs (keyOccsList pc (vchildren (VTree.elem d cs2))) := by
              intro q hq
              have hq2 : q ∈ keyOccsList pc cs2 := hq
              have hsc := stored_consume st.keySeqs (refCompOf pc d)
                (scopedKeyOf pc d) q.1 q.2
              rw [if_neg ?hneq, Nat.add_zero] at hsc
              case hneq =>
                rintro ⟨h1, h2⟩
                apply hnd0
                have hq0 : (refCompOf pc d, scopedKeyOf pc d) = q := by
                  rw [h1, h2]
                rw [hq0]
                exact hq2
              exact hsc.trans (hseq q (by
                rw [hoccs]
                refine List.mem_append.2 (Or.inl ?_)
                rw [hoccv2]
                exact List.mem_cons.2 (Or.inr hq2)))
            have htabA : TablesFresh { st with keySeqs := astore st.keySeqs (refCompOf pc d) ((getKeySeq st.keySeqs (refCompOf pc d)).nextKey (scopedKeyOf pc d)).2 } (keyOccsList pc (vchildren (VTree.elem d cs2))) := by
              intro q hq
              have hq2 : q ∈ keyOccsList pc cs2 := hq
              exact htab q (by
                rw [hoccs]
                refine List.mem_append.2 (Or.inl ?_)
                rw [hoccv2]
                exact List.mem_cons.2 (Or.inr hq2))
            have hconcl := ihV { st with keySeqs := astore st.keySeqs (refCompOf pc d) ((getKeySeq st.keySeqs (refCompOf pc d)).nextKey (scopedKeyOf pc d)).2 } p pc (ownerOfD pc d) (some (scopedKeyOf pc d)) hwv hFA hp hpex hseqA htabA hndparts.1 rfl (by rw [hkt]; rfl)
            have hIV2n : (insertVirtualNodeBefore { st with keySeqs := astore st.keySeqs (refCompOf pc d) ((getKeySeq st.keySeqs (refCompOf pc d)).nextKey (scopedKeyOf pc d)).2 } (VTree.elem d cs2) (some (scopedKeyOf pc d)) none p (ownerOfD pc d) pc).nextId = st.nextId + rsizeT (VTree.elem d cs2) := hconcl.nid
            have hrsz2 := rsizeT_pos (VTree.elem d cs2)
            have hpex2 : ∃ pnd2, (insertVirtualNodeBefore { st with keySeqs := astore st.keySeqs (refCompOf pc d) ((getKeySeq st.keySeqs (refCompOf pc d)).nextKey (scopedKeyOf pc d)).2 } (VTree.elem d cs2) (some (scopedKeyOf pc d)) none p (ownerOfD pc d) pc).getNode p = some pnd2 := by
              obtain ⟨pnd, hpnd⟩ := hpex
              exact ⟨_, hconcl.gPar pnd hpnd⟩
            have hseq2 : SeqFresh (insertVirtualNodeBefore { st with keySeqs := astore st.keySeqs (refCompOf pc d) ((getKeySeq st.keySeqs (refCompOf pc d)).nextKey (scopedKeyOf pc d)).2 } (VTree.elem d cs2) (some (scopedKeyOf pc d)) none p (ownerOfD pc d) pc).keySeqs (keyOccsList pc rest) := by
              intro q hq
              have hnotv : q ∉ keyOccsOf pc (VTree.elem d cs2) :=
                fun hmem => hndparts.2.2 q hmem hq
              have hs := hconcl.seqF q.1 q.2 hnotv
              have hsc := stored_consume st.keySeqs (refCompOf pc d)
                (scopedKeyOf pc d) q.1 q.2
              rw [if_neg ?hneq2, Nat.add_zero] at hsc
              case hneq2 =>
                rintro ⟨h1, h2⟩
                apply hnotv
                have hq0 : (refCompOf pc d, scopedKeyOf pc d) = q := by
                  rw [h1, h2]
                rw [← hq0, hoccv2]
                exact List.mem_cons_self _ _
              exact (hs.trans hsc).trans (hseq q (by
                rw [hoccs]
                exact List.mem_append.2 (Or.inr hq)))
            have htab2 : TablesFresh (insertVirtualNodeBefore { st with keySeqs := astore st.keySeqs (refCompOf pc d) ((getKeySeq st.keySeqs (refCompOf pc d)).nextKey (scopedKeyOf pc d)).2 } (VTree.elem d cs2) (some (scopedKeyOf pc d)) none p (ownerOfD pc d) pc) (keyOccsList pc rest) := by
              intro q hq
              have hnotv : q ∉ keyOccsOf pc (VTree.elem d cs2) :=
                fun hmem => hndparts.2.2 q hmem hq
              have hs := hconcl.tabF q.1 q.2 hnotv
              refine hs.trans ?_
              exact htab q (by
                rw [hoccs]
                exact List.mem_append.2 (Or.inr hq))
            obtain ⟨hret2, hL2⟩ := ihR (insertVirtualNodeBefore { st with keySeqs := astore st.keySeqs (refCompOf pc d) ((getKeySeq st.keySeqs (refCompOf pc d)).nextKey (scopedKeyOf pc d)).2 } (VTree.elem d cs2) (some (scopedKeyOf pc d)) none p (ownerOfD pc d) pc) p pc hwr hconcl.fresh (by omega) hpex2 hseq2 htab2 hndparts.2.1
            refine ⟨?_, ?_⟩
            · rw [hstep]
              exact hret2
            · rw [hstep]
              refine p1_cons_compose st { st with keySeqs := astore st.keySeqs (refCompOf pc d) ((getKeySeq st.keySeqs (refCompOf pc d)).nextKey (scopedKeyOf pc d)).2 } _ _ p pc (VTree.elem d cs2) rest rfl rfl rfl rfl rfl rfl rfl ?_ hp hndparts.2.2 hconcl hL2
              intro rc k hnotv
              have hsc := stored_consume st.keySeqs (refCompOf pc d)
                (scopedKeyOf pc d) rc k
              rw [if_neg ?hneq3, Nat.add_zero] at hsc
              case hneq3 =>
                rintro ⟨h1, h2⟩
                apply hnotv
                rw [← h1, ← h2, hoccv2]
                exact List.mem_cons_self _ _
              exact hsc
        · have hktF : keyTruthy (vKeyOf v) = false := by
            cases h : keyTruthy (vKeyOf v)
            · rfl
            · exact absurd h hkt
          have hstep : outerLoop st p pc none none (v :: rest)
              = outerLoop (insertVirtualNodeBefore st v (vKeyOf v) none p
                  ((vOwnerOf v).getD pc) pc) p pc none none rest := by
            rw [outerLoop]
            simp only [hktF, reduceIte]
            rw [scanLoop_noneCur]
            rfl
          have hseqV : SeqFresh st.keySeqs
              (keyOccsList pc (vchildren v)) := by
            intro q hq
            exact hseq q (by
              rw [hoccs]
              exact List.mem_append.2 (Or.inl (occsList_sub_occsOf pc v q hq)))
          have htabV : TablesFresh st (keyOccsList pc (vchildren v)) := by
            intro q hq
            exact htab q (by
              rw [hoccs]
              exact List.mem_append.2 (Or.inl (occsList_sub_occsOf pc v q hq)))
          have hconcl := ihV st p pc ((vOwnerOf v).getD pc) (vKeyOf v) hwv hF
            hp hpex hseqV htabV hndparts.1 (ownerOf_getD v pc)
            (by rw [hktF]; rfl)
          have hIV2n : (insertVirtualNodeBefore st v (vKeyOf v) none p
              ((vOwnerOf v).getD pc) pc).nextId
              = st.nextId + rsizeT v := hconcl.nid
          have hrsz2 := rsizeT_pos v
          have hpex2 : ∃ pnd2, (insertVirtualNodeBefore st v (vKeyOf v) none
              p ((vOwnerOf v).getD pc) pc).getNode p = some pnd2 := by
            obtain ⟨pnd, hpnd⟩ := hpex
            exact ⟨_, hconcl.gPar pnd hpnd⟩
          have hseq2 : SeqFresh (insertVirtualNodeBefore st v (vKeyOf v)
              none p ((vOwnerOf v).getD pc) pc).keySeqs
              (keyOccsList pc rest) := by
            intro q hq
            have hnotv : q ∉ keyOccsOf pc v :=
              fun hmem => hndparts.2.2 q hmem hq
            have hs := hconcl.seqF q.1 q.2 hnotv
            exact hs.trans (hseq q (by
              rw [hoccs]
              exact List.mem_append.2 (Or.inr hq)))
          have htab2 : TablesFresh (insertVirtualNodeBefore st v (vKeyOf v)
              none p ((vOwnerOf v).getD pc) pc) (keyOccsList pc rest) := by
            intro q hq
            have hnotv : q ∉ keyOccsOf pc v :=
              fun hmem => hndparts.2.2 q hmem hq
            have hs := hconcl.tabF q.1 q.2 hnotv
            exact hs.trans (htab q (by
              rw [hoccs]
              exact List.mem_append.2 (Or.inr hq)))
          obtain ⟨hret2, hL2⟩ := ihR (insertVirtualNodeBefore st v (vKeyOf v)
            none p ((vOwnerOf v).getD pc) pc) p pc hwr hconcl.fresh
            (by omega) hpex2 hseq2 htab2 hndparts.2.1
          refine ⟨?_, ?_⟩
          · rw [hstep]
            exact hret2
          · rw [hstep]
            exact p1_cons_compose st st _ _ p pc v rest rfl rfl rfl rfl rfl
              rfl rfl (fun rc k _ => rfl) hp hndparts.2.2 hconcl hL2

theorem p1Ins (v : VTree) : P1InsP v := (p1_all (vsize v)).1 v le_rfl

theorem p1Lst (cs : List VTree) : P1LstP cs :=
  (p1_all (vsizeList cs)).2 cs le_rfl

/-!
## The re-render pass

Running the child loop of a second pass over a real tree that mirrors a
value-identical virtual tree performs no logged mutation; the state may
change only in unlogged element properties (the `select` handler's
`selectedIndex` write), in the re-pointed `vElementByDOMNode` entries of
the processed interval, and in the consumed key sequences.  `P2Frame`
records that frame.
-/

/-- Entry-wise structural agreement of two DOM stores: ids, kinds, tags,
attributes, node values and child lists agree; the unlogged element
properties are free. -/
def RApproxE (e e2 : Nat × RNode) : Prop :=
  e2.1 = e.1 ∧ e2.2.kind = e.2.kind ∧ e2.2.tag = e.2.tag
    ∧ e2.2.attrs = e.2.attrs ∧ e2.2.nodeValue = e.2.nodeValue
    ∧ e2.2.children = e.2.children

theorem rapprox_refl (l : List (Nat × RNode)) : List.Forall₂ RApproxE l l := by
  induction l with
  | nil => exact List.Forall₂.nil
  | cons e rest ih =>
    exact List.Forall₂.cons ⟨rfl, rfl, rfl, rfl, rfl, rfl⟩ ih

theorem rapprox_trans {l1 l2 l3 : List (Nat × RNode)}
    (h1 : List.Forall₂ RApproxE l1 l2) (h2 : List.Forall₂ RApproxE l2 l3) :
    List.Forall₂ RApproxE l1 l3 := by
  induction h1 generalizing l3 with
  | nil =>
    cases h2
    exact List.Forall₂.nil
  | cons ha hrest ih =>
    cases h2 with
    | cons hb hrest2 =>
      refine List.Forall₂.cons ?_ (ih hrest2)
      obtain ⟨b1, b2, b3, b4, b5, b6⟩ := ha
      obtain ⟨c1, c2, c3, c4, c5, c6⟩ := hb
      exact ⟨c1.trans b1, c2.trans b2, c3.trans b3, c4.trans b4,
        c5.trans b5, c6.trans b6⟩

theorem domParent_rapprox {l1 l2 : List (Nat × RNode)}
    (h : List.Forall₂ RApproxE l1 l2) (x : Nat) :
    domParent l2 x = domParent l1 x := by
  induction h with
  | nil => rfl
  | cons ha hrest ih =>
    obtain ⟨b1, _, _, _, _, b6⟩ := ha
    rw [domParent, domParent, b1, b6, ih]

/-- The pass-two frame: the log, ids, key tables, component tables and
detach queues are untouched; the store keeps its structure everywhere and
its exact records outside the processed interval; the `vElementByDOMNode`
table is exact outside the interval; key sequences move only on the
processed occurrences. -/
structure P2Frame (st : MState) (r sz : Nat)
    (occs : List (String × String)) (st2 : MState) : Prop where
  log2 : st2.log = st.log
  nid2 : st2.nextId = st.nextId
  kb2 : st2.keyByDom = st.keyByDom
  comps2 : st2.comps = st.comps
  detB2 : st2.detachedByDom = st.detachedByDom
  detN2 : st2.detachedNodes = st.detachedNodes
  vbF : ∀ n, n < r ∨ r + sz ≤ n →
    nlookup st2.vByDom n = nlookup st.vByDom n
  gF : ∀ n, n < r ∨ r + sz ≤ n → st2.getNode n = st.getNode n
  gApprox : List.Forall₂ RApproxE st.dom st2.dom
  seqF2 : ∀ rc k, (rc, k) ∉ occs →
    KeySequence.stored (getKeySeq st2.keySeqs rc) k
      = KeySequence.stored (getKeySeq st.keySeqs rc) k

theorem p2frame_refl (st : MState) (r sz : Nat)
    (occs : List (String × String)) : P2Frame st r sz occs st :=
  ⟨rfl, rfl, rfl, rfl, rfl, rfl, fun _ _ => rfl, fun _ _ => rfl,
    rapprox_refl st.dom, fun _ _ _ => rfl⟩

theorem p2frame_trans {st st1 st2 : MState} {r sz : Nat}
    {occs : List (String × String)}
    (h1 : P2Frame st r sz occs st1) (h2 : P2Frame st1 r sz occs st2) :
    P2Frame st r sz occs st2 := by
  refine ⟨h2.log2.trans h1.log2, h2.nid2.trans h1.nid2,
    h2.kb2.trans h1.kb2, h2.comps2.trans h1.comps2,
    h2.detB2.trans h1.detB2, h2.detN2.trans h1.detN2, ?_, ?_,
    rapprox_trans h1.gApprox h2.gApprox, ?_⟩
  · intro n hn
    rw [h2.vbF n hn, h1.vbF n hn]
  · intro n hn
    rw [h2.gF n hn, h1.gF n hn]
  · intro rc k hno
    rw [h2.seqF2 rc k hno, h1.seqF2 rc k hno]

theorem p2frame_weaken {st st2 : MState} {r1 sz1 : Nat}
    {occs1 : List (String × String)}
    (h : P2Frame st r1 sz1 occs1 st2) (r sz : Nat)
    (occs : List (String × String))
    (hr : r ≤ r1) (hsz : r1 + sz1 ≤ r + sz)
    (hoc : ∀ q, q ∉ occs → q ∉ occs1) :
    P2Frame st r sz occs st2 := by
  refine ⟨h.log2, h.nid2, h.kb2, h.comps2, h.detB2, h.detN2, ?_, ?_,
    h.gApprox, ?_⟩
  · intro n hn
    refine h.vbF n ?_
    rcases hn with hn | hn
    · exact Or.inl (by omega)
    · exact Or.inr (by omega)
  · intro n hn
    refine h.gF n ?_
    rcases hn with hn | hn
    · exact Or.inl (by omega)
    · exact Or.inr (by omega)
  · intro rc k hno
    exact h.seqF2 rc k (hoc (rc, k) hno)

theorem keyedGet_congr {st st2 : MState} (hc : st2.comps = st.comps)
    (rc k : String) : keyedGet st2 rc k = keyedGet st rc k := by
  unfold keyedGet
  rw [hc]

/-- `Mirror` transfer along equal projections. -/
theorem mirror_of_eq {st st2 : MState} {pc : String} {r : Nat} {v : VTree}
    (hm : Mirror st pc r v)
    (hdom : st2.dom = st.dom) (hvb : st2.vByDom = st.vByDom)
    (hkb : st2.keyByDom = st.keyByDom) (hcomps : st2.comps = st.comps) :
    Mirror st2 pc r v := by
  refine mirrorFrameT v st st2 pc r hm ?_ ?_ ?_ ?_ ?_
  · intro n _ _
    show nlookup st2.dom n = nlookup st.dom n
    rw [hdom]
  · intro n _ _
    rw [hvb]
  · intro n _ _
    rw [hkb]
  · intro rc k _
    exact keyedGet_congr hcomps rc k
  · intro c q _ _ hq
    rw [hdom]
    exact hq

/-- `MirrorChildren` transfer along equal projections. -/
theorem mirrorChildren_of_eq {st st2 : MState} {pc : String} {b : Nat}
    {cs : List VTree} (hm : MirrorChildren st pc b cs)
    (hdom : st2.dom = st.dom) (hvb : st2.vByDom = st.vByDom)
    (hkb : st2.keyByDom = st.keyByDom) (hcomps : st2.comps = st.comps) :
    MirrorChildren st2 pc b cs := by
  refine mirrorFrameL cs st st2 pc b hm ?_ ?_ ?_ ?_ ?_
  · intro n _ _
    show nlookup st2.dom n = nlookup st.dom n
    rw [hdom]
  · intro n _ _
    rw [hvb]
  · intro n _ _
    rw [hkb]
  · intro rc k _
    exact keyedGet_congr hcomps rc k
  · intro c q _ _ hq
    rw [hdom]
    exact hq

/-- `Mirror` transfer across a `P2Frame` whose interval lies strictly to
the left of the subtree. -/
theorem mirror_p2frame {st st2 : MState} {pc : String} {r : Nat} {v : VTree}
    {r0 sz0 : Nat} {occs : List (String × String)}
    (hm : Mirror st pc r v) (hf : P2Frame st r0 sz0 occs st2)
    (hint : r0 + sz0 ≤ r) :
    Mirror st2 pc r v := by
  refine mirrorFrameT v st st2 pc r hm ?_ ?_ ?_ ?_ ?_
  · intro n h1 _
    exact hf.gF n (Or.inr (by omega))
  · intro n h1 _
    exact hf.vbF n (Or.inr (by omega))
  · intro n _ _
    rw [hf.kb2]
  · intro rc k _
    exact keyedGet_congr hf.comps2 rc k
  · intro c q _ _ hq
    rw [domParent_rapprox hf.gApprox]
    exact hq

/-- `MirrorChildren` transfer across a `P2Frame` left of the interval. -/
theorem mirrorChildren_p2frame {st st2 : MState} {pc : String} {b : Nat}
    {cs : List VTree} {r0 sz0 : Nat} {occs : List (String × String)}
    (hm : MirrorChildren st pc b cs) (hf : P2Frame st r0 sz0 occs st2)
    (hint : r0 + sz0 ≤ b) :
    MirrorChildren st2 pc b cs := by
  refine mirrorFrameL cs st st2 pc b hm ?_ ?_ ?_ ?_ ?_
  · intro n h1 _
    exact hf.gF n (Or.inr (by omega))
  · intro n h1 _
    exact hf.vbF n (Or.inr (by omega))
  · intro n _ _
    rw [hf.kb2]
  · intro rc k _
    exact keyedGet_congr hf.comps2 rc k
  · intro c q _ _ hq
    rw [domParent_rapprox hf.gApprox]
    exact hq

theorem getNode_setNode (st : MState) (i : Nat) (f : RNode → RNode)
    (n : Nat) :
    (st.setNode i f).getNode n
      = if n = i then (st.getNode n).map f else st.getNode n :=
  nlookup_updParent st.dom i f n

theorem setNode_prop_rapprox (st : MState) (i : Nat) (f : RNode → RNode)
    (hf : ∀ nd, (f nd).kind = nd.kind ∧ (f nd).tag = nd.tag
      ∧ (f nd).attrs = nd.attrs ∧ (f nd).nodeValue = nd.nodeValue
      ∧ (f nd).children = nd.children) :
    List.Forall₂ RApproxE st.dom (st.setNode i f).dom := by
  show List.Forall₂ RApproxE st.dom
    (st.dom.map (fun e => if e.1 = i then (e.1, f e.2) else e))
  induction st.dom with
  | nil => exact List.Forall₂.nil
  | cons e rest ih =>
    simp only [List.map_cons]
    refine List.Forall₂.cons ?_ ih
    by_cases hei : e.1 = i
    · rw [show ((if e.1 = i then (e.1, f e.2) else e) : Nat × RNode)
        = (e.1, f e.2) from by simp [hei]]
      obtain ⟨h1, h2, h3, h4, h5⟩ := hf e.2
      exact ⟨rfl, h1, h2, h3, h4, h5⟩
    · rw [show ((if e.1 = i then (e.1, f e.2) else e) : Nat × RNode)
        = e from by simp [hei]]
      exact ⟨rfl, rfl, rfl, rfl, rfl, rfl⟩

theorem removeAttrOp_noop (st : MState) (n : Nat) (k : RAttrKey)
    (h : ∀ nd, st.getNode n = some nd → rlookup nd.attrs k = none) :
    removeAttrOp st n k = st := by
  unfold removeAttrOp
  cases hg : st.getNode n with
  | none => rfl
  | some nd =>
    show (if (rlookup nd.attrs k).isSome = true then (let st2 := st.setNode n (fun nd2 => { nd2 with attrs := rdelete nd2.attrs k }); { st2 with log := st2.log ++ [Mut.removeAttr n k] }) else st) = st
    rw [h nd hg]
    rfl

/-- The next real sibling read from a characterized parent child
list. -/
theorem nextSiblingR_char (st : MState) (c fn : Nat) (pnd : RNode)
    (pre l : List Nat)
    (hdp : domParent st.dom c = some fn)
    (hg : st.getNode fn = some pnd)
    (hch : pnd.children = pre ++ c :: l)
    (hcpre : c ∉ pre) :
    nextSiblingR st c = l.head? := by
  unfold nextSiblingR
  rw [hdp]
  show (match st.getNode fn with
    | none => none
    | some pd => nextAfter pd.children c) = l.head?
  rw [hg]
  show nextAfter pnd.children c = l.head?
  rw [hch, nextAfter_prefix pre (c :: l) c hcpre, nextAfter_head]

theorem velHasAttribute_congr {d d' : VElemData}
    (h : d'.attrs.entries = d.attrs.entries) (name : String) :
    velHasAttribute d' name = velHasAttribute d name := by
  unfold velHasAttribute
  rw [h]

theorem velValue_congr {d d' : VElemData}
    (hent : d'.attrs.entries = d.attrs.entries)
    (hvi : d'.valueInternal = d.valueInternal) :
    velValue d' = velValue d := by
  unfold velValue velValueFallback
  rw [hent, hvi]

theorem morphAttrsLoop_noop (st : MState) (fromEl : Nat)
    (oldE : List (String × AttrVal)) :
    ∀ es : List (String × AttrVal),
      (∀ e ∈ es, (e.1 == strXlinkHref) = false
        ∧ (attrTruthyish e.2 = false →
            removeAttrOp st fromEl { ns := none, name := e.1 } = st)
        ∧ (attrTruthyish e.2 = true → alookup oldE e.1 = some e.2)) →
      morphAttrsLoop st fromEl oldE es = st := by
  intro es
  induction es with
  | nil =>
    intro _
    rw [morphAttrsLoop]
  | cons e rest ih =>
    intro hc
    obtain ⟨a, b⟩ := e
    obtain ⟨hx, hrm, hset⟩ := hc (a, b) (by simp)
    have hcr : ∀ e ∈ rest, (e.1 == strXlinkHref) = false
        ∧ (attrTruthyish e.2 = false →
            removeAttrOp st fromEl { ns := none, name := e.1 } = st)
        ∧ (attrTruthyish e.2 = true → alookup oldE e.1 = some e.2) :=
      fun e he => hc e (by simp [he])
    rw [morphAttrsLoop]
    simp only [hx, Bool.false_eq_true, reduceIte]
    cases hb : attrTruthyish b with
    | false =>
      simp only [hb, Bool.not_false, reduceIte]
      rw [hrm hb]
      exact ih hcr
    | true =>
      simp only [hb, Bool.not_true, Bool.false_eq_true, reduceIte]
      rw [hset hb, bne_self_eq_false]
      simp only [Bool.false_eq_true, reduceIte]
      exact ih hcr

theorem morphAttrsRemovalScan_noop (st : MState) (fromEl : Nat)
    (toE : List (String × AttrVal)) :
    ∀ es : List (String × AttrVal),
      (∀ e ∈ es, (alookup toE e.1).isSome = true) →
      morphAttrsRemovalScan st fromEl toE es = st := by
  intro es
  induction es with
  | nil =>
    intro _
    rw [morphAttrsRemovalScan]
  | cons e rest ih =>
    intro hc
    obtain ⟨a, b⟩ := e
    have ha : (alookup toE a).isSome = true := hc (a, b) (by simp)
    rw [morphAttrsRemovalScan]
    show morphAttrsRemovalScan (if (alookup toE a).isNone = true then (if (a == strXlinkHref) = true then removeAttrOp st fromEl { ns := some strXlinkHref, name := strHref } else removeAttrOp st fromEl { ns := none, name := a }) else st) fromEl toE rest = st
    cases halk : alookup toE a with
    | none =>
      rw [halk] at ha
      exact Bool.noConfusion ha
    | some w =>
      exact ih (fun e he => hc e (by simp [he]))

theorem morphAttrs_noop (st : MState) (r : Nat) (d d' : VElemData)
    (cs cs' : List VTree) (rs : List Nat)
    (hrec : st.getNode r = some (realElemOf d rs))
    (hent : d'.attrs.entries = d.attrs.entries)
    (hfl : d'.flags = d.flags)
    (hnodup : nodupStr (d.attrs.entries.map Prod.fst) = true)
    (hnx : d.attrs.entries.all (fun e => e.1 != strXlinkHref) = true) :
    morphAttrs st r (VTree.elem d cs) (VTree.elem d' cs')
      = { st with vByDom := nstore st.vByDom r (VTree.elem d' cs') } := by
  have hself : ∀ e ∈ d.attrs.entries, alookup d.attrs.entries e.1 = some e.2 :=
    alookup_self_of_nodup d.attrs.entries hnodup
  have hxmem : ∀ e ∈ d.attrs.entries, (e.1 == strXlinkHref) = false := by
    intro e he
    have := List.all_eq_true.1 hnx e he
    simpa using this
  unfold morphAttrs
  simp only [show velData (VTree.elem d cs) = d from rfl,
    show velData (VTree.elem d' cs') = d' from rfl]
  by_cases hcust : hasFlag d'.flags FLAG_CUSTOM_ELEMENT = true
  · simp only [hcust, reduceIte]
  · have hcustF : hasFlag d'.flags FLAG_CUSTOM_ELEMENT = false := by
      cases h : hasFlag d'.flags FLAG_CUSTOM_ELEMENT
      · rfl
      · exact absurd h hcust
    have hcustD : hasFlag d.flags FLAG_CUSTOM_ELEMENT = false := by
      rw [← hfl]
      exact hcustF
    simp only [hcustF, Bool.false_eq_true, reduceIte]
    by_cases href : (d.attrs.ref == d'.attrs.ref) = true
    · simp only [href, reduceIte]
    · have hrefF : (d.attrs.ref == d'.attrs.ref) = false := by
        cases h : (d.attrs.ref == d'.attrs.ref)
        · rfl
        · exact absurd h href
      simp only [hrefF, Bool.false_eq_true, reduceIte]
      by_cases hsim : (hasFlag d'.flags FLAG_SIMPLE_ATTRS
          && hasFlag d.flags FLAG_SIMPLE_ATTRS) = true
      · simp only [hsim, reduceIte]
        rw [hent, bne_self_eq_false, bne_self_eq_false, bne_self_eq_false]
        simp only [Bool.false_eq_true, reduceIte]
      · have hsimF : (hasFlag d'.flags FLAG_SIMPLE_ATTRS
            && hasFlag d.flags FLAG_SIMPLE_ATTRS) = false := by
          cases h : (hasFlag d'.flags FLAG_SIMPLE_ATTRS
              && hasFlag d.flags FLAG_SIMPLE_ATTRS)
          · rfl
          · exact absurd h hsim
        simp only [hsimF, Bool.false_eq_true, reduceIte]
        rw [hent]
        have hloop : morphAttrsLoop
            { st with vByDom := nstore st.vByDom r (VTree.elem d' cs') } r
            d.attrs.entries d.attrs.entries
            = { st with vByDom := nstore st.vByDom r (VTree.elem d' cs') } := by
          refine morphAttrsLoop_noop _ r d.attrs.entries d.attrs.entries ?_
          intro e he
          refine ⟨hxmem e he, ?_, fun _ => hself e he⟩
          intro hb
          refine removeAttrOp_noop _ r { ns := none, name := e.1 } ?_
          intro nd hnd
          have hnd2 : st.getNode r = some nd := hnd
          rw [hrec] at hnd2
          injection hnd2 with hnd3
          rw [← hnd3]
          show rlookup (if hasFlag d.flags FLAG_CUSTOM_ELEMENT then []
            else actualizeAttrs d.attrs.entries)
            { ns := none, name := e.1 } = none
          rw [hcustD]
          simp only [Bool.false_eq_true, reduceIte]
          rw [actualizeAttrs_lookup d.attrs.entries hnodup hnx e.1,
            hself e he]
          show (if attrTruthyish e.2 = true then some (convertAttrValue e.2)
            else none) = none
          rw [hb]
          simp
        rw [hloop]
        by_cases hk : d'.key = none
        · simp only [hk, reduceIte]
          refine morphAttrsRemovalScan_noop _ r d.attrs.entries
            d.attrs.entries ?_
          intro e he
          rw [hself e he]
          rfl
        · simp only [hk, reduceIte]

theorem syncBool_noop (st : MState) (r : Nat) (toD : VElemData)
    (name : String) (getP : RNode → Bool) (setP : RNode → Bool → RNode)
    (nd : RNode) (hrec : st.getNode r = some nd)
    (hv : (getP nd != velHasAttribute toD name) = false) :
    syncBooleanAttrProp st r toD name getP setP = st := by
  unfold syncBooleanAttrProp
  rw [hrec]
  show (if (getP nd != velHasAttribute toD name) = true then (let st2 := st.setNode r (fun n2 => setP n2 (velHasAttribute toD name)); if velHasAttribute toD name = true then setAttrOp st2 r { ns := none, name := name } "" else removeAttrOp st2 r { ns := none, name := name }) else st) = st
  rw [hv]
  rfl

theorem inputHandler_noop (st : MState) (r : Nat) (d d' : VElemData)
    (rs : List Nat) (hrec : st.getNode r = some (realElemOf d rs))
    (hent : d'.attrs.entries = d.attrs.entries)
    (hvi : d'.valueInternal = d.valueInternal)
    (hflF : hasFlag d.flags FLAG_CUSTOM_ELEMENT = false)
    (hnodup : nodupStr (d.attrs.entries.map Prod.fst) = true)
    (hnx : d.attrs.entries.all (fun e => e.1 != strXlinkHref) = true) :
    inputHandler st r d' = st := by
  have hha : ∀ name, velHasAttribute d' name = velHasAttribute d name :=
    velHasAttribute_congr hent
  have hs1 : syncBooleanAttrProp st r d' strChecked
      (fun nd => nd.checkedProp) (fun nd b => { nd with checkedProp := b })
      = st := by
    refine syncBool_noop st r d' strChecked _ _ _ hrec ?_
    show (velHasAttribute d strChecked != velHasAttribute d' strChecked)
      = false
    rw [hha strChecked, bne_self_eq_false]
  have hs2 : syncBooleanAttrProp st r d' strDisabled
      (fun nd => nd.disabledProp) (fun nd b => { nd with disabledProp := b })
      = st := by
    refine syncBool_noop st r d' strDisabled _ _ _ hrec ?_
    show (velHasAttribute d strDisabled != velHasAttribute d' strDisabled)
      = false
    rw [hha strDisabled, bne_self_eq_false]
  unfold inputHandler
  simp only [hs1, hs2]
  rw [hrec]
  show (let st3 := if ((realElemOf d rs).valueProp != velValue d') = true then st.setNode r (fun n2 => { n2 with valueProp := velValue d' }) else st; match st3.getNode r with | none => st3 | some nd2 => if ((rlookup nd2.attrs { ns := none, name := strValue }).isSome && !velHasAttribute d' strValue) = true then removeAttrOp st3 r { ns := none, name := strValue } else st3) = st
  have hvp : ((realElemOf d rs).valueProp != velValue d') = false := by
    show (velValue d != velValue d') = false
    rw [velValue_congr hent hvi, bne_self_eq_false]
  rw [hvp]
  show (match st.getNode r with | none => st | some nd2 => if ((rlookup nd2.attrs { ns := none, name := strValue }).isSome && !velHasAttribute d' strValue) = true then removeAttrOp st r { ns := none, name := strValue } else st) = st
  rw [hrec]
  show (if ((rlookup (realElemOf d rs).attrs { ns := none, name := strValue }).isSome && !velHasAttribute d' strValue) = true then removeAttrOp st r { ns := none, name := strValue } else st) = st
  have hfinal : ((rlookup (realElemOf d rs).attrs
      { ns := none, name := strValue }).isSome
      && !velHasAttribute d' strValue) = false := by
    show ((rlookup (if hasFlag d.flags FLAG_CUSTOM_ELEMENT then []
      else actualizeAttrs d.attrs.entries)
      { ns := none, name := strValue }).isSome
      && !velHasAttribute d' strValue) = false
    rw [hflF]
    simp only [Bool.false_eq_true, reduceIte]
    rw [actualizeAttrs_lookup d.attrs.entries hnodup hnx strValue]
    rw [hha strValue]
    show ((match alookup d.attrs.entries strValue with
      | some v => if attrTruthyish v = true then some (convertAttrValue v)
        else none
      | none => none).isSome && !velHasAttribute d strValue) = false
    unfold velHasAttribute
    cases halk : alookup d.attrs.entries strValue with
    | none => rfl
    | some w =>
      cases ht : attrTruthyish w with
      | false => simp [ht]
      | true => simp [ht]
  rw [hfinal]
  rfl

theorem textareaHandler_noop (st : MState) (r : Nat) (d d' : VElemData)
    (rs : List Nat) (hrec : st.getNode r = some (realElemOf d rs))
    (hent : d'.attrs.entries = d.attrs.entries)
    (hvi : d'.valueInternal = d.valueInternal)
    (hrsnil : rs = []) :
    textareaHandler st r d' = st := by
  subst hrsnil
  unfold textareaHandler
  by_cases hpt : d'.preserveTextAreaValue = true
  · simp only [hpt, reduceIte]
  · have hptF : d'.preserveTextAreaValue = false := by
      cases h : d'.preserveTextAreaValue
      · rfl
      · exact absurd h hpt
    simp only [hptF, Bool.false_eq_true, reduceIte]
    rw [hrec]
    have hvp : ((realElemOf d []).valueProp != velValue d') = false := by
      show (velValue d != velValue d') = false
      rw [velValue_congr hent hvi, bne_self_eq_false]
    show (let st2 := if ((realElemOf d []).valueProp != velValue d') = true then st.setNode r (fun n2 => { n2 with valueProp := velValue d' }) else st; match (realElemOf d []).children.head? with | none => st2 | some fc => (match st2.getNode fc with | none => st2 | some fcd => if (fcd.nodeValue == velValue d' || (velValue d' == "" && fcd.nodeValue == (realElemOf d []).placeholderProp)) = true then st2 else setNodeValueOp st2 fc (velValue d'))) = st
    rw [hvp]
    rfl

theorem selectHandler_cases (st : MState) (r : Nat) (toT : VTree)
    (nd : RNode) (hrec : st.getNode r = some nd) :
    selectHandler st r toT = st
      ∨ ∃ si, selectHandler st r toT
          = st.setNode r (fun n2 => { n2 with selectedIndexProp := si }) := by
  unfold selectHandler
  by_cases hm : velHasAttribute (velData toT) strMultiple = true
  · refine Or.inl ?_
    simp only [hm, Bool.not_true, Bool.false_eq_true, reduceIte]
  · have hmF : velHasAttribute (velData toT) strMultiple = false := by
      cases h : velHasAttribute (velData toT) strMultiple
      · rfl
      · exact absurd h hm
    simp only [hmF, Bool.not_false, reduceIte]
    rw [hrec]
    show (if (nd.selectedIndexProp != (selScan (vchildren toT) (-1) 0).2) = true then st.setNode r (fun n2 => { n2 with selectedIndexProp := (selScan (vchildren toT) (-1) 0).2 }) else st) = st ∨ ∃ si, (if (nd.selectedIndexProp != (selScan (vchildren toT) (-1) 0).2) = true then st.setNode r (fun n2 => { n2 with selectedIndexProp := (selScan (vchildren toT) (-1) 0).2 }) else st) = st.setNode r (fun n2 => { n2 with selectedIndexProp := si })
    cases hsel : (nd.selectedIndexProp != (selScan (vchildren toT) (-1) 0).2)
      with
    | false =>
      refine Or.inl ?_
      simp only [Bool.false_eq_true, reduceIte]
    | true =>
      refine Or.inr ⟨(selScan (vchildren toT) (-1) 0).2, ?_⟩
      simp only [reduceIte]

/-- One re-render of a mirrored element triggers at most the `select`
handler's property write. -/
theorem specialElHandler_cases (st : MState) (r : Nat) (d d' : VElemData)
    (cs' : List VTree) (rs : List Nat)
    (hrec : st.getNode r = some (realElemOf d rs))
    (hent : d'.attrs.entries = d.attrs.entries)
    (hvi : d'.valueInternal = d.valueInternal)
    (htag : d'.tag = d.tag)
    (hcustspec : hasFlag d.flags FLAG_CUSTOM_ELEMENT = true →
      specialTag d.tag = false)
    (hnodup : nodupStr (d.attrs.entries.map Prod.fst) = true)
    (hnx : d.attrs.entries.all (fun e => e.1 != strXlinkHref) = true)
    (hta : d.tag = strTextarea → rs = []) :
    specialElHandler st r (VTree.elem d' cs') = st
      ∨ ∃ si, specialElHandler st r (VTree.elem d' cs')
          = st.setNode r (fun n2 => { n2 with selectedIndexProp := si }) := by
  have hha : ∀ name, velHasAttribute d' name = velHasAttribute d name :=
    velHasAttribute_congr hent
  unfold specialElHandler
  simp only [show velData (VTree.elem d' cs') = d' from rfl]
  by_cases h1 : (d'.tag == strOption) = true
  · simp only [h1, reduceIte]
    refine Or.inl (syncBool_noop st r d' strSelected
      (fun nd => nd.selectedProp) (fun nd b => { nd with selectedProp := b })
      _ hrec ?_)
    show (velHasAttribute d strSelected != velHasAttribute d' strSelected)
      = false
    rw [hha strSelected, bne_self_eq_false]
  · have h1F : (d'.tag == strOption) = false := by
      cases h : (d'.tag == strOption)
      · rfl
      · exact absurd h h1
    simp only [h1F, Bool.false_eq_true, reduceIte]
    by_cases h2 : (d'.tag == strButton) = true
    · simp only [h2, reduceIte]
      refine Or.inl (syncBool_noop st r d' strDisabled
        (fun nd => nd.disabledProp)
        (fun nd b => { nd with disabledProp := b }) _ hrec ?_)
      show (velHasAttribute d strDisabled != velHasAttribute d' strDisabled)
        = false
      rw [hha strDisabled, bne_self_eq_false]
    · have h2F : (d'.tag == strButton) = false := by
        cases h : (d'.tag == strButton)
        · rfl
        · exact absurd h h2
      simp only [h2F, Bool.false_eq_true, reduceIte]
      by_cases h3 : (d'.tag == strInput) = true
      · simp only [h3, reduceIte]
        have htin : d.tag = strInput := by
          rw [← htag]
          exact eq_of_beq h3
        have hsp : specialTag d.tag = true := by
          rw [htin]
          rfl
        have hflF : hasFlag d.flags FLAG_CUSTOM_ELEMENT = false := by
          cases h : hasFlag d.flags FLAG_CUSTOM_ELEMENT
          · rfl
          · rw [hcustspec h] at hsp
            exact Bool.noConfusion hsp
        exact Or.inl (inputHandler_noop st r d d' rs hrec hent hvi hflF
          hnodup hnx)
      · have h3F : (d'.tag == strInput) = false := by
          cases h : (d'.tag == strInput)
          · rfl
          · exact absurd h h3
        simp only [h3F, Bool.false_eq_true, reduceIte]
        by_cases h4 : (d'.tag == strTextarea) = true
        · simp only [h4, reduceIte]
          refine Or.inl (textareaHandler_noop st r d d' rs hrec hent
            hvi ?_)
          refine hta ?_
          rw [← htag]
          exact eq_of_beq h4
        · have h4F : (d'.tag == strTextarea) = false := by
            cases h : (d'.tag == strTextarea)
            · rfl
            · exact absurd h h4
          simp only [h4F, Bool.false_eq_true, reduceIte]
          by_cases h5 : (d'.tag == strSelect) = true
          · simp only [h5, reduceIte]
            exact selectHandler_cases st r (VTree.elem d' cs') _ hrec
          · have h5F : (d'.tag == strSelect) = false := by
              cases h : (d'.tag == strSelect)
              · rfl
              · exact absurd h h5
            refine Or.inl ?_
            simp only [h5F, Bool.false_eq_true, reduceIte]

theorem p2frame_setNodeProp (st : MState) (r sz : Nat)
    (occs : List (String × String)) (i : Nat) (si : Int)
    (hin : r ≤ i ∧ i < r + sz) :
    P2Frame st r sz occs
      (st.setNode i (fun n2 => { n2 with selectedIndexProp := si })) := by
  refine ⟨rfl, rfl, rfl, rfl, rfl, rfl, fun n hn => rfl, ?_, ?_,
    fun _ _ _ => rfl⟩
  · intro n hn
    rw [getNode_setNode, if_neg (by omega)]
  · exact setNode_prop_rapprox st i _ (fun nd => ⟨rfl, rfl, rfl, rfl, rfl⟩)

theorem keyedSameStep_preserve (st : MState) (fromNode : Nat)
    (pc oc : String) (base : Nat) (cvf : Option VTree) (rk : String)
    (fn2 : Option Nat) (dT : VElemData) (csT : List VTree)
    (hpres : dT.preserve = true) :
    keyedSameStep st fromNode pc oc (some base) cvf rk fn2
      (VTree.elem dT csT) = (st, fn2) := by
  rw [keyedSameStep.eq_def]
  simp only [show vPreserveOf (VTree.elem dT csT) = dT.preserve from rfl,
    hpres, Bool.not_true, Bool.false_eq_true, reduceIte]

theorem keyedSameStep_morph (st : MState) (fromNode : Nat) (pc oc : String)
    (base : Nat) (cvf : Option VTree) (vf : VTree) (rk : String)
    (fn2 : Option Nat) (dT : VElemData) (csT : List VTree)
    (hcvf : cvf = some vf)
    (hpres : dT.preserve = false)
    (hcmp : compareNodeNames (VTree.elem dT csT) vf = true) :
    keyedSameStep st fromNode pc oc (some base) cvf rk fn2
      (VTree.elem dT csT)
      = (morphElM st base vf (VTree.elem dT csT) (some rk) oc pc, fn2) := by
  rw [keyedSameStep.eq_def]
  simp only [show vPreserveOf (VTree.elem dT csT) = dT.preserve from rfl,
    hpres, Bool.not_false, reduceIte]
  rw [hcvf]
  show (if compareNodeNames (VTree.elem dT csT) vf = true then (morphElM st base vf (VTree.elem dT csT) (some rk) oc pc, fn2) else (insertVirtualNodeBefore (detachNodeOp st base (some oc)) (VTree.elem dT csT) (some rk) (some base) fromNode oc pc, fn2)) = _
  rw [hcmp]
  rfl

theorem keyedStep_samekey (st : MState) (fromNode : Nat) (pc : String)
    (base : Nat) (fromNext : Option Nat) (dT : VElemData)
    (csT : List VTree) (toNext : Option VTree)
    (hstored : KeySequence.stored
      (getKeySeq st.keySeqs (refCompOf pc dT)) (scopedKeyOf pc dT) = 0)
    (hkb : nlookup st.keyByDom base = some (scopedKeyOf pc dT)) :
    keyedStep st fromNode pc (ownerOfD pc dT) (some base) fromNext
      (VTree.elem dT csT) toNext
      = keyedSameStep { st with keySeqs := astore st.keySeqs (refCompOf pc dT) ((getKeySeq st.keySeqs (refCompOf pc dT)).nextKey (scopedKeyOf pc dT)).2 } fromNode pc (ownerOfD pc dT) (some base) (nlookup st.vByDom base) (scopedKeyOf pc dT) (nextSiblingR st base) (VTree.elem dT csT) := by
  have hres : ((getKeySeq st.keySeqs (refCompOf pc dT)).nextKey
      (scopedKeyOf pc dT)).1 = scopedKeyOf pc dT := by
    rw [nextKey_fst, if_pos hstored]
  rw [keyedStep]
  show (if (nlookup st.keyByDom base == some (((getKeySeq st.keySeqs (refCompOf pc dT)).nextKey (scopedKeyOf pc dT)).1)) = true then keyedSameStep { st with keySeqs := astore st.keySeqs (refCompOf pc dT) ((getKeySeq st.keySeqs (refCompOf pc dT)).nextKey (scopedKeyOf pc dT)).2 } fromNode pc (ownerOfD pc dT) (some base) (nlookup st.vByDom base) (((getKeySeq st.keySeqs (refCompOf pc dT)).nextKey (scopedKeyOf pc dT)).1) (nextSiblingR st base) (VTree.elem dT csT) else keyedMatchStep { st with keySeqs := astore st.keySeqs (refCompOf pc dT) ((getKeySeq st.keySeqs (refCompOf pc dT)).nextKey (scopedKeyOf pc dT)).2 } fromNode pc (ownerOfD pc dT) (some base) (nlookup st.keyByDom base) (refCompOf pc dT) (((getKeySeq st.keySeqs (refCompOf pc dT)).nextKey (scopedKeyOf pc dT)).1) (nextSiblingR st base) (VTree.elem dT csT) toNext) = _
  rw [hres, hkb, beq_self_eq_true]
  rfl

theorem scanLoop_text_hit (st : MState) (fn : Nat) (pc oc : String)
    (s s' : String) (cf fuel : Nat)
    (hrec : st.getNode cf
      = some (newRNode RKind.textNode "" [] s "" false false false))
    (hss : (s != s') = false) :
    scanLoop st fn pc oc (VTree.text s') (some cf) (fuel + 1)
      = (st, nextSiblingR st cf, true) := by
  rw [scanLoop, hrec]
  show ((if (s != s') = true then setNodeValueOp st cf s' else st),
    nextSiblingR st cf, true) = (st, nextSiblingR st cf, true)
  rw [hss]
  rfl

theorem scanLoop_comment_hit (st : MState) (fn : Nat) (pc oc : String)
    (s s' : String) (cf fuel : Nat)
    (hrec : st.getNode cf
      = some (newRNode RKind.commentNode "" [] s "" false false false))
    (hss : (s != s') = false) :
    scanLoop st fn pc oc (VTree.comment s') (some cf) (fuel + 1)
      = (st, nextSiblingR st cf, true) := by
  rw [scanLoop, hrec]
  show ((if (s != s') = true then setNodeValueOp st cf s' else st),
    nextSiblingR st cf, true) = (st, nextSiblingR st cf, true)
  rw [hss]
  rfl

theorem scanLoop_elem_hit (st : MState) (fn : Nat) (pc oc : String)
    (dT : VElemData) (csT : List VTree) (cf : Nat) (d2 : VElemData)
    (rs : List Nat) (vf : VTree) (fuel : Nat)
    (hrec : st.getNode cf = some (realElemOf d2 rs))
    (hvb : nlookup st.vByDom cf = some vf)
    (hcond : (!keyTruthy (vKeyOf vf)
      && compareNodeNames vf (VTree.elem dT csT)) = true) :
    scanLoop st fn pc oc (VTree.elem dT csT) (some cf) (fuel + 1)
      = (morphElM st cf vf (VTree.elem dT csT)
          (vKeyOf (VTree.elem dT csT)) oc pc, nextSiblingR st cf, true) := by
  rw [scanLoop, hrec, hvb]
  show (if (!keyTruthy (vKeyOf vf)
      && compareNodeNames vf (VTree.elem dT csT)) = true then
    (morphElM st cf vf (VTree.elem dT csT) (vKeyOf (VTree.elem dT csT)) oc
      pc, nextSiblingR st cf, true)
    else scanLoop (detachNodeOp st cf (some oc)) fn pc oc
      (VTree.elem dT csT) (nextSiblingR st cf) fuel) = _
  rw [hcond]
  rfl

/-- The element property of the re-render pass. -/
def P2ElP (v : VTree) : Prop :=
  ∀ (st : MState) (r : Nat) (pc : String) (dn : VElemData)
    (csn : List VTree) (toKey : Option String) (oc : String),
    wfT v = true →
    treeEquiv v (VTree.elem dn csn) = true →
    Mirror st pc r v →
    SeqFresh st.keySeqs (keyOccsList pc (vchildren v)) →
    (keyOccsList pc (vchildren v)).Nodup →
    P2Frame st r (rsizeT v) (keyOccsList pc (vchildren v))
      (morphElM st r v (VTree.elem dn csn) toKey oc pc)

/-- The child-list property of the re-render pass. -/
def P2LstP (cs : List VTree) : Prop :=
  ∀ (st : MState) (fromNode base : Nat) (pc : String) (csn : List VTree)
    (pnd : RNode) (pre : List Nat) (fromNext : Option Nat),
    wfL cs = true →
    treeEquivList cs csn = true →
    MirrorChildren st pc base cs →
    SeqFresh st.keySeqs (keyOccsList pc cs) →
    (keyOccsList pc cs).Nodup →
    st.getNode fromNode = some pnd →
    pnd.children = pre ++ idsOfChildren base cs →
    (∀ c ∈ idsOfChildren base cs, c ∉ pre) →
    (∀ c ∈ idsOfChildren base cs, domParent st.dom c = some fromNode) →
    fromNode < base →
    (outerLoop st fromNode pc (idsOfChildren base cs).head? fromNext
      csn).2 = none ∧
    P2Frame st base (rsizeL cs) (keyOccsList pc cs)
      (outerLoop st fromNode pc (idsOfChildren base cs).head? fromNext
        csn).1

theorem wfT_elem_custom {d : VElemData} {cs : List VTree}
    (h : wfT (VTree.elem d cs) = true) :
    hasFlag d.flags FLAG_CUSTOM_ELEMENT = true → specialTag d.tag = false := by
  intro hc
  rw [wfT] at h
  simp only [Bool.and_eq_true] at h
  have h2 := h.1.2
  rw [hc] at h2
  simp only [reduceIte, Bool.not_eq_true'] at h2
  exact h2

/-- One in-place element morph of the re-render pass stays within the
pass-two frame. -/
theorem p2_elem_main (d : VElemData) (cs : List VTree) (ihL : P2LstP cs)
    (st : MState) (r : Nat) (pc : String) (dn : VElemData)
    (csn : List VTree) (toKey : Option String) (oc : String)
    (hw : wfT (VTree.elem d cs) = true)
    (heq : treeEquiv (VTree.elem d cs) (VTree.elem dn csn) = true)
    (hm : Mirror st pc r (VTree.elem d cs))
    (hseq : SeqFresh st.keySeqs (keyOccsList pc cs))
    (hnd : (keyOccsList pc cs).Nodup) :
    P2Frame st r (rsizeT (VTree.elem d cs)) (keyOccsList pc cs)
      (morphElM st r (VTree.elem d cs) (VTree.elem dn csn) toKey oc pc) := by
  obtain ⟨htag, hkey, hent, hfl, hcid, hown, hpres, hvi, hptv, heqcs⟩ :=
    treeEquiv_elem heq
  obtain ⟨hnodup, hnx, hta, hwl⟩ := wfT_elem hw
  rw [Mirror] at hm
  obtain ⟨hm1, hm2, hm3, hm4, hm5⟩ := hm
  have hsz : rsizeT (VTree.elem d cs) = 1 + rsizeL cs := by rw [rsizeT]
  rw [morphElM]
  simp only [show velData (VTree.elem dn csn) = dn from rfl,
    show velData (VTree.elem d cs) = d from rfl]
  have hcond : (dn.constId.isSome && (d.constId == dn.constId))
      = dn.constId.isSome := by
    rw [hcid, beq_self_eq_true, Bool.and_true]
  rw [hcond]
  by_cases hiso : dn.constId.isSome = true
  · rw [hiso]
    simp only [reduceIte]
    exact p2frame_refl st r _ _
  · have hisoF : dn.constId.isSome = false := by
      cases h : dn.constId.isSome
      · rfl
      · exact absurd h hiso
    rw [hisoF]
    simp only [Bool.false_eq_true, reduceIte]
    have hMA := morphAttrs_noop st r d dn cs csn
      (idsOfChildren (r + 1) cs) hm1 hent.symm hfl.symm hnodup hnx
    rw [hMA]
    have hcustspec := wfT_elem_custom hw
    have frame1 : P2Frame st r (rsizeT (VTree.elem d cs))
        (keyOccsList pc cs)
        { st with vByDom := nstore st.vByDom r (VTree.elem dn csn) } := by
      refine ⟨rfl, rfl, rfl, rfl, rfl, rfl, ?_, fun _ _ => rfl,
        rapprox_refl st.dom, fun _ _ _ => rfl⟩
      intro n hn
      show nlookup (nstore st.vByDom r (VTree.elem dn csn)) n = _
      rw [nstore_char, if_neg (by omega)]
    have hszpos : 0 < rsizeT (VTree.elem d cs) := rsizeT_pos _
    by_cases hta2 : (dn.tag != strTextarea) = true
    · rw [hta2]
      simp only [reduceIte]
      have hfc : firstChildR
          { st with vByDom := nstore st.vByDom r (VTree.elem dn csn) } r
          = (idsOfChildren (r + 1) cs).head? := by
        show (nlookup st.dom r).bind (fun nd => nd.children.head?) = _
        rw [show nlookup st.dom r
          = some (realElemOf d (idsOfChildren (r + 1) cs)) from hm1]
        rfl
      have hmc5 : MirrorChildren
          { st with vByDom := nstore st.vByDom r (VTree.elem dn csn) } pc
          (r + 1) cs := by
        refine mirrorFrameL cs st _ pc (r + 1) hm5 (fun n _ _ => rfl) ?_
          (fun n _ _ => rfl) (fun rc k _ => rfl) (fun c q _ _ hq => hq)
        intro n h1 _
        show nlookup (nstore st.vByDom r (VTree.elem dn csn)) n = _
        rw [nstore_char, if_neg (by omega)]
      obtain ⟨hret, hfr⟩ := ihL
        { st with vByDom := nstore st.vByDom r (VTree.elem dn csn) } r
        (r + 1) pc csn (realElemOf d (idsOfChildren (r + 1) cs)) [] none
        hwl heqcs hmc5 hseq hnd hm1
        (by rw [List.nil_append]; rfl) (fun c _ => List.not_mem_nil c) hm4
        (by omega)
      have hmc : morphChildrenM
          { st with vByDom := nstore st.vByDom r (VTree.elem dn csn) } r
          (VTree.elem dn csn) pc
          = (outerLoop
              { st with vByDom := nstore st.vByDom r (VTree.elem dn csn) }
              r pc (idsOfChildren (r + 1) cs).head? none csn).1 := by
        rw [morphChildrenM]
        rw [hfc]
        show leftoverLoop
            ((outerLoop
              { st with vByDom := nstore st.vByDom r (VTree.elem dn csn) }
              r pc (idsOfChildren (r + 1) cs).head? none
              (vchildren (VTree.elem dn csn))).1.dom.length + 1)
            (outerLoop
              { st with vByDom := nstore st.vByDom r (VTree.elem dn csn) }
              r pc (idsOfChildren (r + 1) cs).head? none
              (vchildren (VTree.elem dn csn))).1
            r pc
            (outerLoop
              { st with vByDom := nstore st.vByDom r (VTree.elem dn csn) }
              r pc (idsOfChildren (r + 1) cs).head? none
              (vchildren (VTree.elem dn csn))).2 = _
        rw [show vchildren (VTree.elem dn csn) = csn from rfl]
        rw [hret]
        exact leftoverLoop_noneCur _ _ _ _
      rw [hmc]
      have hrec2 : (outerLoop
          { st with vByDom := nstore st.vByDom r (VTree.elem dn csn) }
          r pc (idsOfChildren (r + 1) cs).head? none csn).1.getNode r
          = some (realElemOf d (idsOfChildren (r + 1) cs)) := by
        rw [hfr.gF r (Or.inl (by omega))]
        exact hm1
      have frame2 : P2Frame
          { st with vByDom := nstore st.vByDom r (VTree.elem dn csn) } r
          (rsizeT (VTree.elem d cs)) (keyOccsList pc cs)
          (outerLoop
            { st with vByDom := nstore st.vByDom r (VTree.elem dn csn) }
            r pc (idsOfChildren (r + 1) cs).head? none csn).1 :=
        p2frame_weaken hfr r (rsizeT (VTree.elem d cs)) (keyOccsList pc cs)
          (by omega) (by rw [hsz]; omega) (fun q hq => hq)
      have hH := specialElHandler_cases
        (outerLoop
          { st with vByDom := nstore st.vByDom r (VTree.elem dn csn) }
          r pc (idsOfChildren (r + 1) cs).head? none csn).1 r d dn csn
        (idsOfChildren (r + 1) cs) hrec2 hent.symm hvi.symm htag.symm
        hcustspec hnodup hnx
        (fun h => by rw [hta h]; rw [idsOfChildren])
      rcases hH with hH | ⟨si, hH⟩
      · rw [hH]
        exact p2frame_trans frame1 frame2
      · rw [hH]
        refine p2frame_trans (p2frame_trans frame1 frame2) ?_
        exact p2frame_setNodeProp _ r _ _ r si ⟨le_rfl, by omega⟩
    · have hta2F : (dn.tag != strTextarea) = false := by
        cases h : (dn.tag != strTextarea)
        · rfl
        · exact absurd h hta2
      rw [hta2F]
      simp only [Bool.false_eq_true, reduceIte]
      have htat : d.tag = strTextarea := by
        rw [htag]
        exact bne_eq_false_iff_eq.1 hta2F
      have hcs0 : cs = [] := hta htat
      have hH := specialElHandler_cases
        { st with vByDom := nstore st.vByDom r (VTree.elem dn csn) } r d dn
        csn (idsOfChildren (r + 1) cs) hm1 hent.symm hvi.symm htag.symm
        hcustspec hnodup hnx
        (fun h => by rw [hta h]; rw [idsOfChildren])
      rcases hH with hH | ⟨si, hH⟩
      · rw [hH]
        exact frame1
      · rw [hH]
        refine p2frame_trans frame1 ?_
        exact p2frame_setNodeProp _ r _ _ r si ⟨le_rfl, by omega⟩

theorem scopedKeyOf_congr {d d' : VElemData} (pc : String)
    (hk : d.key = d'.key) (ho : d.owner = d'.owner) :
    scopedKeyOf pc d' = scopedKeyOf pc d := by
  unfold scopedKeyOf ownerOfD
  rw [hk, ho]

theorem refCompOf_congr {d d' : VElemData} (pc : String)
    (hk : d.key = d'.key) (ho : d.owner = d'.owner) :
    refCompOf pc d' = refCompOf pc d := by
  unfold refCompOf ownerOfD
  rw [hk, ho]

/-- Finishing a cons step of the re-render child loop: the processed head
left the frame `hframeH`; the remaining loop stays in the combined
frame. -/
theorem p2_cons_finish (st st1 : MState) (fromNode base : Nat)
    (pc : String) (v : VTree) (rest rest' : List VTree) (pnd : RNode)
    (pre : List Nat) (ihR : P2LstP rest)
    (hframeH : P2Frame st base (rsizeT v) (keyOccsOf pc v) st1)
    (hwr : wfL rest = true) (heqr : treeEquivList rest rest' = true)
    (hmr : MirrorChildren st pc (base + rsizeT v) rest)
    (hseq : SeqFresh st.keySeqs (keyOccsList pc (v :: rest)))
    (hnd : (keyOccsList pc (v :: rest)).Nodup)
    (hpnd : st.getNode fromNode = some pnd)
    (hch : pnd.children = pre ++ idsOfChildren base (v :: rest))
    (hpre : ∀ c ∈ idsOfChildren base (v :: rest), c ∉ pre)
    (hpar : ∀ c ∈ idsOfChildren base (v :: rest),
      domParent st.dom c = some fromNode)
    (hfn : fromNode < base) :
    (outerLoop st1 fromNode pc
      (idsOfChildren (base + rsizeT v) rest).head?
      (idsOfChildren (base + rsizeT v) rest).head? rest').2 = none ∧
    P2Frame st base (rsizeL (v :: rest)) (keyOccsList pc (v :: rest))
      (outerLoop st1 fromNode pc
        (idsOfChildren (base + rsizeT v) rest).head?
        (idsOfChildren (base + rsizeT v) rest).head? rest').1 := by
  have hrsz : 0 < rsizeT v := rsizeT_pos v
  have hoccs : keyOccsList pc (v :: rest)
      = keyOccsOf pc v ++ keyOccsList pc rest := by
    rw [keyOccsList]
  have hndp := nodup_append_parts (show (keyOccsOf pc v
      ++ keyOccsList pc rest).Nodup from by rw [← hoccs]; exact hnd)
  have hids : idsOfChildren base (v :: rest)
      = base :: idsOfChildren (base + rsizeT v) rest := by
    rw [idsOfChildren]
  have hmr1 : MirrorChildren st1 pc (base + rsizeT v) rest :=
    mirrorChildren_p2frame hmr hframeH le_rfl
  have hseq1 : SeqFresh st1.keySeqs (keyOccsList pc rest) := by
    intro q hq
    have hqv : (q.1, q.2) ∉ keyOccsOf pc v := by
      intro hmem
      exact hndp.2.2 (q.1, q.2) hmem hq
    rw [hframeH.seqF2 q.1 q.2 hqv]
    exact hseq q (by rw [hoccs]; exact List.mem_append.2 (Or.inr hq))
  have hpnd1 : st1.getNode fromNode = some pnd := by
    rw [hframeH.gF fromNode (Or.inl hfn)]
    exact hpnd
  have hch1 : pnd.children
      = (pre ++ [base]) ++ idsOfChildren (base + rsizeT v) rest := by
    rw [hch, hids, List.append_assoc, List.singleton_append]
  have hpre1 : ∀ c ∈ idsOfChildren (base + rsizeT v) rest,
      c ∉ pre ++ [base] := by
    intro c hc
    have hb := mem_idsOfChildren (base + rsizeT v) rest c hc
    intro hmem
    rcases List.mem_append.1 hmem with h | h
    · exact hpre c (by rw [hids]; exact List.mem_cons.2 (Or.inr hc)) h
    · rw [List.mem_singleton] at h
      omega
  have hpar1 : ∀ c ∈ idsOfChildren (base + rsizeT v) rest,
      domParent st1.dom c = some fromNode := by
    intro c hc
    rw [domParent_rapprox hframeH.gApprox]
    exact hpar c (by rw [hids]; exact List.mem_cons.2 (Or.inr hc))
  obtain ⟨hret, hfr⟩ := ihR st1 fromNode (base + rsizeT v) pc rest' pnd
    (pre ++ [base]) (idsOfChildren (base + rsizeT v) rest).head? hwr heqr
    hmr1 hseq1 hndp.2.1 hpnd1 hch1 hpre1 hpar1 (by omega)
  refine ⟨hret, ?_⟩
  have hW1 : P2Frame st base (rsizeL (v :: rest))
      (keyOccsList pc (v :: rest)) st1 := by
    refine p2frame_weaken hframeH base (rsizeL (v :: rest))
      (keyOccsList pc (v :: rest)) le_rfl ?_ ?_
    · rw [rsizeL]
      omega
    · intro q hq hmem
      exact hq (by rw [hoccs]; exact List.mem_append.2 (Or.inl hmem))
  have hW2 : P2Frame st1 base (rsizeL (v :: rest))
      (keyOccsList pc (v :: rest))
      (outerLoop st1 fromNode pc
        (idsOfChildren (base + rsizeT v) rest).head?
        (idsOfChildren (base + rsizeT v) rest).head? rest').1 := by
    refine p2frame_weaken hfr base (rsizeL (v :: rest))
      (keyOccsList pc (v :: rest)) (by omega) ?_ ?_
    · rw [rsizeL]
      omega
    · intro q hq hmem
      exact hq (by rw [hoccs]; exact List.mem_append.2 (Or.inr hmem))
  exact p2frame_trans hW1 hW2

theorem p2_all : ∀ n, (∀ v, vsize v ≤ n → P2ElP v)
    ∧ (∀ cs, vsizeList cs ≤ n → P2LstP cs) := by
  intro n
  induction n using Nat.strong_induction_on with
  | _ n ih =>
    constructor
    · intro v hv st r pc dn csn toKey oc hw heq hm hseq hnd
      cases v with
      | text s =>
        exact Bool.noConfusion heq
      | comment s =>
        exact Bool.noConfusion heq
      | elem d cs =>
        have hszcs : vsizeList cs < n := by
          have h1 : vsize (VTree.elem d cs) = 1 + vsizeList cs := by
            rw [vsize]
          omega
        exact p2_elem_main d cs ((ih (vsizeList cs) hszcs).2 cs le_rfl) st r
          pc dn csn toKey oc hw heq hm hseq hnd
    · intro cs hcs st fromNode base pc csn pnd pre fromNext hw heq hmc hseq
        hnd hpnd hch hpre hpar hfn
      cases cs with
      | nil =>
        have hcsn := treeEquivList_nil heq
        subst hcsn
        have hOL : outerLoop st fromNode pc
            (idsOfChildren base ([] : List VTree)).head? fromNext
            ([] : List VTree)
            = (st, (idsOfChildren base ([] : List VTree)).head?) := by
          rw [outerLoop]
        rw [hOL]
        refine ⟨?_, ?_⟩
        · rw [idsOfChildren]
          rfl
        · exact p2frame_refl st base _ _
      | cons v rest =>
        obtain ⟨v2, rest', hcsn, heqv, heqr⟩ := treeEquivList_cons heq
        subst hcsn
        obtain ⟨hwv, hwr⟩ := wfL_cons hw
        rw [MirrorChildren] at hmc
        obtain ⟨hmv, hmr⟩ := hmc
        have hids : idsOfChildren base (v :: rest)
            = base :: idsOfChildren (base + rsizeT v) rest := by
          rw [idsOfChildren]
        have hidshead : (idsOfChildren base (v :: rest)).head?
            = some base := by
          rw [hids]
          rfl
        have hbmem : base ∈ idsOfChildren base (v :: rest) := by
          rw [hids]
          exact List.mem_cons_self _ _
        have hnb : nextSiblingR st base
            = (idsOfChildren (base + rsizeT v) rest).head? := by
          refine nextSiblingR_char st base fromNode pnd pre
            (idsOfChildren (base + rsizeT v) rest) (hpar base hbmem) hpnd
            ?_ (hpre base hbmem)
          rw [hch, hids]
        have hoccs : keyOccsList pc (v :: rest)
            = keyOccsOf pc v ++ keyOccsList pc rest := by
          rw [keyOccsList]
        have hndp := nodup_append_parts (show (keyOccsOf pc v
            ++ keyOccsList pc rest).Nodup from by rw [← hoccs]; exact hnd)
        have hszv : vsize v < n ∧ vsizeList rest < n := by
          have h1 : vsizeList (v :: rest)
              = 1 + vsize v + vsizeList rest := by
            rw [vsizeList]
          omega
        have ihR : P2LstP rest := (ih (vsizeList rest) hszv.2).2 rest le_rfl
        cases v with
        | text s =>
          cases v2 with
          | elem d2 cs2 =>
            exact Bool.noConfusion heqv
          | comment s2 =>
            exact Bool.noConfusion heqv
          | text s2 =>
            rw [treeEquiv] at heqv
            have hss : (s != s2) = false := by
              show (!(s == s2)) = false
              rw [heqv]
              rfl
            rw [Mirror] at hmv
            have hstep : outerLoop st fromNode pc
                (idsOfChildren base (VTree.text s :: rest)).head? fromNext
                (VTree.text s2 :: rest')
                = outerLoop st fromNode pc
                  (idsOfChildren (base + rsizeT (VTree.text s)) rest).head?
                  (idsOfChildren (base + rsizeT (VTree.text s)) rest).head?
                  rest' := by
              rw [hidshead, outerLoop,
                scanLoop_text_hit st fromNode pc
                  ((vOwnerOf (VTree.text s2)).getD pc) s s2 base
                  st.dom.length hmv hss, hnb]
              rfl
            rw [hstep]
            exact p2_cons_finish st st fromNode base pc (VTree.text s) rest
              rest' pnd pre ihR (p2frame_refl st base _ _) hwr heqr hmr
              hseq hnd hpnd hch hpre hpar hfn
        | comment s =>
          cases v2 with
          | elem d2 cs2 =>
            exact Bool.noConfusion heqv
          | text s2 =>
            exact Bool.noConfusion heqv
          | comment s2 =>
            rw [treeEquiv] at heqv
            have hss : (s != s2) = false := by
              show (!(s == s2)) = false
              rw [heqv]
              rfl
            rw [Mirror] at hmv
            have hstep : outerLoop st fromNode pc
                (idsOfChildren base (VTree.comment s :: rest)).head? fromNext
                (VTree.comment s2 :: rest')
                = outerLoop st fromNode pc
                  (idsOfChildren (base + rsizeT (VTree.comment s))
                    rest).head?
                  (idsOfChildren (base + rsizeT (VTree.comment s))
                    rest).head?
                  rest' := by
              rw [hidshead, outerLoop,
                scanLoop_comment_hit st fromNode pc
                  ((vOwnerOf (VTree.comment s2)).getD pc) s s2 base
                  st.dom.length hmv hss, hnb]
              rfl
            rw [hstep]
            exact p2_cons_finish st st fromNode base pc (VTree.comment s)
              rest rest' pnd pre ihR (p2frame_refl st base _ _) hwr heqr
              hmr hseq hnd hpnd hch hpre hpar hfn
        | elem d2 cs2 =>
          cases v2 with
          | text s2 =>
            exact Bool.noConfusion heqv
          | comment s2 =>
            exact Bool.noConfusion heqv
          | elem dn2 csn2 =>
            obtain ⟨htag2, hkey2, hent2, hfl2, hcid2, hown2, hpres2, hvi2,
              hptv2, heqcs2⟩ := treeEquiv_elem heqv
            have ihE : P2ElP (VTree.elem d2 cs2) :=
              (ih (vsize (VTree.elem d2 cs2)) hszv.1).1 _ le_rfl
            rw [Mirror] at hmv
            obtain ⟨hm1, hm2, hm3, hm4, hm5⟩ := hmv
            by_cases hkt : keyTruthy (vKeyOf (VTree.elem dn2 csn2)) = true
            · have hktd : keyTruthy d2.key = true := by
                rw [hkey2]
                exact hkt
              obtain ⟨hkb0, _⟩ := hm3 hktd
              have hsk : scopedKeyOf pc dn2 = scopedKeyOf pc d2 :=
                scopedKeyOf_congr pc hkey2 hown2
              have hrc : refCompOf pc dn2 = refCompOf pc d2 :=
                refCompOf_congr pc hkey2 hown2
              have hoccv2 : keyOccsOf pc (VTree.elem d2 cs2)
                  = (refCompOf pc d2, scopedKeyOf pc d2)
                    :: keyOccsList pc cs2 := by
                rw [keyOccsOf_elem]
                simp [hktd]
              have hocc0v : (refCompOf pc d2, scopedKeyOf pc d2)
                  ∈ keyOccsOf pc (VTree.elem d2 cs2) := by
                rw [hoccv2]
                exact List.mem_cons_self _ _
              have hn0 : (refCompOf pc d2, scopedKeyOf pc d2)
                  ∉ keyOccsList pc cs2 := by
                have h1 := hndp.1
                rw [hoccv2] at h1
                exact (List.nodup_cons.1 h1).1
              have hstored : KeySequence.stored
                  (getKeySeq st.keySeqs (refCompOf pc dn2))
                  (scopedKeyOf pc dn2) = 0 := by
                rw [hsk, hrc]
                exact hseq _ (by
                  rw [hoccs]
                  exact List.mem_append.2 (Or.inl hocc0v))
              have hkb : nlookup st.keyByDom base
                  = some (scopedKeyOf pc dn2) := by
                rw [hsk]
                exact hkb0
              have hframeA : P2Frame st base (rsizeT (VTree.elem d2 cs2))
                  (keyOccsOf pc (VTree.elem d2 cs2))
                  { st with keySeqs := astore st.keySeqs (refCompOf pc dn2) ((getKeySeq st.keySeqs (refCompOf pc dn2)).nextKey (scopedKeyOf pc dn2)).2 } := by
                refine ⟨rfl, rfl, rfl, rfl, rfl, rfl, fun _ _ => rfl,
                  fun _ _ => rfl, rapprox_refl st.dom, ?_⟩
                intro rc k hno
                have hsc := stored_consume st.keySeqs (refCompOf pc dn2)
                  (scopedKeyOf pc dn2) rc k
                rw [if_neg ?hne, Nat.add_zero] at hsc
                case hne =>
                  rintro ⟨h1, h2⟩
                  apply hno
                  rw [← h1, ← h2, hsk, hrc]
                  exact hocc0v
                exact hsc
              by_cases hpv : dn2.preserve = true
              · have hstep : outerLoop st fromNode pc
                    (idsOfChildren base (VTree.elem d2 cs2 :: rest)).head?
                    fromNext (VTree.elem dn2 csn2 :: rest')
                    = outerLoop { st with keySeqs := astore st.keySeqs (refCompOf pc dn2) ((getKeySeq st.keySeqs (refCompOf pc dn2)).nextKey (scopedKeyOf pc dn2)).2 } fromNode pc
                      (idsOfChildren (base + rsizeT (VTree.elem d2 cs2))
                        rest).head?
                      (idsOfChildren (base + rsizeT (VTree.elem d2 cs2))
                        rest).head?
                      rest' := by
                  rw [hidshead, outerLoop]
                  simp only [hkt, reduceIte]
                  rw [show ((vOwnerOf (VTree.elem dn2 csn2)).getD pc)
                    = ownerOfD pc dn2 from rfl]
                  rw [keyedStep_samekey st fromNode pc base fromNext dn2
                    csn2 rest'.head? hstored hkb]
                  rw [keyedSameStep_preserve _ fromNode pc
                    (ownerOfD pc dn2) base (nlookup st.vByDom base)
                    (scopedKeyOf pc dn2) (nextSiblingR st base) dn2 csn2
                    hpv]
                  rw [hnb]
                rw [hstep]
                exact p2_cons_finish st _ fromNode base pc
                  (VTree.elem d2 cs2) rest rest' pnd pre ihR hframeA hwr
                  heqr hmr hseq hnd hpnd hch hpre hpar hfn
              · have hpvF : dn2.preserve = false := by
                  cases h : dn2.preserve
                  · rfl
                  · exact absurd h hpv
                have hcmp : compareNodeNames (VTree.elem dn2 csn2)
                    (VTree.elem d2 cs2) = true := by
                  show (some dn2.tag == some d2.tag) = true
                  rw [htag2]
                  exact beq_self_eq_true _
                have hstep : outerLoop st fromNode pc
                    (idsOfChildren base (VTree.elem d2 cs2 :: rest)).head?
                    fromNext (VTree.elem dn2 csn2 :: rest')
                    = outerLoop (morphElM { st with keySeqs := astore st.keySeqs (refCompOf pc dn2) ((getKeySeq st.keySeqs (refCompOf pc dn2)).nextKey (scopedKeyOf pc dn2)).2 } base (VTree.elem d2 cs2) (VTree.elem dn2 csn2) (some (scopedKeyOf pc dn2)) (ownerOfD pc dn2) pc) fromNode pc
                      (idsOfChildren (base + rsizeT (VTree.elem d2 cs2))
                        rest).head?
                      (idsOfChildren (base + rsizeT (VTree.elem d2 cs2))
                        rest).head?
                      rest' := by
                  rw [hidshead, outerLoop]
                  simp only [hkt, reduceIte]
                  rw [show ((vOwnerOf (VTree.elem dn2 csn2)).getD pc)
                    = ownerOfD pc dn2 from rfl]
                  rw [keyedStep_samekey st fromNode pc base fromNext dn2
                    csn2 rest'.head? hstored hkb]
                  rw [keyedSameStep_morph _ fromNode pc (ownerOfD pc dn2)
                    base (nlookup st.vByDom base) (VTree.elem d2 cs2)
                    (scopedKeyOf pc dn2) (nextSiblingR st base) dn2 csn2
                    hm2 hpvF hcmp]
                  rw [hnb]
                have hmA : Mirror { st with keySeqs := astore st.keySeqs (refCompOf pc dn2) ((getKeySeq st.keySeqs (refCompOf pc dn2)).nextKey (scopedKeyOf pc dn2)).2 } pc base (VTree.elem d2 cs2) :=
                  @mirror_of_eq st { st with keySeqs := astore st.keySeqs (refCompOf pc dn2) ((getKeySeq st.keySeqs (refCompOf pc dn2)).nextKey (scopedKeyOf pc dn2)).2 } pc base (VTree.elem d2 cs2) (by
                    rw [Mirror]
                    exact ⟨hm1, hm2, hm3, hm4, hm5⟩) rfl rfl rfl rfl
                have hseqA : SeqFresh ({ st with keySeqs := astore st.keySeqs (refCompOf pc dn2) ((getKeySeq st.keySeqs (refCompOf pc dn2)).nextKey (scopedKeyOf pc dn2)).2 } : MState).keySeqs (keyOccsList pc cs2) := by
                  intro q hq
                  have hsc := stored_consume st.keySeqs (refCompOf pc dn2)
                    (scopedKeyOf pc dn2) q.1 q.2
                  rw [if_neg ?hne2, Nat.add_zero] at hsc
                  case hne2 =>
                    rintro ⟨h1, h2⟩
                    apply hn0
                    have hq0 : (refCompOf pc d2, scopedKeyOf pc d2) = q := by
                      rw [← hrc, ← hsk, h1, h2]
                    rw [hq0]
                    exact hq
                  exact hsc.trans (hseq q (by
                    rw [hoccs]
                    refine List.mem_append.2 (Or.inl ?_)
                    rw [hoccv2]
                    exact List.mem_cons.2 (Or.inr hq)))
                have hndA : (keyOccsList pc cs2).Nodup := by
                  have h1 := hndp.1
                  rw [hoccv2] at h1
                  exact (List.nodup_cons.1 h1).2
                have hframeE := ihE { st with keySeqs := astore st.keySeqs (refCompOf pc dn2) ((getKeySeq st.keySeqs (refCompOf pc dn2)).nextKey (scopedKeyOf pc dn2)).2 } base pc dn2 csn2 (some (scopedKeyOf pc dn2)) (ownerOfD pc dn2) hwv heqv hmA hseqA hndA
                have hframeH := p2frame_trans hframeA
                  (p2frame_weaken hframeE base
                    (rsizeT (VTree.elem d2 cs2))
                    (keyOccsOf pc (VTree.elem d2 cs2)) le_rfl le_rfl
                    (fun q hq hmem => hq (by
                      rw [keyOccsOf_elem]
                      exact List.mem_append.2 (Or.inr hmem))))
                rw [hstep]
                exact p2_cons_finish st _ fromNode base pc
                  (VTree.elem d2 cs2) rest rest' pnd pre ihR hframeH hwr
                  heqr hmr hseq hnd hpnd hch hpre hpar hfn
            · have hktF : keyTruthy (vKeyOf (VTree.elem dn2 csn2))
                  = false := by
                cases h : keyTruthy (vKeyOf (VTree.elem dn2 csn2))
                · rfl
                · exact absurd h hkt
              have hktd2 : keyTruthy d2.key = false := by
                rw [hkey2]
                exact hktF
              have hoccv2u : keyOccsOf pc (VTree.elem d2 cs2)
                  = keyOccsList pc cs2 := by
                rw [keyOccsOf_elem, hktd2]
                simp
              have hcond : (!keyTruthy (vKeyOf (VTree.elem d2 cs2))
                  && compareNodeNames (VTree.elem d2 cs2)
                    (VTree.elem dn2 csn2)) = true := by
                show (!keyTruthy d2.key && (d2.tag == dn2.tag)) = true
                rw [hktd2, htag2, beq_self_eq_true]
                rfl
              have hstep : outerLoop st fromNode pc
                  (idsOfChildren base (VTree.elem d2 cs2 :: rest)).head?
                  fromNext (VTree.elem dn2 csn2 :: rest')
                  = outerLoop (morphElM st base (VTree.elem d2 cs2) (VTree.elem dn2 csn2) (vKeyOf (VTree.elem dn2 csn2)) ((vOwnerOf (VTree.elem dn2 csn2)).getD pc) pc) fromNode pc
                    (idsOfChildren (base + rsizeT (VTree.elem d2 cs2))
                      rest).head?
                    (idsOfChildren (base + rsizeT (VTree.elem d2 cs2))
                      rest).head?
                    rest' := by
                rw [hidshead, outerLoop]
                simp only [hktF, Bool.false_eq_true, reduceIte]
                rw [scanLoop_elem_hit st fromNode pc
                  ((vOwnerOf (VTree.elem dn2 csn2)).getD pc) dn2 csn2 base
                  d2 (idsOfChildren (base + 1) cs2) (VTree.elem d2 cs2)
                  st.dom.length hm1 hm2 hcond]
                rw [hnb]
                rfl
              have hseqE : SeqFresh st.keySeqs (keyOccsList pc cs2) := by
                intro q hq
                exact hseq q (by
                  rw [hoccs]
                  refine List.mem_append.2 (Or.inl ?_)
                  rw [hoccv2u]
                  exact hq)
              have hndE : (keyOccsList pc cs2).Nodup := by
                have h1 := hndp.1
                rw [hoccv2u] at h1
                exact h1
              have hframeE := ihE st base pc dn2 csn2
                (vKeyOf (VTree.elem dn2 csn2))
                ((vOwnerOf (VTree.elem dn2 csn2)).getD pc) hwv heqv (by
                  rw [Mirror]
                  exact ⟨hm1, hm2, hm3, hm4, hm5⟩) hseqE hndE
              have hframeH := p2frame_weaken hframeE base
                (rsizeT (VTree.elem d2 cs2))
                (keyOccsOf pc (VTree.elem d2 cs2)) le_rfl le_rfl
                (fun q hq hmem => hq (by
                  rw [hoccv2u]
                  exact hmem))
              rw [hstep]
              exact p2_cons_finish st _ fromNode base pc
                (VTree.elem d2 cs2) rest rest' pnd pre ihR hframeH hwr
                heqr hmr hseq hnd hpnd hch hpre hpar hfn

theorem p2El (v : VTree) : P2ElP v := (p2_all (vsize v)).1 v le_rfl

theorem p2Lst (cs : List VTree) : P2LstP cs :=
  (p2_all (vsizeList cs)).2 cs le_rfl

/-!
## The idempotence theorem

A first render of a well-formed virtual tree into a fresh container leaves
the mirrored annotations; re-running `morphdom` against any value-identical
tree then logs no DOM mutation.
-/

theorem freshOK_initial (ctag : String) : FreshOK (initialContainer ctag) := by
  refine ⟨?_, ?_, ?_, ?_⟩
  · intro n hn
    have hn1 : 1 ≤ n := hn
    have h0 : ¬((0 : Nat) = n) := by omega
    show nlookup [(0, newRNode RKind.elem ctag [] "" "" false false false)]
      n = none
    simp [nlookup, h0]
  · intro n _
    rfl
  · intro n _
    rfl
  · intro n hn e he
    rw [show (initialContainer ctag).dom
      = [(0, newRNode RKind.elem ctag [] "" "" false false false)]
      from rfl] at he
    rw [List.mem_singleton] at he
    rw [he]
    show n ∉ (newRNode RKind.elem ctag [] "" "" false false false).children
    rw [show (newRNode RKind.elem ctag [] "" "" false false
      false).children = [] from rfl]
    exact List.not_mem_nil n

theorem wfL_children {V : VTree} (hw : wfT V = true) :
    wfL (vchildren V) = true := by
  cases V with
  | elem d cs => exact (wfT_elem hw).2.2.2
  | text s =>
    rw [show vchildren (VTree.text s) = [] from rfl, wfL]
  | comment s =>
    rw [show vchildren (VTree.comment s) = [] from rfl, wfL]

theorem nodup_children {pc : String} {V : VTree}
    (hnd : (keyOccsOf pc V).Nodup) :
    (keyOccsList pc (vchildren V)).Nodup := by
  cases V with
  | elem d cs =>
    rw [keyOccsOf_elem] at hnd
    exact (nodup_append_parts hnd).2.1
  | text s =>
    rw [show vchildren (VTree.text s) = [] from rfl, keyOccsList]
    exact List.nodup_nil
  | comment s =>
    rw [show vchildren (VTree.comment s) = [] from rfl, keyOccsList]
    exact List.nodup_nil

theorem treeEquiv_children {V V2 : VTree} (heq : treeEquiv V V2 = true) :
    treeEquivList (vchildren V) (vchildren V2) = true := by
  cases V with
  | elem d cs =>
    cases V2 with
    | elem d2 cs2 => exact (treeEquiv_elem heq).2.2.2.2.2.2.2.2.2
    | text s2 => exact Bool.noConfusion heq
    | comment s2 => exact Bool.noConfusion heq
  | text s =>
    cases V2 with
    | elem d2 cs2 => exact Bool.noConfusion heq
    | text s2 =>
      rw [show vchildren (VTree.text s) = [] from rfl,
        show vchildren (VTree.text s2) = [] from rfl, treeEquivList]
    | comment s2 => exact Bool.noConfusion heq
  | comment s =>
    cases V2 with
    | elem d2 cs2 => exact Bool.noConfusion heq
    | text s2 => exact Bool.noConfusion heq
    | comment s2 =>
      rw [show vchildren (VTree.comment s) = [] from rfl,
        show vchildren (VTree.comment s2) = [] from rfl, treeEquivList]

theorem seqFresh_nil (seqs : List (String × KeySequence))
    (occs : List (String × String)) (h : seqs = []) :
    SeqFresh seqs occs := by
  intro q _
  rw [h]
  rfl

/-- The first render pass from a fresh container: the child loop appends
the mirrored subtrees under the container and the deferred detach pass is
empty. -/
theorem pass1_result (ctag pc : String) (V : VTree)
    (hw : wfT V = true) (hnd : (keyOccsOf pc V).Nodup) :
    morphdomM (initialContainer ctag) 0 V pc
      = (outerLoop (initialContainer ctag) 0 pc none none
          (vchildren V)).1 ∧
    P1LConcl (initialContainer ctag) 0 pc (vchildren V)
      (outerLoop (initialContainer ctag) 0 pc none none (vchildren V)).1 := by
  obtain ⟨hret, hL⟩ := p1Lst (vchildren V) (initialContainer ctag) 0 pc
    (wfL_children hw) (freshOK_initial ctag) Nat.one_pos
    ⟨newRNode RKind.elem ctag [] "" "" false false false, rfl⟩
    (seqFresh_nil _ _ rfl) (fun q _ => rfl) (nodup_children hnd)
  refine ⟨?_, hL⟩
  show processDetachedList (morphChildrenM (initialContainer ctag) 0 V pc)
      (morphChildrenM (initialContainer ctag) 0 V pc).detachedNodes = _
  have hmc : morphChildrenM (initialContainer ctag) 0 V pc
      = (outerLoop (initialContainer ctag) 0 pc none none
          (vchildren V)).1 := by
    rw [morphChildrenM]
    rw [show firstChildR (initialContainer ctag) 0 = none from rfl]
    show leftoverLoop
        ((outerLoop (initialContainer ctag) 0 pc none none
          (vchildren V)).1.dom.length + 1)
        (outerLoop (initialContainer ctag) 0 pc none none (vchildren V)).1
        0 pc
        (outerLoop (initialContainer ctag) 0 pc none none
          (vchildren V)).2 = _
    rw [hret]
    exact leftoverLoop_noneCur _ _ _ _
  rw [hmc]
  rw [show (outerLoop (initialContainer ctag) 0 pc none none
    (vchildren V)).1.detachedNodes
    = (initialContainer ctag).detachedNodes from hL.detN]
  rfl

/-- The second render pass over a mirrored container: with a value-identical
virtual tree it logs nothing. -/
theorem pass2_result (pc : String) (V V2 : VTree) (stP1 : MState)
    (nd0 : RNode)
    (hw : wfT V = true) (heq : treeEquiv V V2 = true)
    (hnd : (keyOccsOf pc V).Nodup)
    (hg0 : stP1.getNode 0 = some { nd0 with children := nd0.children ++ idsOfChildren 1 (vchildren V) })
    (hch0 : nd0.children = [])
    (hmir : MirrorChildren stP1 pc 1 (vchildren V))
    (hpar : ∀ c ∈ idsOfChildren 1 (vchildren V),
      domParent stP1.dom c = some 0) :
    (morphdomM { stP1 with log := [] } 0 V2 pc).log = [] := by
  have hchI : ({ nd0 with children := nd0.children ++ idsOfChildren 1 (vchildren V) } : RNode).children = idsOfChildren 1 (vchildren V) := by
    show nd0.children ++ idsOfChildren 1 (vchildren V)
      = idsOfChildren 1 (vchildren V)
    rw [hch0, List.nil_append]
  have hmirB : MirrorChildren { stP1 with log := [], keySeqs := [], detachedNodes := [] } pc 1 (vchildren V) :=
    mirrorChildren_of_eq hmir rfl rfl rfl rfl
  have hg0B : ({ stP1 with log := [], keySeqs := [], detachedNodes := [] } : MState).getNode 0 = some { nd0 with children := nd0.children ++ idsOfChildren 1 (vchildren V) } := hg0
  obtain ⟨hret2, hfr⟩ := p2Lst (vchildren V)
    { stP1 with log := [], keySeqs := [], detachedNodes := [] }
    0 1 pc (vchildren V2)
    { nd0 with children := nd0.children ++ idsOfChildren 1 (vchildren V) }
    [] none
    (wfL_children hw) (treeEquiv_children heq) hmirB
    (seqFresh_nil _ _ rfl) (nodup_children hnd)
    hg0B
    (by rw [hchI, List.nil_append])
    (fun c _ => List.not_mem_nil c)
    hpar
    Nat.one_pos
  have hfc : firstChildR
      { stP1 with log := [], keySeqs := [], detachedNodes := [] } 0
      = (idsOfChildren 1 (vchildren V)).head? := by
    rw [firstChildR, hg0B]
    show ({ nd0 with children := nd0.children ++ idsOfChildren 1 (vchildren V) } : RNode).children.head? = _
    rw [hchI]
  show (processDetachedList
      (morphChildrenM
        { stP1 with log := [], keySeqs := [], detachedNodes := [] } 0 V2 pc)
      (morphChildrenM
        { stP1 with log := [], keySeqs := [], detachedNodes := [] } 0 V2
        pc).detachedNodes).log = []
  have hmc : morphChildrenM
      { stP1 with log := [], keySeqs := [], detachedNodes := [] } 0 V2 pc
      = (outerLoop { stP1 with log := [], keySeqs := [], detachedNodes := [] } 0 pc (idsOfChildren 1 (vchildren V)).head? none (vchildren V2)).1 := by
    rw [morphChildrenM, hfc, hret2]
    exact leftoverLoop_noneCur _ _ _ _
  rw [hmc]
  rw [show ((outerLoop { stP1 with log := [], keySeqs := [], detachedNodes := [] } 0 pc (idsOfChildren 1 (vchildren V)).head? none (vchildren V2)).1).detachedNodes = ([] : List Nat) from hfr.detN2]
  show ((outerLoop { stP1 with log := [], keySeqs := [], detachedNodes := [] } 0 pc (idsOfChildren 1 (vchildren V)).head? none (vchildren V2)).1).log = []
  exact hfr.log2

/-- C1 (amended): rendering a well-formed virtual tree `V` (distinct
attribute names, no `xlink:href` attributes, childless textareas, custom
elements not on special tags) with collision-free scoped keys into a fresh
container, then running `morphdom` again with any value-identical tree
`V2`, performs zero logged DOM mutations: no insert, move, remove,
attribute set or removal, or nodeValue assignment. (The unrestricted claim
is false: an `xlink:href` attribute is re-set on every pass, see the
counterexample.) -/
theorem morph_idempotent_on_wf (ctag pc : String) (V V2 : VTree)
    (hw : wfT V = true) (heq : treeEquiv V V2 = true)
    (hnd : (keyOccsOf pc V).Nodup) :
    (morphdomM { morphdomM (initialContainer ctag) 0 V pc with log := [] }
      0 V2 pc).log = [] := by
  obtain ⟨hp1, hL⟩ := pass1_result ctag pc V hw hnd
  rw [hp1]
  refine pass2_result pc V V2 _
    (newRNode RKind.elem ctag [] "" "" false false false)
    hw heq hnd ?_ rfl ?_ ?_
  · exact hL.gPar _ rfl
  · exact hL.mirC
  · exact hL.kidsPar

/-- The re-render's container in the original order `[A, B]`: value-identical
to `wsCont1`, with the fresh attribute map identities of a second render. -/
def wsCont1b : VTree :=
  VTree.elem
    { tag := "div", key := none, attrs := { ref := 27, entries := [] },
      flags := 0, constId := none, owner := none, preserve := false,
      valueInternal := none, preserveTextAreaValue := false } [wsA2, wsB2]

theorem morph_idempotent_on_wf_witness :
    (morphdomM { morphdomM (initialContainer "div") 0 wsCont1 "PC" with log := [] } 0 wsCont1b "PC").log = [] :=
  morph_idempotent_on_wf "div" "PC" wsCont1 wsCont1b
    (by simp [wsCont1, wsA, wsB, wfT, wfL]; decide)
    (by simp [wsCont1, wsCont1b, wsA, wsB, wsA2, wsB2, treeEquiv,
      treeEquivList])
    (by simp [wsCont1, wsA, wsB, keyOccsOf, keyOccsList]; decide)

end Marko
